import Mathlib

/-! # uFork assembler (`ufork-wasm/www/assemble.js`)

A shallow embedding of the assembler pipeline: the tokenizer, the PEG
combinators and the grammar built from them, and the CRLF generator.

Conventions of the embedding.

* Source text is a list of characters, one per UTF-16 code unit.
* The pair of the closure variable `source` and `rx_token.lastIndex` is kept
  as the unread suffix of the source; `source = undefined` is `none`.
* JavaScript objects become structures.  The parse tree stays untyped, as in
  the source: a node is a token, `undefined` or an array, and `Node.get` is
  indexing.  On the trees that `module` builds every position the generator
  reads holds what the grammar put there.
* A `throw` is the `fail` outcome, carrying the thrown `message` and `token`.
* A loop or recursion of the source that is not bounded by its argument
  (`repeat`, `maybe_kind`) takes a fuel argument and answers `diverge` when the
  fuel is spent.
-/

namespace UFork

/-! ## Tokenizer -/

/-- A token object.  `id`, `line_nr` and `column_nr` are present on every
token.  `name`, `number`, `text`, `comment` and `string` are present on one
kind of token each and are read only after `id` has been compared with that
kind; on the other kinds they hold a default value here.  `alphameric` is
present (and `true`) on names only, `column_to` is absent on newlines and on
the error token. -/
structure Token where
  id : String
  alphameric : Bool := false
  name : String := ""
  number : Int := 0
  text : String := ""
  comment : String := ""
  string : String := ""
  line_nr : Nat
  column_nr : Nat
  column_to : Option Nat := none
deriving DecidableEq

/-- Character class `[a-zA-Z]`. -/
def is_letter (c : Char) : Bool :=
  (97 ≤ c.toNat && c.toNat ≤ 122) || (65 ≤ c.toNat && c.toNat ≤ 90)

/-- Character class `\d`, which is `[0-9]`. -/
def is_digit (c : Char) : Bool :=
  48 ≤ c.toNat && c.toNat ≤ 57

/-- Character class `[0-9a-zA-Z]`. -/
def is_alphameric (c : Char) : Bool :=
  is_digit c || is_letter c

/-- Character class `[\-_]`. -/
def is_separator (c : Char) : Bool :=
  c = '-' || c = '_'

/-- Character class `[a-z_?]`. -/
def is_literal_char (c : Char) : Bool :=
  (97 ≤ c.toNat && c.toNat ≤ 122) || c = '_' || c = '?'

/-- Character class `[.:#?]`. -/
def is_punctuator (c : Char) : Bool :=
  c = '.' || c = ':' || c = '#' || c = '?'

/-- A line terminator: the characters `.` does not match. -/
def is_line_terminator (c : Char) : Bool :=
  c.toNat = 10 || c.toNat = 13 || c.toNat = 8232 || c.toNat = 8233

/-- Greedy `x*` for a character class: the longest prefix in the class and
what follows it. -/
def rx_star (p : Char → Bool) : List Char → List Char × List Char
  | [] => ([], [])
  | c :: cs =>
    if p c then ((c :: (rx_star p cs).1), (rx_star p cs).2) else ([], c :: cs)

/-- Group 1, the pattern `\n | \r \n?`. -/
def rx_newline : List Char → Option (List Char × List Char)
  | '\n' :: cs => some (['\n'], cs)
  | '\r' :: '\n' :: cs => some (['\r', '\n'], cs)
  | '\r' :: cs => some (['\r'], cs)
  | _ => none

/-- Group 2, the pattern ` +`. -/
def rx_spaces : List Char → Option (List Char × List Char)
  | ' ' :: cs => some (' ' :: (rx_star (fun c => c = ' ') cs).1, (rx_star (fun c => c = ' ') cs).2)
  | _ => none

/-- Group 3, the pattern `; .*`. -/
def rx_comment : List Char → Option (List Char × List Char)
  | ';' :: cs =>
    some (';' :: (rx_star (fun c => !is_line_terminator c) cs).1,
      (rx_star (fun c => !is_line_terminator c) cs).2)
  | _ => none

/-- The pattern `(?: [\-_]? [0-9a-zA-Z] )*` of group 4. -/
def rx_name_tail : List Char → List Char × List Char
  | [] => ([], [])
  | [c] => if is_alphameric c then ([c], []) else ([], [c])
  | c :: d :: cs =>
    if is_separator c && is_alphameric d then
      (c :: d :: (rx_name_tail cs).1, (rx_name_tail cs).2)
    else if is_alphameric c then
      (c :: (rx_name_tail (d :: cs)).1, (rx_name_tail (d :: cs)).2)
    else ([], c :: d :: cs)

/-- The pattern `\??`. -/
def rx_optional_question : List Char → List Char × List Char
  | '?' :: cs => (['?'], cs)
  | cs => ([], cs)

/-- Group 4, the pattern `[a-zA-Z] (?: [\-_]? [0-9a-zA-Z] )* \??`. -/
def rx_name : List Char → Option (List Char × List Char)
  | [] => none
  | c :: cs =>
    if is_letter c then
      some (c :: (rx_name_tail cs).1 ++ (rx_optional_question (rx_name_tail cs).2).1,
        (rx_optional_question (rx_name_tail cs).2).2)
    else none

/-- Group 5, the pattern `# [a-z_?]+`. -/
def rx_literal : List Char → Option (List Char × List Char)
  | '#' :: c :: cs =>
    if is_literal_char c then
      some ('#' :: c :: (rx_star is_literal_char cs).1, (rx_star is_literal_char cs).2)
    else none
  | _ => none

/-- Group 6, the pattern `-? [1-9] \d* | 0`. -/
def rx_fixnum : List Char → Option (List Char × List Char)
  | '-' :: c :: cs =>
    if is_digit c && c ≠ '0' then
      some ('-' :: c :: (rx_star is_digit cs).1, (rx_star is_digit cs).2)
    else none
  | c :: cs =>
    if is_digit c && c ≠ '0' then
      some (c :: (rx_star is_digit cs).1, (rx_star is_digit cs).2)
    else if c = '0' then some (['0'], cs)
    else none
  | [] => none

/-- Group 7, the pattern `" [^"]* "`. -/
def rx_string : List Char → Option (List Char × List Char)
  | '"' :: cs =>
    match (rx_star (fun c => c ≠ '"') cs).2 with
    | '"' :: rest => some ('"' :: (rx_star (fun c => c ≠ '"') cs).1 ++ ['"'], rest)
    | _ => none
  | _ => none

/-- Group 8, the pattern `[.:#?]`. -/
def rx_punctuator : List Char → Option (List Char × List Char)
  | [] => none
  | c :: cs => if is_punctuator c then some ([c], cs) else none

/-- Value of a string of decimal digits, most significant first. -/
def digits_value (cs : List Char) : Nat :=
  cs.foldl (fun n c => 10 * n + (c.toNat - 48)) 0

/-- The call `parseInt(text, 10)` on a match of group 6. -/
def parseInt : List Char → Int
  | '-' :: cs => - (digits_value cs : Int)
  | cs => (digits_value cs : Int)

/-- The predicate `Number.isSafeInteger` on an integer value:
the magnitude is at most `2^53 - 1`. -/
def isSafeInteger (n : Int) : Bool :=
  n.natAbs ≤ 9007199254740991

/-- The variables closed over by `token_generator`: `source` (with
`rx_token.lastIndex` already dropped from its front), `line_nr` and
`column_to`. -/
structure TokenizerState where
  source : Option (List Char)
  line_nr : Nat
  column_to : Nat
deriving DecidableEq

/-- The inner function `error` of `token_generator`: it sets `source` to
`undefined` and makes the error token at the current line and `column_to`. -/
def error (line_nr column_to : Nat) : Option Token × TokenizerState :=
  (some { id := ":error:", line_nr := line_nr, column_nr := column_to },
    { source := none, line_nr := line_nr, column_to := column_to })

/-- One call of `token_generator`: the token returned (`none` is `undefined`)
and the state left behind. -/
def token_generator (s : TokenizerState) : Option Token × TokenizerState :=
  match s.source with
  | none => error s.line_nr s.column_to
  | some [] => (none, s)
  | some (c :: cs) =>
    let src := c :: cs
    let line_nr := s.line_nr
    let column_nr := s.column_to
    match rx_newline src with
    | some (_, rest) =>
      (some { id := "\n", line_nr := line_nr, column_nr := column_nr },
        { source := some rest, line_nr := line_nr + 1, column_to := 0 })
    | none =>
    match rx_spaces src with
    | some (m, rest) =>
      let column_to := column_nr + m.length
      (some { id := " ", line_nr := line_nr, column_nr := column_nr, column_to := some column_to },
        { source := some rest, line_nr := line_nr, column_to := column_to })
    | none =>
    match rx_comment src with
    | some (m, rest) =>
      let column_to := column_nr + m.length
      (some { id := ":comment:", comment := String.mk (m.drop 1), line_nr := line_nr,
              column_nr := column_nr, column_to := some column_to },
        { source := some rest, line_nr := line_nr, column_to := column_to })
    | none =>
    match rx_name src with
    | some (m, rest) =>
      let column_to := column_nr + m.length
      (some { id := String.mk m, alphameric := true, line_nr := line_nr,
              column_nr := column_nr, column_to := some column_to },
        { source := some rest, line_nr := line_nr, column_to := column_to })
    | none =>
    match rx_literal src with
    | some (m, rest) =>
      let column_to := column_nr + m.length
      (some { id := ":literal:", name := String.mk (m.drop 1), line_nr := line_nr,
              column_nr := column_nr, column_to := some column_to },
        { source := some rest, line_nr := line_nr, column_to := column_to })
    | none =>
    match rx_fixnum src with
    | some (m, rest) =>
      let column_to := column_nr + m.length
      if isSafeInteger (parseInt m) then
        (some { id := ":number:", number := parseInt m, text := String.mk m,
                line_nr := line_nr, column_nr := column_nr, column_to := some column_to },
          { source := some rest, line_nr := line_nr, column_to := column_to })
      else error line_nr column_to
    | none =>
    match rx_string src with
    | some (m, rest) =>
      let column_to := column_nr + m.length
      (some { id := ":string:", string := String.mk ((m.drop 1).dropLast),
              line_nr := line_nr, column_nr := column_nr, column_to := some column_to },
        { source := some rest, line_nr := line_nr, column_to := column_to })
    | none =>
    match rx_punctuator src with
    | some (m, rest) =>
      let column_to := column_nr + m.length
      (some { id := String.mk m, line_nr := line_nr, column_nr := column_nr,
              column_to := some column_to },
        { source := some rest, line_nr := line_nr, column_to := column_to })
    | none => error line_nr column_nr

/-- The function `tokenize`: the initial state of the generator it returns. -/
def tokenize (source : String) : TokenizerState :=
  { source := some source.data, line_nr := 0, column_to := 0 }

/-- The array `tokens` that `make_input` fills by calling `token_generator`
until the first `undefined` or error token; `fuel` bounds the number of calls.
The second component is what every later call returns: `none`
for `undefined`, or the error token. -/
def token_stream : Nat → TokenizerState → List Token × Option Token
  | 0, _ => ([], none)
  | fuel + 1, s =>
    match token_generator s with
    | (none, _) => ([], none)
    | (some t, s1) =>
      if t.id = ":error:" then ([], some t)
      else (t :: (token_stream fuel s1).1, (token_stream fuel s1).2)

/-! ## Parser -/

/-- A parse node: a token, `undefined`, or an array of nodes. -/
inductive Node where
  | token (t : Token)
  | undefined
  | arr (ns : List Node)

/-- Indexing `node[i]`; `undefined` when there is no such element. -/
def Node.get : Node → Nat → Node
  | .arr ns, i => ns.getD i .undefined
  | _, _ => .undefined

/-- The elements of an array node. -/
def Node.items : Node → List Node
  | .arr ns => ns
  | _ => []

/-- The check `Array.isArray(node)`. -/
def Node.isArray : Node → Bool
  | .arr _ => true
  | _ => false

/-- The property `node.id`; the empty string, which no token carries, stands
for `undefined`. -/
def Node.id : Node → String
  | .token t => t.id
  | _ => ""

/-- The test `node.alphameric === true`. -/
def Node.alphameric : Node → Bool
  | .token t => t.alphameric
  | _ => false

/-- The property `node.name`, read on literal tokens. -/
def Node.name : Node → String
  | .token t => t.name
  | _ => ""

/-- The property `node.number`, read on number tokens. -/
def Node.number : Node → Int
  | .token t => t.number
  | _ => 0

/-- The property `node.string`, read on string tokens. -/
def Node.string : Node → String
  | .token t => t.string
  | _ => ""

/-- The property `node?.line_nr`. -/
def Node.line_nr : Node → Option Nat
  | .token t => some t.line_nr
  | _ => none

/-- The property `node?.column_nr`. -/
def Node.column_nr : Node → Option Nat
  | .token t => some t.column_nr
  | _ => none

/-- A failure object `{message, token}`, returned by a matcher or thrown by
the generator. -/
structure Failure where
  message : String
  token : Node

/-- What a computation of the source comes to: a value, a failure object, or
no answer at all. -/
inductive Outcome (α : Type) where
  | ok (a : α)
  | fail (f : Failure)
  | diverge

/-- The input cursor made by `make_input`: the tokens from `position` on, and
what `token_generator` returns once they are used up. -/
structure Input where
  tokens : List Token
  rest : Option Token

/-- The property `input.token`. -/
def Input.token (input : Input) : Option Token :=
  match input.tokens with
  | t :: _ => some t
  | [] => input.rest

/-- The method `input.next()`. -/
def Input.next (input : Input) : Input :=
  { tokens := input.tokens.tail, rest := input.rest }

/-- The value `input.token` as a node. -/
def Input.token_node (input : Input) : Node :=
  match input.token with
  | some t => .token t
  | none => .undefined

/-- A matcher: a success `[input, node]`, or a failure object. -/
abbrev Matcher := Input → Outcome (Input × Node)

def zero : Matcher :=
  fun input => .ok (input, .undefined)

def one (make_node : Token → Option Token) : Matcher :=
  fun input =>
    match input.token with
    | none => .fail { message := "Unexpected end of stream.", token := .undefined }
    | some t =>
      match make_node t with
      | some node => .ok (input.next, .token node)
      | none => .fail { message := "Unexpected.", token := .token t }

def or : List Matcher → Matcher
  | [], input => .fail { message := "Unexpected", token := input.token_node }
  | matcher :: matcher_array, input =>
    match matcher input with
    | .ok result => .ok result
    | .fail _ => or matcher_array input
    | .diverge => .diverge

/-- The loop of `and_matcher`, with the nodes pushed so far. -/
def and_loop : List Matcher → List Node → Matcher
  | [], nodes, input => .ok (input, .arr nodes)
  | matcher :: matcher_array, nodes, input =>
    match matcher input with
    | .ok (input1, node) => and_loop matcher_array (nodes ++ [node]) input1
    | .fail f => .fail f
    | .diverge => .diverge

def and (matcher_array : List Matcher) : Matcher :=
  and_loop matcher_array []

/-- The loop of `repeat_matcher`, with the nodes pushed so far. -/
def repeat_loop (matcher : Matcher) : Nat → List Node → Matcher
  | 0, _, _ => .diverge
  | fuel + 1, nodes, input =>
    match matcher input with
    | .ok (input1, node) => repeat_loop matcher fuel (nodes ++ [node]) input1
    | .fail _ => .ok (input, .arr nodes)
    | .diverge => .diverge

def «repeat» (fuel : Nat) (matcher : Matcher) : Matcher :=
  repeat_loop matcher fuel []

def many (fuel : Nat) (matcher : Matcher) : Matcher :=
  fun input =>
    match matcher input with
    | .ok (input1, head) =>
      match «repeat» fuel matcher input1 with
      | .ok (input2, tail) => .ok (input2, .arr (head :: tail.items))
      | .fail f => .fail f
      | .diverge => .diverge
    | .fail f => .fail f
    | .diverge => .diverge

def optional (matcher : Matcher) : Matcher :=
  or [matcher, zero]

/-! ### Grammar -/

def id (the_id : String) : Matcher :=
  one (fun token => if token.id = the_id then some token else none)

def spaces : Matcher := id " "

def indent : Matcher := spaces

def newline : Matcher :=
  and [optional (and [optional spaces, id ":comment:"]), id "\n"]

def directive (name : String) : Matcher :=
  and [id ".", id name]

def name : Matcher :=
  one (fun token => if token.alphameric = true then some token else none)

def importation (fuel : Nat) : Matcher :=
  and [indent, name, id ":", spaces, id ":string:", many fuel newline]

def import_declaration (fuel : Nat) : Matcher :=
  and [directive "import", many fuel newline, many fuel (importation fuel)]

def label (fuel : Nat) : Matcher :=
  and [name, id ":", many fuel newline]

def pound : Matcher :=
  one (fun token => if token.id = ":literal:" then some token else none)

def ref : Matcher :=
  or [and [name, id ".", name], name]

def value : Matcher :=
  or [pound, id ":number:", ref]

def operand : Matcher :=
  and [spaces, value]

def statement (fuel : Nat) : Matcher :=
  and [indent, name, «repeat» fuel operand, many fuel newline]

def definition (fuel : Nat) : Matcher :=
  and [many fuel (label fuel), many fuel (statement fuel)]

def exportation (fuel : Nat) : Matcher :=
  and [indent, name, many fuel newline]

def export_declaration (fuel : Nat) : Matcher :=
  and [directive "export", many fuel newline, many fuel (exportation fuel)]

def module (fuel : Nat) : Matcher :=
  and [«repeat» fuel newline, optional (import_declaration fuel),
    «repeat» fuel (definition fuel), optional (export_declaration fuel)]

/-- The function `make_input` applied to the generator in state `s`: the
cursor at position 0.  Every token consumes at least one character, so the
generator is called at most once per character and once more. -/
def make_input (s : TokenizerState) : Input :=
  match s.source with
  | some src =>
    { tokens := (token_stream (src.length + 1) s).1, rest := (token_stream (src.length + 1) s).2 }
  | none => { tokens := [], rest := (token_generator s).1 }

/-- The function `parse`.  Each turn of a `repeat` loop consumes a token, so
one more unit of fuel than there are tokens is never spent. -/
def parse (s : TokenizerState) : Outcome Node :=
  let input := make_input s
  match module (input.tokens.length + 1) input with
  | .ok (input1, tree) =>
    match input1.token with
    | some t => .fail { message := "Unexpected token.", token := .token t }
    | none => .ok tree
  | .fail f => .fail f
  | .diverge => .diverge

/-! ## CRLF generator -/

/-- The table `imm_labels`, as a function of the operator. -/
def imm_labels (op : String) : List String :=
  if op = "dict" then ["has", "get", "add", "set", "del"]
  else if op = "alu" then ["not", "and", "or", "xor", "add", "sub", "mul"]
  else if op = "cmp" then ["eq", "ge", "gt", "lt", "le", "ne"]
  else if op = "my" then ["self", "beh", "state"]
  else if op = "deque" then ["new", "empty", "push", "pop", "put", "pull", "len"]
  else if op = "end" then ["abort", "stop", "commit", "release"]
  else []

/-- The object `debug` of a node: `file` and `line`. -/
structure Debug where
  file : String
  line : Option Nat
deriving DecidableEq

/-- A node of the intermediate representation.  `fixnum` is a raw number.
The four shapes of a node of kind `"instr"` are kept apart: with an
immediate node (`instr`), with an immediate label (`instr_label`), `depth`
without immediate (`instr_depth`), `if` with two branches (`instr_if`) and
`end` without continuation (`instr_end`). -/
inductive IR where
  | literal (value : String)
  | type (name : String)
  | fixnum (number : Int)
  | ref (module : Option String) (name : String) (debug : Option Debug)
  | pair (head tail : IR) (debug : Debug)
  | dict (key value next : IR) (debug : Debug)
  | instr (op : String) (imm k : IR) (debug : Debug)
  | instr_label (op imm : String) (k : IR) (debug : Debug)
  | instr_depth (k : IR) (debug : Debug)
  | instr_if (t f : IR) (debug : Debug)
  | instr_end (imm : String) (debug : Debug)
deriving DecidableEq

/-- The property `node.kind`; a raw number has none. -/
def IR.kind : IR → Option String
  | .literal _ => some "literal"
  | .type _ => some "type"
  | .fixnum _ => none
  | .ref _ _ _ => some "ref"
  | .pair _ _ _ => some "pair"
  | .dict _ _ _ _ => some "dict"
  | .instr _ _ _ _ => some "instr"
  | .instr_label _ _ _ _ => some "instr"
  | .instr_depth _ _ => some "instr"
  | .instr_if _ _ _ => some "instr"
  | .instr_end _ _ => some "instr"

/-- Reading `object[key]` on an object made by `Object.create(null)`. -/
def obj_get {α : Type} : List (String × α) → String → Option α
  | [], _ => none
  | (k, v) :: rest, key => if k = key then some v else obj_get rest key

/-- The assignment `object[key] = value`: an existing key keeps its place. -/
def obj_set {α : Type} : List (String × α) → String → α → List (String × α)
  | [], key, value => [(key, value)]
  | (k, v) :: rest, key, value =>
    if k = key then (k, value) :: rest else (k, v) :: obj_set rest key value

/-- The keys of an object. -/
def obj_keys {α : Type} (object : List (String × α)) : List String :=
  object.map Prod.fst

/-- The function `fail`: it throws `{message, token}`. -/
def fail {α : Type} (message : String) (token : Node) : Except Failure α :=
  .error { message := message, token := token }

/-- What a `TypeError` raised by the engine is caught as in `assemble`: an
exception without a `token`. -/
def type_error : Failure :=
  { message := "TypeError", token := .undefined }

def is_label (tree : Node) (name : String) : Bool :=
  (tree.get 2).items.any (fun definition =>
    (definition.get 0).items.any (fun label => (label.get 0).id = name))

def maybe_kind (define_object : List (String × IR)) :
    Nat → Option IR → String → Outcome Bool
  | 0, _, _ => .diverge
  | _ + 1, none, _ => .fail type_error
  | fuel + 1, some (.ref none name _), kind =>
    maybe_kind define_object fuel (obj_get define_object name) kind
  | _ + 1, some (.ref (some _) _ _), _ => .ok true
  | _ + 1, some node, kind => .ok (node.kind = some kind)

def gen_label (operand : Node) (labels : List String) : Except Failure String :=
  let token := operand.get 1
  if token.alphameric = true && labels.contains token.id then pure token.id
  else fail "Bad label" token

def gen_literal (operand : Node) : Except Failure IR :=
  let token := operand.get 1
  if token.id = ":literal:" && token.name = "?" then pure (.literal "undef")
  else if token.id = ":literal:" && token.name = "nil" then pure (.literal "nil")
  else if token.id = ":literal:" && token.name = "unit" then pure (.literal "unit")
  else if token.id = ":literal:" && token.name = "t" then pure (.literal "true")
  else if token.id = ":literal:" && token.name = "f" then pure (.literal "false")
  else fail "Expected a literal" token

def gen_type (operand : Node) : Except Failure IR :=
  let token := operand.get 1
  if token.id = ":literal:" && (
      token.name = "literal_t"
      || token.name = "fixnum_t"
      || token.name = "type_t"
      || token.name = "pair_t"
      || token.name = "dict_t"
      || token.name = "instr_t"
      || token.name = "actor_t") then
    pure (.type token.name)
  else fail "Expected a type" token

def gen_fixnum (operand : Node) : Except Failure IR :=
  let token := operand.get 1
  if token.id = ":number:" then pure (.fixnum token.number)
  else fail "Expected a fixnum" token

/-- The function `gen_ref`.  The second component of the result is what the
call pushed onto `supposed_instructions`. -/
def gen_ref (tree : Node) (file : String) (import_object : List (String × String))
    (operand : Node) (as_instruction : Bool) : Except Failure (IR × List Node) :=
  let token := operand.get 1
  if token.isArray then
    let module_name := (token.get 0).id
    let export_name := (token.get 2).id
    if (obj_get import_object module_name).isNone then fail "Not imported" (token.get 0)
    else
      pure (.ref (some module_name) export_name
        (some { file := file, line := (token.get 0).line_nr }), [])
  else if token.alphameric ≠ true then fail "Expected a name" token
  else if !is_label tree token.id then fail "Not defined" token
  else
    pure (.ref none token.id (some { file := file, line := token.line_nr }),
      if as_instruction then [token] else [])

/-- The call `String.prototype.endsWith`. -/
def endsWith (s suffix : String) : Bool :=
  suffix.data.isSuffixOf s.data

/-- The function `gen_expression`.  It calls `gen_ref` with `as_instruction`
false, which pushes nothing. -/
def gen_expression (tree : Node) (file : String) (import_object : List (String × String))
    (operand : Node) : Except Failure IR :=
  let token := operand.get 1
  if token.id = ":number:" then pure (.fixnum token.number)
  else if token.id = ":literal:" then
    if endsWith token.name "_t" then gen_type operand else gen_literal operand
  else (gen_ref tree file import_object operand false).map Prod.fst

/-- The inner function `operand_check` of `gen_value`. -/
def operand_check (operator operands : Node) (statements : List Node)
    (nr_required nr_optional : Nat) : Except Failure Unit :=
  if operands.items.length < nr_required then fail "Too few operands" operator
  else if operands.items.length > nr_required + nr_optional then
    fail "Unexpected operand" ((operands.get (nr_required + nr_optional)).get 1)
  else if nr_optional = 0 && statements.length > 1 then
    fail "Unexpected" ((statements.getD 1 .undefined).get 1)
  else pure ()

/-- The inner function `gen_continuation_expression` of `gen_value`. -/
def gen_continuation_expression (tree : Node) (file : String)
    (import_object : List (String × String)) (as_instruction : Bool) (operand : Node) :
    Except Failure (IR × List Node) :=
  if as_instruction then gen_ref tree file import_object operand true
  else (gen_expression tree file import_object operand).map (fun node => (node, []))

/-- The inner function `gen_continuation` of `gen_value`; `rest_value` is the
call `gen_value(statements.slice(1), as_instruction)`. -/
def gen_continuation (tree : Node) (file : String) (import_object : List (String × String))
    (operator operands : Node) (statements : List Node) (as_instruction : Bool)
    (rest_value : Bool → Except Failure (IR × List Node)) (operand_nr : Nat) :
    Except Failure (IR × List Node) :=
  match operands.get operand_nr with
  | .undefined =>
    if statements.length > 1 then rest_value as_instruction
    else fail "Missing continuation" operator
  | operand =>
    if statements.length ≤ 1 then
      gen_continuation_expression tree file import_object as_instruction operand
    else fail "Unexpected statement" ((statements.getD 1 .undefined).get 1)

/-- The operators whose immediate is a fixnum. -/
def fixnum_ops : List String :=
  ["pair", "part", "nth", "drop", "pick", "dup", "roll", "eq", "msg", "send", "new", "beh"]

/-- The function `gen_value`.  The second component of the result is what the
call pushed onto `supposed_instructions`, in order. -/
def gen_value (tree : Node) (file : String) (import_object : List (String × String)) :
    List Node → Bool → Except Failure (IR × List Node)
  | [], _ => .error type_error
  | statement :: rest, as_instruction =>
    let statements := statement :: rest
    let operator := statement.get 1
    let operands := statement.get 2
    let debug : Debug := { file := file, line := operator.line_nr }
    let rest_value := gen_value tree file import_object rest
    if operator.id = "pair_t" then
      if as_instruction then fail "Expected an instruction, not data" operator
      else do
        operand_check operator operands statements 1 1
        let head ← gen_expression tree file import_object (operands.get 0)
        let tail ← gen_continuation tree file import_object operator operands statements
          as_instruction rest_value 1
        pure (.pair head tail.1 debug, tail.2)
    else if operator.id = "dict_t" then
      if as_instruction then fail "Expected an instruction, not data" operator
      else do
        operand_check operator operands statements 2 1
        let key ← gen_expression tree file import_object (operands.get 0)
        let value ← gen_expression tree file import_object (operands.get 1)
        let next ← gen_continuation tree file import_object operator operands statements
          as_instruction rest_value 2
        pure (.dict key value next.1 debug, next.2)
    else if operator.id = "ref" then do
      operand_check operator operands statements 1 0
      gen_continuation_expression tree file import_object as_instruction (operands.get 0)
    else if operator.id = "typeq" then do
      operand_check operator operands statements 1 1
      let imm ← gen_type (operands.get 0)
      let k ← gen_continuation tree file import_object operator operands statements
        true rest_value 1
      pure (.instr "typeq" imm k.1 debug, k.2)
    else if fixnum_ops.contains operator.id then do
      operand_check operator operands statements 1 1
      let imm ← gen_fixnum (operands.get 0)
      let k ← gen_continuation tree file import_object operator operands statements
        true rest_value 1
      pure (.instr operator.id imm k.1 debug, k.2)
    else if operator.id = "push" || operator.id = "is_eq" || operator.id = "is_ne" then do
      operand_check operator operands statements 1 1
      let imm ← gen_expression tree file import_object (operands.get 0)
      let k ← gen_continuation tree file import_object operator operands statements
        true rest_value 1
      pure (.instr operator.id imm k.1 debug, k.2)
    else if operator.id = "depth" then do
      operand_check operator operands statements 0 1
      let k ← gen_continuation tree file import_object operator operands statements
        true rest_value 0
      pure (.instr_depth k.1 debug, k.2)
    else if operator.id = "if" then do
      operand_check operator operands statements 1 1
      let t ← gen_ref tree file import_object (operands.get 0) true
      let f ← gen_continuation tree file import_object operator operands statements
        true rest_value 1
      pure (.instr_if t.1 f.1 debug, t.2 ++ f.2)
    else if operator.id = "if_not" then do
      operand_check operator operands statements 1 1
      let f ← gen_ref tree file import_object (operands.get 0) true
      let t ← gen_continuation tree file import_object operator operands statements
        true rest_value 1
      pure (.instr_if t.1 f.1 debug, f.2 ++ t.2)
    else if operator.id = "dict" || operator.id = "deque" || operator.id = "alu"
        || operator.id = "cmp" || operator.id = "my" then do
      operand_check operator operands statements 1 1
      let imm ← gen_label (operands.get 0) (imm_labels operator.id)
      let k ← gen_continuation tree file import_object operator operands statements
        true rest_value 1
      pure (.instr_label operator.id imm k.1 debug, k.2)
    else if operator.id = "end" then do
      operand_check operator operands statements 1 0
      let imm ← gen_label (operands.get 0) (imm_labels "end")
      pure (.instr_end imm debug, [])
    else fail "Bad op" operator

/-- The loop over `imports[2]` in `generate_crlf`. -/
def import_loop : List Node → List (String × String) → Except Failure (List (String × String))
  | [], import_object => pure import_object
  | importation :: rest, import_object =>
    let the_name := importation.get 1
    let the_specifier := importation.get 4
    if (obj_get import_object the_name.id).isSome then
      fail ("Redefinition of \x27" ++ the_name.id ++ "\x27") the_name
    else import_loop rest (obj_set import_object the_name.id the_specifier.string)

/-- The loop over `labels.slice(1)` in `generate_crlf`: each further label
becomes a `ref` to the first. -/
def alias_loop (the_name : Node) : List Node → List (String × IR) → List (String × IR)
  | [], define_object => define_object
  | label :: rest, define_object =>
    alias_loop the_name rest (obj_set define_object (label.get 0).id (.ref none the_name.id none))

/-- The loop over `define` in `generate_crlf`, on the pair of `define_object`
and `supposed_instructions`. -/
def define_loop (tree : Node) (file : String) (import_object : List (String × String)) :
    List Node → List (String × IR) × List Node →
      Except Failure (List (String × IR) × List Node)
  | [], state => pure state
  | definition :: rest, (define_object, supposed_instructions) =>
    let labels := definition.get 0
    let statements := definition.get 1
    let the_name := (labels.get 0).get 0
    if (obj_get define_object the_name.id).isSome
        || (obj_get import_object the_name.id).isSome then
      fail ("Redefinition of \x27" ++ the_name.id ++ "\x27") the_name
    else
      match gen_value tree file import_object statements.items false with
      | .error f => .error f
      | .ok (node, pushed) =>
        define_loop tree file import_object rest
          (alias_loop the_name (labels.items.drop 1) (obj_set define_object the_name.id node),
            supposed_instructions ++ pushed)

/-- The loop over `supposed_instructions` in `generate_crlf`. -/
def check_loop (define_object : List (String × IR)) (fuel : Nat) : List Node → Outcome Unit
  | [] => .ok ()
  | name_token :: rest =>
    match maybe_kind define_object fuel (obj_get define_object name_token.id) "instr" with
    | .ok true => check_loop define_object fuel rest
    | .ok false =>
      .fail { message := "Expected an instruction, not data", token := name_token }
    | .fail f => .fail f
    | .diverge => .diverge

/-- The call of `map` on `exports[2]` in `generate_crlf`. -/
def export_loop (tree : Node) : List Node → Except Failure (List String)
  | [] => pure []
  | the_export :: rest =>
    let the_name := the_export.get 1
    if !is_label tree the_name.id then fail "Not defined" the_name
    else (export_loop tree rest).map (fun names => the_name.id :: names)

/-- The object `ast` of the document. -/
structure Ast where
  kind : String
  import_object : List (String × String)
  define_object : List (String × IR)
  export_array : List String
deriving DecidableEq

/-- The document returned by `generate_crlf`. -/
structure Document where
  lang : String
  ast : Ast
deriving DecidableEq

/-- The block `if (imports !== undefined)` of `generate_crlf`: the
`import_object` it leaves. -/
def import_block (tree : Node) : Except Failure (List (String × String)) :=
  match tree.get 1 with
  | .undefined => pure []
  | imports => import_loop (imports.get 2).items []

/-- The block `if (exports !== undefined)` of `generate_crlf`: the
`export_array` it leaves. -/
def export_block (tree : Node) : Except Failure (List String) :=
  match tree.get 3 with
  | .undefined => pure []
  | exports => export_loop tree (exports.get 2).items

/-- The function `generate_crlf`, on the result of `parse`.  A result that is
not an array is a failure object, and is thrown.  A chain of local refs that
does not come back to a name it has visited is shorter than the number of
keys of `define_object`, which bounds the depth of `maybe_kind`. -/
def generate_crlf (tree : Outcome Node) (file : String) : Outcome Document :=
  match tree with
  | .fail f => .fail f
  | .diverge => .diverge
  | .ok tree =>
    match import_block tree with
    | .error f => .fail f
    | .ok import_object =>
      match define_loop tree file import_object (tree.get 2).items ([], []) with
      | .error f => .fail f
      | .ok (define_object, supposed_instructions) =>
        match check_loop define_object (define_object.length + 2) supposed_instructions with
        | .fail f => .fail f
        | .diverge => .diverge
        | .ok _ =>
          match export_block tree with
          | .error f => .fail f
          | .ok export_array =>
            .ok { lang := "uFork",
                  ast := { kind := "module", import_object := import_object,
                           define_object := define_object, export_array := export_array } }

/-- The error record returned by `assemble`. -/
structure ErrorRecord where
  kind : String
  message : String
  file : String
  line : Option Nat
  column : Option Nat
deriving DecidableEq

/-- What a call of `assemble` comes to: a document, an error record, or no
answer. -/
inductive Assembly where
  | document (d : Document)
  | error (e : ErrorRecord)
  | diverge
deriving DecidableEq

def assemble (source : String) (file : String) : Assembly :=
  match generate_crlf (parse (tokenize source)) file with
  | .ok d => .document d
  | .fail exception =>
    .error { kind := "error", message := exception.message, file := file,
             line := exception.token.line_nr, column := exception.token.column_nr }
  | .diverge => .diverge

/-! ## Definitions used to state the properties -/

/-- The state of the token generator after `n` calls, from state `s`. -/
def state_after (s : TokenizerState) : Nat → TokenizerState
  | 0 => s
  | n + 1 => (token_generator (state_after s n)).2

/-- Call number `n` (counted from 0) of the token generator started in state
`s`: the token it returns and the state it leaves. -/
def nth_call (s : TokenizerState) (n : Nat) : Option Token × TokenizerState :=
  token_generator (state_after s n)

/-- The label names declared in the definitions of a module, first labels and
additional labels alike, in order. -/
def declared_labels (tree : Node) : List String :=
  (tree.get 2).items.flatMap (fun definition =>
    (definition.get 0).items.map (fun label => (label.get 0).id))

/-- The names that `maybe_kind` looks up, in order, in its first `n` steps
from a node: the chain of local refs through `define_object`. -/
def alias_names (define_object : List (String × IR)) : Nat → Option IR → List String
  | 0, _ => []
  | n + 1, some (.ref none name _) => name :: alias_names define_object n (obj_get define_object name)
  | _ + 1, _ => []

/-- The operand contract of the specification: for the operator of each known
family, the number of required and the number of optional operands. -/
def operand_contract (op : String) : Option (Nat × Nat) :=
  if op = "pair_t" then some (1, 1)
  else if op = "dict_t" then some (2, 1)
  else if op = "ref" then some (1, 0)
  else if op = "typeq" || fixnum_ops.contains op || op = "push" || op = "is_eq" || op = "is_ne"
      || op = "if" || op = "if_not" || op = "dict" || op = "deque" || op = "alu" || op = "cmp"
      || op = "my" then some (1, 1)
  else if op = "depth" then some (0, 1)
  else if op = "end" then some (1, 0)
  else none

/-- The messages that `gen_expression` can throw. -/
def expression_messages : List String :=
  ["Expected a type", "Expected a literal", "Not imported", "Expected a name", "Not defined"]


/-- A statement `push` without operand, on line 1: `[indent, operator,
operands, newlines]`. -/
def statement_push_no_operand : Node :=
  .arr [.token { id := " ", line_nr := 1, column_nr := 0, column_to := some 1 },
    .token { id := "push", alphameric := true, line_nr := 1, column_nr := 1,
             column_to := some 5 },
    .arr [],
    .arr [.arr [.undefined, .token { id := "\n", line_nr := 1, column_nr := 5 }]]]

/-- A node that is data: a pair, a dict, a literal, a type or a fixnum. -/
def is_data : IR → Bool
  | .pair _ _ _ => true
  | .dict _ _ _ _ => true
  | .literal _ => true
  | .type _ => true
  | .fixnum _ => true
  | _ => false

/-- A statement `pair_t 1 2`, on line 2: `[indent, operator, operands,
newlines]`. -/
def statement_pair_t_one_two : Node :=
  .arr [.token { id := " ", line_nr := 2, column_nr := 0, column_to := some 1 },
    .token { id := "pair_t", alphameric := true, line_nr := 2, column_nr := 1,
             column_to := some 7 },
    .arr [
      .arr [.token { id := " ", line_nr := 2, column_nr := 7, column_to := some 8 },
        .token { id := ":number:", number := 1, text := "1", line_nr := 2, column_nr := 8,
                 column_to := some 9 }],
      .arr [.token { id := " ", line_nr := 2, column_nr := 9, column_to := some 10 },
        .token { id := ":number:", number := 2, text := "2", line_nr := 2, column_nr := 10,
                 column_to := some 11 }]],
    .arr [.arr [.undefined, .token { id := "\n", line_nr := 2, column_nr := 11 }]]]

/-- The five literal names and the values they denote. -/
def literal_values : List (String × String) :=
  [("?", "undef"), ("nil", "nil"), ("unit", "unit"), ("t", "true"), ("f", "false")]

/-- The seven type names. -/
def type_names : List String :=
  ["literal_t", "fixnum_t", "type_t", "pair_t", "dict_t", "instr_t", "actor_t"]

/-- The statements of the first definition of a source, as `parse` returns
them. -/
def first_statements (source : String) : List Node :=
  match parse (tokenize source) with
  | .ok tree => (((tree.get 2).get 0).get 1).items
  | _ => []

/-- The first operand of the first statement of a source. -/
def first_operand (source : String) : Node :=
  (((first_statements source).getD 0 .undefined).get 2).get 0

/-- The tree that `parse` returns for a source. -/
def parsed_tree (source : String) : Node :=
  match parse (tokenize source) with
  | .ok tree => tree
  | _ => .undefined

/-- The values of the operands of a statement: `operand[1]` of each element of
`operands`. -/
def operand_values (operands : Node) : List Node :=
  operands.items.map (fun operand => operand.get 1)

/-- The relation between the value generated for an `if` statement and the
one generated for an `if_not` statement: two instructions of op `if` with `t`
and `f` exchanged, the same debug info and the same recorded references; or two
failures with the same message, at the same line and column. -/
def mirrored (a b : Except Failure (IR × List Node)) : Prop :=
  match a, b with
  | .ok x, .ok y =>
    ∃ t f debug, x.1 = .instr_if t f debug ∧ y.1 = .instr_if f t debug ∧ x.2 = y.2
  | .error e1, .error e2 =>
    e1.message = e2.message ∧ e1.token.line_nr = e2.token.line_nr ∧
      e1.token.column_nr = e2.token.column_nr
  | _, _ => False

/-- The node with `debug.file` replaced by `file` in every node that has a
`debug`. -/
def IR.with_file (file : String) : IR → IR
  | .literal value => .literal value
  | .type name => .type name
  | .fixnum number => .fixnum number
  | .ref module name debug => .ref module name (debug.map (fun d => { d with file := file }))
  | .pair head tail debug =>
    .pair (head.with_file file) (tail.with_file file) { debug with file := file }
  | .dict key value next debug =>
    .dict (key.with_file file) (value.with_file file) (next.with_file file)
      { debug with file := file }
  | .instr op imm k debug =>
    .instr op (imm.with_file file) (k.with_file file) { debug with file := file }
  | .instr_label op imm k debug => .instr_label op imm (k.with_file file) { debug with file := file }
  | .instr_depth k debug => .instr_depth (k.with_file file) { debug with file := file }
  | .instr_if t f debug =>
    .instr_if (t.with_file file) (f.with_file file) { debug with file := file }
  | .instr_end imm debug => .instr_end imm { debug with file := file }

/-- The object `define_object` with `debug.file` replaced by `file` in every
entry. -/
def define_with_file (file : String) (define_object : List (String × IR)) :
    List (String × IR) :=
  define_object.map (fun entry => (entry.1, entry.2.with_file file))

/-- The result of `assemble` with every `file` field replaced by `file`: the
`debug.file` of the nodes of a document, the `file` of an error record. -/
def Assembly.with_file (file : String) : Assembly → Assembly
  | .document d =>
    .document { d with ast := { d.ast with
      define_object := define_with_file file d.ast.define_object } }
  | .error e => .error { e with file := file }
  | .diverge => .diverge

/-- The result of a generator call with the file replaced in the node. -/
def value_with_file (file : String) (x : Except Failure (IR × List Node)) :
    Except Failure (IR × List Node) :=
  x.map (fun r => (r.1.with_file file, r.2))

/-- The continuation fields of a node: `k` of an instruction, `t` and `f` of
an `if`; an `end` and the nodes of the other kinds have none. -/
def IR.continuations : IR → List IR
  | .instr _ _ k _ => [k]
  | .instr_label _ _ k _ => [k]
  | .instr_depth k _ => [k]
  | .instr_if t f _ => [t, f]
  | _ => []

/-- The nodes reachable from a node through its fields, the node included. -/
def IR.subnodes : IR → List IR
  | .pair head tail debug => .pair head tail debug :: (head.subnodes ++ tail.subnodes)
  | .dict key value next debug =>
    .dict key value next debug :: (key.subnodes ++ (value.subnodes ++ next.subnodes))
  | .instr op imm k debug => .instr op imm k debug :: (imm.subnodes ++ k.subnodes)
  | .instr_label op imm k debug => .instr_label op imm k debug :: k.subnodes
  | .instr_depth k debug => .instr_depth k debug :: k.subnodes
  | .instr_if t f debug => .instr_if t f debug :: (t.subnodes ++ f.subnodes)
  | node => [node]

/-- A node that stands for an instruction in `define_object`: a node of kind
`"instr"`, a ref into another module, or a local ref whose entry in
`define_object` stands for an instruction. -/
inductive ends_at_instruction (define_object : List (String × IR)) : IR → Prop where
  | instr (node : IR) (h : node.kind = some "instr") : ends_at_instruction define_object node
  | qualified (module name : String) (debug : Option Debug) :
    ends_at_instruction define_object (.ref (some module) name debug)
  | local_ref (name : String) (debug : Option Debug) (node : IR)
    (h : obj_get define_object name = some node) (hn : ends_at_instruction define_object node) :
    ends_at_instruction define_object (.ref none name debug)

/-- A node that is an instruction, a ref into another module, or a local ref
whose name token is among `supposed_instructions`. -/
def supposed_instruction (supposed_instructions : List Node) (node : IR) : Prop :=
  node.kind = some "instr"
    ∨ (∃ module name debug, node = .ref (some module) name debug)
    ∨ (∃ token debug, token ∈ supposed_instructions ∧ node = .ref none token.id debug)

/-- Every continuation field of every node reachable from `node` is a
`supposed_instruction`. -/
def continuations_supposed (supposed_instructions : List Node) (node : IR) : Prop :=
  ∀ n ∈ node.subnodes, ∀ c ∈ n.continuations, supposed_instruction supposed_instructions c

/-- The nodes without fields that are nodes: what `gen_expression` returns. -/
def is_leaf : IR → Bool
  | .literal _ => true
  | .type _ => true
  | .fixnum _ => true
  | .ref _ _ _ => true
  | _ => false

/-- The statement `push 1` of `a:\n push 1\n end stop\n`, as `parse` returns
it. -/
def statement_push_one : Node :=
  (first_statements "a:\n push 1\n end stop\n").getD 0 .undefined

/-- The statements that follow `push 1` in `a:\n push 1\n end stop\n`. -/
def statements_end_stop : List Node :=
  (first_statements "a:\n push 1\n end stop\n").drop 1

/-- The statement `if a` of `a:\n if     a\n end stop\n`, as `parse` returns
it; the operand is at the column it has after `if_not`. -/
def statement_if : Node :=
  (first_statements "a:\n if     a\n end stop\n").getD 0 .undefined

/-- The statement `if_not a` of `a:\n if_not a\n end stop\n`, as `parse`
returns it. -/
def statement_if_not : Node :=
  (first_statements "a:\n if_not a\n end stop\n").getD 0 .undefined

/-- The document of the module `a:\n push 1 c\nb:\nc:\n end stop\n` for the
file `f.asm`: the continuation of `push` is a ref to `c`, and `c` is an alias
of `b`. -/
def document_alias_chain : Document :=
  { lang := "uFork",
    ast :=
      { kind := "module", import_object := [],
        define_object :=
          [("a", .instr "push" (.fixnum 1)
              (.ref none "c" (some { file := "f.asm", line := some 1 }))
              { file := "f.asm", line := some 1 }),
            ("b", .instr_end "stop" { file := "f.asm", line := some 4 }),
            ("c", .ref none "b" none)],
        export_array := [] } }

/-- A cursor whose tokens are followed by end-of-stream or by error tokens:
what the generator returns once the tokens are used up is `undefined`, or a
token with id `:error:` that is not alphameric. -/
def Input.error_or_end (input : Input) : Prop :=
  ∀ t, input.rest = some t → t.id = ":error:" ∧ t.alphameric = false

/-- A predicate of `one` that turns down the error token. -/
def rejects_error (make_node : Token → Option Token) : Prop :=
  ∀ t, t.id = ":error:" → t.alphameric = false → make_node t = none

/-- A matcher that only moves the cursor forward: the cursor it returns has
the same end of stream and no more tokens left than the cursor it was given. -/
def advances (m : Matcher) : Prop :=
  ∀ input input1 node, m input = .ok (input1, node) →
    input1.rest = input.rest ∧ input1.tokens.length ≤ input.tokens.length

/-- A matcher that consumes at least one token whenever it succeeds. -/
def consumes (m : Matcher) : Prop :=
  ∀ input input1 node, input.error_or_end → m input = .ok (input1, node) →
    input1.tokens.length < input.tokens.length

/-- A matcher that returns, with a success or a failure, on every cursor with
at most `n` tokens left. -/
def terminates_within (n : Nat) (m : Matcher) : Prop :=
  ∀ input, input.error_or_end → input.tokens.length ≤ n → m input ≠ .diverge

/-- Two matchers with the same result on every cursor with at most `n` tokens
left. -/
def agree_within (n : Nat) (m1 m2 : Matcher) : Prop :=
  ∀ input, input.error_or_end → input.tokens.length ≤ n → m1 input = m2 input

/-- The two properties that depend on the fuel: `m1` returns within `n`
tokens, and agrees with `m2` there. -/
def regular (n : Nat) (m1 m2 : Matcher) : Prop :=
  terminates_within n m1 ∧ agree_within n m1 m2

/-- Whether an outcome is a value. -/
def Outcome.isOk {α : Type} : Outcome α → Bool
  | .ok _ => true
  | _ => false

/-! ## Theorems -/

/-! ### Tokenizer -/

theorem rx_name_head {src m rest : List Char} (h : rx_name src = some (m, rest)) :
    ∃ c tail, m = c :: tail ∧ is_letter c = true := by
  cases src with
  | nil => simp [rx_name] at h
  | cons c cs =>
    simp only [rx_name] at h
    split at h
    · rename_i hc
      simp only [Option.some.injEq, Prod.mk.injEq] at h
      exact ⟨c, _, by rw [← h.1]; rfl, hc⟩
    · simp at h

theorem rx_punctuator_single {src m rest : List Char} (h : rx_punctuator src = some (m, rest)) :
    ∃ c, m = [c] := by
  cases src with
  | nil => simp [rx_punctuator] at h
  | cons c cs =>
    simp only [rx_punctuator] at h
    split at h
    · simp only [Option.some.injEq, Prod.mk.injEq] at h
      exact ⟨c, h.1.symm⟩
    · simp at h

/-- The error token is made by the inner function `error` only: a call that
returns a token with id `:error:` leaves `source` undefined and the token
carries the line and `column_to` of the state it leaves. -/
theorem token_generator_error {s s1 : TokenizerState} {t : Token}
    (h : token_generator s = (some t, s1)) (hid : t.id = ":error:") :
    s1.source = none ∧
      t = { id := ":error:", line_nr := s1.line_nr, column_nr := s1.column_to } := by
  have herr : ∀ l c, error l c = (some t, s1) →
      s1.source = none ∧
        t = { id := ":error:", line_nr := s1.line_nr, column_nr := s1.column_to } := by
    intro l c he
    simp only [error, Prod.mk.injEq, Option.some.injEq] at he
    obtain ⟨h1, h2⟩ := he
    subst h1 h2
    exact ⟨rfl, rfl⟩
  unfold token_generator at h
  split at h
  · exact herr _ _ h
  · simp at h
  · simp only at h
    split at h
    · simp only [Prod.mk.injEq, Option.some.injEq] at h
      rw [← h.1] at hid
      simp only at hid
      exact absurd hid (by decide)
    · split at h
      · simp only [Prod.mk.injEq, Option.some.injEq] at h
        rw [← h.1] at hid
        simp only at hid
        exact absurd hid (by decide)
      · split at h
        · simp only [Prod.mk.injEq, Option.some.injEq] at h
          rw [← h.1] at hid
          simp only at hid
          exact absurd hid (by decide)
        · split at h
          · rename_i m rest hm
            simp only [Prod.mk.injEq, Option.some.injEq] at h
            rw [← h.1] at hid
            obtain ⟨c, tail, hc, hl⟩ := rx_name_head hm
            subst hc
            simp only at hid
            have h2 : c :: tail = ":error:".data := congrArg String.data hid
            have h3 : c = ':' := by
              have := List.cons.inj h2
              exact this.1
            subst h3
            exact absurd hl (by decide)
          · split at h
            · simp only [Prod.mk.injEq, Option.some.injEq] at h
              rw [← h.1] at hid
              simp only at hid
              exact absurd hid (by decide)
            · split at h
              · split at h
                · simp only [Prod.mk.injEq, Option.some.injEq] at h
                  rw [← h.1] at hid
                  simp only at hid
                  exact absurd hid (by decide)
                · exact herr _ _ h
              · split at h
                · simp only [Prod.mk.injEq, Option.some.injEq] at h
                  rw [← h.1] at hid
                  simp only at hid
                  exact absurd hid (by decide)
                · split at h
                  · rename_i m rest hm
                    simp only [Prod.mk.injEq, Option.some.injEq] at h
                    rw [← h.1] at hid
                    obtain ⟨c, hc⟩ := rx_punctuator_single hm
                    subst hc
                    simp only at hid
                    have h2 : [c] = ":error:".data := congrArg String.data hid
                    have h3 := congrArg List.length h2
                    simp at h3
                  · exact herr _ _ h

/-- Once `source` is undefined, a call returns the error token of the current
position and leaves the state as it is. -/
theorem token_generator_undefined_source (s : TokenizerState) (h : s.source = none) :
    token_generator s =
      (some { id := ":error:", line_nr := s.line_nr, column_nr := s.column_to }, s) := by
  cases s with
  | mk source line_nr column_to =>
    simp only at h
    subst h
    rfl

theorem rx_star_length (p : Char → Bool) (cs : List Char) :
    (rx_star p cs).2.length ≤ cs.length := by
  induction cs with
  | nil => simp [rx_star]
  | cons c cs ih =>
    simp only [rx_star]
    split
    · simp only [List.length_cons]
      omega
    · simp

theorem rx_name_tail_length_aux (n : Nat) :
    ∀ cs : List Char, cs.length ≤ n → (rx_name_tail cs).2.length ≤ cs.length := by
  induction n with
  | zero =>
    intro cs h
    cases cs with
    | nil => simp [rx_name_tail]
    | cons c cs => simp at h
  | succ n ih =>
    intro cs h
    match cs with
    | [] => simp [rx_name_tail]
    | [c] => simp only [rx_name_tail]; split <;> simp
    | c :: d :: cs =>
      simp only [List.length_cons] at h
      simp only [rx_name_tail]
      split
      · have := ih cs (by omega)
        simp only [List.length_cons]
        omega
      · split
        · have := ih (d :: cs) (by simp only [List.length_cons]; omega)
          simp only [List.length_cons] at this ⊢
          omega
        · simp

theorem rx_name_tail_length (cs : List Char) : (rx_name_tail cs).2.length ≤ cs.length :=
  rx_name_tail_length_aux cs.length cs (Nat.le_refl _)

theorem rx_optional_question_length (cs : List Char) :
    (rx_optional_question cs).2.length ≤ cs.length := by
  unfold rx_optional_question
  split <;> simp

theorem rx_newline_progress {src m rest : List Char} (h : rx_newline src = some (m, rest)) :
    rest.length < src.length := by
  unfold rx_newline at h
  split at h
  · cases h; simp
  · cases h; simp only [List.length_cons]; omega
  · cases h; simp
  · cases h

theorem rx_spaces_progress {src m rest : List Char} (h : rx_spaces src = some (m, rest)) :
    rest.length < src.length := by
  unfold rx_spaces at h
  split at h
  · cases h
    exact Nat.lt_succ_of_le (rx_star_length _ _)
  · cases h

theorem rx_comment_progress {src m rest : List Char} (h : rx_comment src = some (m, rest)) :
    rest.length < src.length := by
  unfold rx_comment at h
  split at h
  · cases h
    exact Nat.lt_succ_of_le (rx_star_length _ _)
  · cases h

theorem rx_name_progress {src m rest : List Char} (h : rx_name src = some (m, rest)) :
    rest.length < src.length := by
  unfold rx_name at h
  split at h
  · cases h
  · split at h
    · cases h
      exact Nat.lt_succ_of_le
        (Nat.le_trans (rx_optional_question_length _) (rx_name_tail_length _))
    · cases h

theorem rx_literal_progress {src m rest : List Char} (h : rx_literal src = some (m, rest)) :
    rest.length < src.length := by
  unfold rx_literal at h
  split at h
  · split at h
    · cases h
      exact Nat.lt_succ_of_le (Nat.le_succ_of_le (rx_star_length _ _))
    · cases h
  · cases h

theorem rx_fixnum_progress {src m rest : List Char} (h : rx_fixnum src = some (m, rest)) :
    rest.length < src.length := by
  unfold rx_fixnum at h
  split at h
  · split at h
    · cases h
      exact Nat.lt_succ_of_le (Nat.le_succ_of_le (rx_star_length _ _))
    · cases h
  · split at h
    · cases h
      exact Nat.lt_succ_of_le (rx_star_length _ _)
    · split at h
      · cases h
        simp
      · cases h
  · cases h

theorem rx_string_progress {src m rest : List Char} (h : rx_string src = some (m, rest)) :
    rest.length < src.length := by
  unfold rx_string at h
  split at h
  · split at h
    · rename_i r hr
      cases h
      have key : ∀ cs : List Char,
          (rx_star (fun c => decide (c ≠ '"')) cs).2 = '"' :: rest →
            rest.length < cs.length + 1 := by
        intro cs hcs
        have hlen := rx_star_length (fun c => decide (c ≠ '"')) cs
        rw [hcs] at hlen
        simp only [List.length_cons] at hlen
        omega
      exact key _ hr
    · cases h
  · cases h

theorem rx_punctuator_progress {src m rest : List Char}
    (h : rx_punctuator src = some (m, rest)) : rest.length < src.length := by
  unfold rx_punctuator at h
  split at h
  · cases h
  · split at h
    · cases h
      simp
    · cases h

/-- A call of `token_generator` that returns a token other than the error
token leaves a shorter `source`. -/
theorem token_generator_progress {s s1 : TokenizerState} {t : Token} {src : List Char}
    (hs : s.source = some src) (h : token_generator s = (some t, s1))
    (hid : t.id ≠ ":error:") :
    ∃ rest, s1.source = some rest ∧ rest.length < src.length := by
  have herr : ∀ l c, error l c = (some t, s1) → False := by
    intro l c he
    simp only [error, Prod.mk.injEq, Option.some.injEq] at he
    exact hid (by rw [← he.1])
  unfold token_generator at h
  rw [hs] at h
  split at h
  · rename_i heq; cases heq
  · rename_i heq; cases heq; cases h
  · rename_i c cs heq
    cases heq
    simp only at h
    split at h
    · rename_i m rest hm
      cases h
      exact ⟨rest, rfl, rx_newline_progress hm⟩
    · split at h
      · rename_i m rest hm
        cases h
        exact ⟨rest, rfl, rx_spaces_progress hm⟩
      · split at h
        · rename_i m rest hm
          cases h
          exact ⟨rest, rfl, rx_comment_progress hm⟩
        · split at h
          · rename_i m rest hm
            cases h
            exact ⟨rest, rfl, rx_name_progress hm⟩
          · split at h
            · rename_i m rest hm
              cases h
              exact ⟨rest, rfl, rx_literal_progress hm⟩
            · split at h
              · rename_i m rest hm
                split at h
                · cases h
                  exact ⟨rest, rfl, rx_fixnum_progress hm⟩
                · exact (herr _ _ h).elim
              · split at h
                · rename_i m rest hm
                  cases h
                  exact ⟨rest, rfl, rx_string_progress hm⟩
                · split at h
                  · rename_i m rest hm
                    cases h
                    exact ⟨rest, rfl, rx_punctuator_progress hm⟩
                  · exact (herr _ _ h).elim

theorem token_stream_fuel_aux (n : Nat) :
    ∀ (s : TokenizerState) (src : List Char), s.source = some src → src.length ≤ n →
      ∀ f1 f2, n < f1 → n < f2 → token_stream f1 s = token_stream f2 s := by
  induction n with
  | zero =>
    intro s src hs hl f1 f2 h1 h2
    have hsrc : src = [] := List.eq_nil_of_length_eq_zero (by omega)
    subst hsrc
    obtain ⟨f1, rfl⟩ : ∃ k, f1 = k + 1 := ⟨f1 - 1, by omega⟩
    obtain ⟨f2, rfl⟩ : ∃ k, f2 = k + 1 := ⟨f2 - 1, by omega⟩
    have : token_generator s = (none, s) := by
      unfold token_generator
      rw [hs]
    simp only [token_stream, this]
  | succ n ih =>
    intro s src hs hl f1 f2 h1 h2
    obtain ⟨f1, rfl⟩ : ∃ k, f1 = k + 1 := ⟨f1 - 1, by omega⟩
    obtain ⟨f2, rfl⟩ : ∃ k, f2 = k + 1 := ⟨f2 - 1, by omega⟩
    simp only [token_stream]
    cases hg : token_generator s with
    | mk t s1 =>
      cases t with
      | none => rfl
      | some t =>
        simp only
        by_cases hid : t.id = ":error:"
        · rw [if_pos hid, if_pos hid]
        · rw [if_neg hid, if_neg hid]
          obtain ⟨rest, hrest, hlt⟩ := token_generator_progress hs hg hid
          rw [ih s1 rest hrest (by omega) f1 f2 (by omega) (by omega)]

/-- The fuel that `make_input` gives `token_stream` is enough: any larger
fuel yields the same tokens. -/
theorem token_stream_fuel (s : TokenizerState) (src : List Char) (hs : s.source = some src)
    (fuel : Nat) (h : src.length < fuel) :
    token_stream fuel s = token_stream (src.length + 1) s :=
  token_stream_fuel_aux src.length s src hs (Nat.le_refl _) fuel (src.length + 1) h
    (Nat.lt_succ_self _)

/-- C6, the claim as stated fails: on the source `a` followed by a tab, call 1
returns the error token (line 0, column 1), and call 2 returns the error token
again, not `undefined`. -/
theorem error_token_returned_again :
    (nth_call (tokenize "a\t") 1).1
        = some { id := ":error:", line_nr := 0, column_nr := 1 } ∧
      (nth_call (tokenize "a\t") 2).1
        = some { id := ":error:", line_nr := 0, column_nr := 1 } := by
  decide

/-- C6, amended: once a call of `token_generator` has returned an error token,
that token carries the line and the `column_to` at which scanning stopped, and
every later call returns the same error token again. -/
theorem error_token_is_sticky (s : TokenizerState) (k : Nat) (t : Token)
    (h : (nth_call s k).1 = some t) (hid : t.id = ":error:") :
    t = { id := ":error:", line_nr := (nth_call s k).2.line_nr,
          column_nr := (nth_call s k).2.column_to } ∧
      ∀ n, (nth_call s (k + n)).1 = some t := by
  have h0 : token_generator (state_after s k) = (some t, (nth_call s k).2) := by
    unfold nth_call at h ⊢
    exact Prod.ext h rfl
  obtain ⟨hsrc, ht⟩ := token_generator_error h0 hid
  refine ⟨ht, ?_⟩
  have hfix : ∀ n, state_after s (k + 1 + n) = (nth_call s k).2 := by
    intro n
    induction n with
    | zero => rfl
    | succ n ih =>
      show (token_generator (state_after s (k + 1 + n))).2 = _
      rw [ih, token_generator_undefined_source _ hsrc]
  intro n
  cases n with
  | zero => exact h
  | succ n =>
    have : k + (n + 1) = k + 1 + n := by omega
    rw [this]
    unfold nth_call
    rw [hfix n]
    have := token_generator_undefined_source _ hsrc
    unfold nth_call at this ht ⊢
    rw [this, ← ht]

/-- The amended C6 at the source `a` followed by a tab, from call 1 on. -/
theorem error_token_is_sticky_witness :
    (nth_call (tokenize "a\t") 1).1 = some { id := ":error:", line_nr := 0, column_nr := 1 } ∧
      ∀ n, (nth_call (tokenize "a\t") (1 + n)).1
        = some { id := ":error:", line_nr := 0, column_nr := 1 } :=
  ⟨by decide,
    (error_token_is_sticky (tokenize "a\t") 1
      { id := ":error:", line_nr := 0, column_nr := 1 } (by decide) (by decide)).2⟩

/-! ### Assembler: scenario A -/

/-- C1: scenario A.  For every file identifier, the source
`foo:\n push 42\n end commit\n` assembles to a document with no import, no
export, and the one definition `foo`: a `push` instruction with immediate 42
and debug line 1, whose continuation is an `end` instruction with immediate
`commit` and debug line 2, which has no continuation. -/
theorem scenario_A_push_end (file : String) :
    assemble "foo:\n push 42\n end commit\n" file =
      .document
        { lang := "uFork",
          ast :=
            { kind := "module",
              import_object := [],
              define_object :=
                [("foo",
                  .instr "push" (.fixnum 42)
                    (.instr_end "commit" { file := file, line := some 2 })
                    { file := file, line := some 1 })],
              export_array := [] } } := by
  rfl

/-! ### Parser combinators -/

theorem and_loop_cons_ok {m : Matcher} {ms : List Matcher} {nodes : List Node} {input : Input}
    {r : Input × Node} (h : and_loop (m :: ms) nodes input = .ok r) :
    ∃ i1 n1, m input = .ok (i1, n1) ∧ and_loop ms (nodes ++ [n1]) i1 = .ok r := by
  simp only [and_loop] at h
  split at h
  · rename_i i1 n1 hm
    exact ⟨i1, n1, hm, h⟩
  · cases h
  · cases h

theorem and_loop_nil_ok {nodes : List Node} {input : Input} {r : Input × Node}
    (h : and_loop [] nodes input = .ok r) : r = (input, .arr nodes) := by
  simp only [and_loop] at h
  cases h
  rfl

theorem or_pair_ok {m1 m2 : Matcher} {input : Input} {r : Input × Node}
    (h : or [m1, m2] input = .ok r) : m1 input = .ok r ∨ m2 input = .ok r := by
  simp only [or] at h
  split at h
  · rename_i r1 h1
    cases h
    exact Or.inl h1
  · split at h
    · rename_i r2 h2
      cases h
      exact Or.inr h2
    · cases h
    · cases h
  · cases h

theorem optional_ok {m : Matcher} {input : Input} {r : Input × Node}
    (h : optional m input = .ok r) : m input = .ok r ∨ r = (input, .undefined) := by
  rcases or_pair_ok h with h1 | h1
  · exact Or.inl h1
  · right
    simp only [zero] at h1
    cases h1
    rfl

theorem many_ok {fuel : Nat} {m : Matcher} {input : Input} {r : Input × Node}
    (h : many fuel m input = .ok r) : ∃ head tail, r.2 = .arr (head :: tail) := by
  simp only [many] at h
  split at h
  · split at h
    · cases h
      exact ⟨_, _, rfl⟩
    · cases h
    · cases h
  · cases h
  · cases h

theorem module_ok {fuel : Nat} {input : Input} {r : Input × Node}
    (h : module fuel input = .ok r) :
    ∃ i1 n1 i2 n2 i3 n3 n4,
      «repeat» fuel newline input = .ok (i1, n1) ∧
      optional (import_declaration fuel) i1 = .ok (i2, n2) ∧
      «repeat» fuel (definition fuel) i2 = .ok (i3, n3) ∧
      optional (export_declaration fuel) i3 = .ok (r.1, n4) ∧
      r.2 = .arr [n1, n2, n3, n4] := by
  unfold module and at h
  obtain ⟨i1, n1, h1, h⟩ := and_loop_cons_ok h
  obtain ⟨i2, n2, h2, h⟩ := and_loop_cons_ok h
  obtain ⟨i3, n3, h3, h⟩ := and_loop_cons_ok h
  obtain ⟨i4, n4, h4, h⟩ := and_loop_cons_ok h
  have := and_loop_nil_ok h
  subst this
  exact ⟨i1, n1, i2, n2, i3, n3, n4, h1, h2, h3, h4, rfl⟩

theorem directive_block_ok {fuel : Nat} {d : Matcher} {entry : Matcher} {input : Input}
    {r : Input × Node}
    (h : and [d, many fuel newline, many fuel entry] input = .ok r) :
    (r.2.get 2).items ≠ [] := by
  unfold and at h
  obtain ⟨i1, n1, _, h⟩ := and_loop_cons_ok h
  obtain ⟨i2, n2, _, h⟩ := and_loop_cons_ok h
  obtain ⟨i3, n3, h3, h⟩ := and_loop_cons_ok h
  have := and_loop_nil_ok h
  subst this
  obtain ⟨head, tail, ht⟩ := many_ok h3
  simp only at ht
  subst ht
  simp [Node.get, Node.items]

theorem parse_ok {s : TokenizerState} {tree : Node} (h : parse s = .ok tree) :
    ∃ fuel input i, module fuel input = .ok (i, tree) := by
  simp only [parse] at h
  split at h
  · rename_i i t hm
    split at h
    · cases h
    · cases h
      exact ⟨_, _, _, hm⟩
  · cases h
  · cases h


/-- C10, the claim as stated fails: the sources `.import\n` and `.export\n`
(a directive, a newline, no entry) do not parse; `assemble` returns the error
record of `Unexpected token.` at the `.` (line 0, column 0). -/
theorem empty_directive_block_rejected :
    assemble ".import\n" "f.asm"
        = .error { kind := "error", message := "Unexpected token.", file := "f.asm",
                   line := some 0, column := some 0 } ∧
      assemble ".export\n" "f.asm"
        = .error { kind := "error", message := "Unexpected token.", file := "f.asm",
                   line := some 0, column := some 0 } := by
  decide

/-- C10, amended: a directive block needs at least one entry.  In every tree
that `parse` returns, the import block is absent or holds at least
one importation, and the export block is absent or holds at least one
exportation. -/
theorem directive_blocks_not_empty (s : TokenizerState) (tree : Node)
    (h : parse s = .ok tree) :
    (tree.get 1 = .undefined ∨ ((tree.get 1).get 2).items ≠ []) ∧
      (tree.get 3 = .undefined ∨ ((tree.get 3).get 2).items ≠ []) := by
  obtain ⟨fuel, input, i, hm⟩ := parse_ok h
  obtain ⟨i1, n1, i2, n2, i3, n3, n4, _, h2, _, h4, ht⟩ := module_ok hm
  simp only at ht h4
  subst ht
  constructor
  · rcases optional_ok h2 with h2 | h2
    · right
      exact directive_block_ok h2
    · left
      cases h2
      rfl
  · rcases optional_ok h4 with h4 | h4
    · right
      exact directive_block_ok h4
    · left
      cases h4
      rfl

/-- The amended C10 at a source with one importation and one exportation. -/
theorem directive_blocks_not_empty_witness :
    ∃ tree, parse (tokenize ".import\n x: \"y\"\na:\n end stop\n.export\n a\n") = .ok tree ∧
      ((tree.get 1 = .undefined ∨ ((tree.get 1).get 2).items ≠ []) ∧
        (tree.get 3 = .undefined ∨ ((tree.get 3).get 2).items ≠ [])) :=
  match h : parse (tokenize ".import\n x: \"y\"\na:\n end stop\n.export\n a\n") with
  | .ok tree => ⟨tree, rfl, directive_blocks_not_empty _ tree h⟩
  | .fail f =>
    absurd (show (parse (tokenize ".import\n x: \"y\"\na:\n end stop\n.export\n a\n")).isOk
      = true by decide) (by rw [h]; simp [Outcome.isOk])
  | .diverge =>
    absurd (show (parse (tokenize ".import\n x: \"y\"\na:\n end stop\n.export\n a\n")).isOk
      = true by decide) (by rw [h]; decide)

/-! ### Generator: evaluations -/

/-- C3, evaluation at the failing inputs.  In the first source the label `a`
is declared twice, the second time as an additional label of the group of `b`:
no redefinition error is raised, and the definition of `a` is replaced by an
alias of `b`.  In the second source the additional label `x` is also an import
alias: a document is returned that has `x` both as import and as definition. -/
theorem additional_label_redefines :
    assemble "a:\n end stop\nb:\na:\n end commit\n" "f.asm"
        = .document
            { lang := "uFork",
              ast :=
                { kind := "module",
                  import_object := [],
                  define_object :=
                    [("a", .ref none "b" none),
                     ("b", .instr_end "commit" { file := "f.asm", line := some 4 })],
                  export_array := [] } } ∧
      assemble ".import\n x: \"y\"\na:\nx:\n end stop\n" "f.asm"
        = .document
            { lang := "uFork",
              ast :=
                { kind := "module",
                  import_object := [("x", "y")],
                  define_object :=
                    [("a", .instr_end "stop" { file := "f.asm", line := some 4 }),
                     ("x", .ref none "a" none)],
                  export_array := [] } } := by
  decide

/-- C7, evaluation at the failing input: the entry registered for the
additional label `b` is a node of kind `ref` that has no `debug` field. -/
theorem alias_entry_has_no_debug :
    assemble "a:\nb:\n end stop\n" "f.asm"
      = .document
          { lang := "uFork",
            ast :=
              { kind := "module",
                import_object := [],
                define_object :=
                  [("a", .instr_end "stop" { file := "f.asm", line := some 2 }),
                   ("b", .ref none "a" none)],
                export_array := [] } } := by
  decide

/-- C9, evaluation at the failing input: two definitions, `x` and the group
`y`, `x`.  In one order a document is returned; with the two definitions
swapped the result is the error record of a redefinition of `x`. -/
theorem swapped_definitions_differ :
    assemble "x:\n end stop\ny:\nx:\n end commit\n" "f.asm"
        = .document
            { lang := "uFork",
              ast :=
                { kind := "module",
                  import_object := [],
                  define_object :=
                    [("x", .ref none "y" none),
                     ("y", .instr_end "commit" { file := "f.asm", line := some 4 })],
                  export_array := [] } } ∧
      assemble "y:\nx:\n end commit\nx:\n end stop\n" "f.asm"
        = .error { kind := "error", message := "Redefinition of \x27x\x27", file := "f.asm",
                   line := some 3, column := some 0 } := by
  decide

/-! ### Generator: the define table -/

theorem is_label_iff (tree : Node) (name : String) :
    is_label tree name = true ↔ name ∈ declared_labels tree := by
  simp only [is_label, declared_labels, List.any_eq_true, List.mem_flatMap, List.mem_map,
    decide_eq_true_eq]

theorem mem_obj_keys_obj_set {α : Type} (object : List (String × α)) (key : String) (value : α)
    (name : String) :
    name ∈ obj_keys (obj_set object key value) ↔ name = key ∨ name ∈ obj_keys object := by
  induction object with
  | nil => simp [obj_set, obj_keys]
  | cons p rest ih =>
    obtain ⟨k, v⟩ := p
    simp only [obj_set]
    split
    · rename_i hk
      subst hk
      simp [obj_keys]
    · simp only [obj_keys, List.map_cons, List.mem_cons] at ih ⊢
      rw [ih]
      tauto

theorem mem_obj_keys_alias_loop (the_name : Node) (labels : List Node)
    (define_object : List (String × IR)) (name : String) :
    name ∈ obj_keys (alias_loop the_name labels define_object) ↔
      name ∈ obj_keys define_object ∨ name ∈ labels.map (fun label => (label.get 0).id) := by
  induction labels generalizing define_object with
  | nil => simp [alias_loop]
  | cons label rest ih =>
    simp only [alias_loop, ih, mem_obj_keys_obj_set, List.map_cons, List.mem_cons]
    tauto

theorem mem_obj_keys_define_loop (tree : Node) (file : String)
    (import_object : List (String × String)) (define : List Node)
    (hshape : ∀ definition ∈ define, (definition.get 0).items ≠ [])
    (state final : List (String × IR) × List Node)
    (h : define_loop tree file import_object define state = .ok final) (name : String) :
    name ∈ obj_keys final.1 ↔
      name ∈ obj_keys state.1 ∨
        name ∈ define.flatMap (fun definition =>
          (definition.get 0).items.map (fun label => (label.get 0).id)) := by
  induction define generalizing state with
  | nil =>
    simp only [define_loop, pure, Except.pure] at h
    cases h
    simp
  | cons definition rest ih =>
    obtain ⟨define_object, supposed_instructions⟩ := state
    simp only [define_loop] at h
    split at h
    · cases h
    · split at h
      · cases h
      · rename_i node pushed hv
        have hs := hshape definition (List.mem_cons_self _ _)
        rw [ih (fun d hd => hshape d (List.mem_cons_of_mem _ hd)) _ h]
        simp only [mem_obj_keys_alias_loop, mem_obj_keys_obj_set, List.flatMap_cons,
          List.mem_append]
        cases hl : (definition.get 0).items with
        | nil => exact absurd hl hs
        | cons l0 ls =>
          have h0 : (definition.get 0).get 0 = l0 := by
            cases hd : definition.get 0 with
            | arr ns =>
              rw [hd] at hl
              simp only [Node.items] at hl
              subst hl
              simp [Node.get]
            | token t => rw [hd] at hl; simp [Node.items] at hl
            | undefined => rw [hd] at hl; simp [Node.items] at hl
          rw [h0]
          simp only [List.drop_succ_cons, List.drop_zero, List.map_cons, List.mem_cons]
          tauto

theorem export_loop_ok (tree : Node) (exports : List Node) (names : List String)
    (h : export_loop tree exports = .ok names) :
    ∀ name ∈ names, is_label tree name = true := by
  induction exports generalizing names with
  | nil =>
    simp only [export_loop, pure, Except.pure] at h
    cases h
    simp
  | cons e rest ih =>
    simp only [export_loop] at h
    split at h
    · cases h
    · rename_i hl
      cases hr : export_loop tree rest with
      | error f => rw [hr] at h; cases h
      | ok ns =>
        rw [hr] at h
        simp only [Except.map] at h
        cases h
        intro name hn
        rcases List.mem_cons.1 hn with h1 | h1
        · subst h1
          simpa using hl
        · exact ih ns hr name h1

theorem repeat_loop_ok {m : Matcher} {fuel : Nat} {nodes : List Node} {input : Input}
    {r : Input × Node} (h : repeat_loop m fuel nodes input = .ok r) :
    ∃ ns, r.2 = .arr (nodes ++ ns) ∧ ∀ n ∈ ns, ∃ i j, m i = .ok (j, n) := by
  induction fuel generalizing nodes input with
  | zero => simp [repeat_loop] at h
  | succ fuel ih =>
    simp only [repeat_loop] at h
    split at h
    · rename_i i1 n1 hm
      obtain ⟨ns, hr, hall⟩ := ih h
      refine ⟨n1 :: ns, by simpa using hr, ?_⟩
      intro n hn
      rcases List.mem_cons.1 hn with h1 | h1
      · subst h1
        exact ⟨_, _, hm⟩
      · exact hall n h1
    · cases h
      exact ⟨[], by simp, by simp⟩
    · cases h

theorem definition_ok {fuel : Nat} {input : Input} {r : Input × Node}
    (h : definition fuel input = .ok r) : (r.2.get 0).items ≠ [] := by
  unfold definition and at h
  obtain ⟨i1, n1, h1, h⟩ := and_loop_cons_ok h
  obtain ⟨i2, n2, _, h⟩ := and_loop_cons_ok h
  have := and_loop_nil_ok h
  subst this
  obtain ⟨head, tail, ht⟩ := many_ok h1
  simp only at ht
  subst ht
  simp [Node.get, Node.items]

theorem parse_definitions_labelled {s : TokenizerState} {tree : Node} (h : parse s = .ok tree) :
    ∀ definition ∈ (tree.get 2).items, (definition.get 0).items ≠ [] := by
  obtain ⟨fuel, input, i, hm⟩ := parse_ok h
  obtain ⟨i1, n1, i2, n2, i3, n3, n4, _, _, h3, _, ht⟩ := module_ok hm
  simp only at ht
  subst ht
  unfold «repeat» at h3
  obtain ⟨ns, hr, hall⟩ := repeat_loop_ok h3
  simp only [List.nil_append] at hr
  subst hr
  intro definition hd
  simp only [Node.get, List.getD_cons_succ, List.getD_cons_zero, Node.items] at hd
  obtain ⟨i, j, hij⟩ := hall definition hd
  exact definition_ok hij

/-- C2: whenever `assemble` returns a document, the keys of `ast.define` are
exactly the label names declared in the definitions of the parsed module
(first and additional labels alike), and every element of `ast.export` is one
of those keys. -/
theorem define_keys_are_declared_labels (source file : String) (d : Document)
    (h : assemble source file = .document d) :
    ∃ tree, parse (tokenize source) = .ok tree ∧
      (∀ name, name ∈ obj_keys d.ast.define_object ↔ name ∈ declared_labels tree) ∧
      ∀ name ∈ d.ast.export_array, name ∈ obj_keys d.ast.define_object := by
  simp only [assemble] at h
  split at h
  · rename_i doc hg
    cases h
    cases hp : parse (tokenize source) with
    | fail f => rw [hp] at hg; simp [generate_crlf] at hg
    | diverge => rw [hp] at hg; simp [generate_crlf] at hg
    | ok tree =>
      refine ⟨tree, rfl, ?_⟩
      rw [hp] at hg
      simp only [generate_crlf] at hg
      split at hg
      · cases hg
      · rename_i import_object himp
        split at hg
        · cases hg
        · rename_i define_object supposed hdef
          split at hg
          · cases hg
          · cases hg
          · split at hg
            · cases hg
            · rename_i export_array hexp
              cases hg
              simp only
              have hkeys := mem_obj_keys_define_loop tree file import_object _
                (parse_definitions_labelled hp) _ _ hdef
              simp only [obj_keys, List.map_nil, List.not_mem_nil, false_or] at hkeys
              constructor
              · intro name
                rw [declared_labels]
                exact hkeys name
              · intro name hn
                have hl : is_label tree name = true := by
                  unfold export_block at hexp
                  split at hexp
                  · simp only [pure, Except.pure] at hexp
                    cases hexp
                    simp at hn
                  · exact export_loop_ok tree _ _ hexp name hn
                rw [is_label_iff, declared_labels] at hl
                exact (hkeys name).2 hl
  · cases h
  · cases h

/-- C2 at a source with an import, a group of two labels and two exports. -/
theorem define_keys_are_declared_labels_witness :
    ∃ tree, parse (tokenize ".import\n x: \"y\"\na:\nb:\n end stop\n.export\n a\n b\n") = .ok tree ∧
      (∀ name, name ∈ obj_keys
          [("a", IR.instr_end "stop" { file := "f.asm", line := some 4 }),
           ("b", IR.ref none "a" none)] ↔ name ∈ declared_labels tree) ∧
      ∀ name ∈ ["a", "b"], name ∈ obj_keys
          [("a", IR.instr_end "stop" { file := "f.asm", line := some 4 }),
           ("b", IR.ref none "a" none)] :=
  define_keys_are_declared_labels ".import\n x: \"y\"\na:\nb:\n end stop\n.export\n a\n b\n" "f.asm"
    { lang := "uFork",
      ast :=
        { kind := "module",
          import_object := [("x", "y")],
          define_object :=
            [("a", .instr_end "stop" { file := "f.asm", line := some 4 }),
             ("b", .ref none "a" none)],
          export_array := ["a", "b"] } }
    (by decide)

/-! ### Generator: the deferred check -/

theorem obj_get_some_mem_keys {α : Type} {object : List (String × α)} {key : String} {v : α}
    (h : obj_get object key = some v) : key ∈ obj_keys object := by
  induction object with
  | nil => simp [obj_get] at h
  | cons p rest ih =>
    obtain ⟨k, w⟩ := p
    simp only [obj_get] at h
    split at h
    · rename_i hk
      subst hk
      simp [obj_keys]
    · simp only [obj_keys, List.map_cons, List.mem_cons] at ih ⊢
      exact Or.inr (ih h)

theorem maybe_kind_diverge_step {d : List (String × IR)} {fuel : Nat} {node : Option IR}
    {kind : String} (h : maybe_kind d (fuel + 1) node kind = .diverge) :
    ∃ name debug, node = some (.ref none name debug) ∧
      maybe_kind d fuel (obj_get d name) kind = .diverge := by
  cases node with
  | none => simp [maybe_kind] at h
  | some ir =>
    cases ir with
    | ref module name debug =>
      cases module with
      | none => exact ⟨name, debug, rfl, by simpa [maybe_kind] using h⟩
      | some m => simp [maybe_kind] at h
    | _ => simp [maybe_kind] at h

theorem maybe_kind_diverge_names {d : List (String × IR)} {kind : String} (fuel : Nat) :
    ∀ node : Option IR, maybe_kind d (fuel + 1) node kind = .diverge →
      (alias_names d fuel node).length = fuel ∧ ∀ x ∈ alias_names d fuel node, x ∈ obj_keys d := by
  induction fuel with
  | zero =>
    intro node _
    simp [alias_names]
  | succ fuel ih =>
    intro node h
    obtain ⟨name, debug, hn, h1⟩ := maybe_kind_diverge_step h
    subst hn
    obtain ⟨name1, debug1, hn1, _⟩ := maybe_kind_diverge_step h1
    obtain ⟨hlen, hmem⟩ := ih _ h1
    simp only [alias_names, List.length_cons, hlen, List.mem_cons, true_and]
    intro x hx
    rcases hx with hx | hx
    · subst hx
      exact obj_get_some_mem_keys hn1
    · exact hmem x hx

/-- C5, amended: the deferred check of a node terminates, within as many
steps as `define_object` has entries and two more, whenever the chain of local
alias refs followed from the node visits no name twice. -/
theorem deferred_check_terminates (define_object : List (String × IR)) (node : Option IR)
    (kind : String)
    (h : (alias_names define_object (define_object.length + 1) node).Nodup) :
    maybe_kind define_object (define_object.length + 2) node kind ≠ .diverge := by
  intro hd
  obtain ⟨hlen, hmem⟩ := maybe_kind_diverge_names (define_object.length + 1) node hd
  have hle := (List.subperm_of_subset h hmem).length_le
  simp only [obj_keys, List.length_map] at hle
  omega


/-- A definition that is a ref to its own label: from a ref to `a`, with `a`
defined as a local ref to `a`, `maybe_kind` spends any fuel. -/
theorem maybe_kind_self_alias (fuel : Nat) (kind : String) (debug debug1 : Option Debug)
    (rest : List (String × IR)) :
    maybe_kind (("a", .ref none "a" debug) :: rest) fuel (some (.ref none "a" debug1)) kind
      = .diverge := by
  induction fuel generalizing debug1 with
  | zero => rfl
  | succ fuel ih =>
    simp only [maybe_kind, obj_get, if_true]
    exact ih debug

/-- C5, the claim as stated fails: in the module `a:\n ref a\nb:\n push 1 a\n`
the definition of `a` is a ref to `a` and the continuation of `push` records a
reference to `a`.  The define loop returns the table shown and the recorded
name `a`; from the entry of `a`, `maybe_kind` never reaches a terminal node,
whatever the fuel; `assemble` gives no answer. -/
theorem self_alias_check_never_ends :
    (match parse (tokenize "a:\n ref a\nb:\n push 1 a\n") with
      | .ok tree =>
        (define_loop tree "f.asm" [] (tree.get 2).items ([], [])).toOption.map
          (fun state => (state.1, state.2.map Node.id))
      | _ => none)
        = some
            ([("a", .ref none "a" (some { file := "f.asm", line := some 1 })),
              ("b", .instr "push" (.fixnum 1)
                (.ref none "a" (some { file := "f.asm", line := some 3 }))
                { file := "f.asm", line := some 3 })],
             ["a"]) ∧
      (∀ fuel,
        maybe_kind
          [("a", .ref none "a" (some { file := "f.asm", line := some 1 })),
           ("b", .instr "push" (.fixnum 1)
             (.ref none "a" (some { file := "f.asm", line := some 3 }))
             { file := "f.asm", line := some 3 })]
          fuel
          (obj_get
            [("a", .ref none "a" (some { file := "f.asm", line := some 1 })),
             ("b", .instr "push" (.fixnum 1)
               (.ref none "a" (some { file := "f.asm", line := some 3 }))
               { file := "f.asm", line := some 3 })] "a")
          "instr" = .diverge) ∧
      assemble "a:\n ref a\nb:\n push 1 a\n" "f.asm" = .diverge := by
  refine ⟨by decide, ?_, by decide⟩
  intro fuel
  exact maybe_kind_self_alias fuel "instr" _ _ _

/-- The amended C5 at the define table of `a:\nb:\n end stop\nc:\n push 1 b\n`,
from the entry of the recorded name `b`. -/
theorem deferred_check_terminates_witness :
    (alias_names
        [("a", .instr_end "stop" { file := "f.asm", line := some 2 }),
         ("b", .ref none "a" none),
         ("c", .instr "push" (.fixnum 1)
           (.ref none "b" (some { file := "f.asm", line := some 4 }))
           { file := "f.asm", line := some 4 })]
        4 (some (.ref none "a" none))).Nodup ∧
      maybe_kind
        [("a", .instr_end "stop" { file := "f.asm", line := some 2 }),
         ("b", .ref none "a" none),
         ("c", .instr "push" (.fixnum 1)
           (.ref none "b" (some { file := "f.asm", line := some 4 }))
           { file := "f.asm", line := some 4 })]
        5 (some (.ref none "a" none)) "instr" ≠ .diverge :=
  ⟨by decide,
    deferred_check_terminates
      [("a", .instr_end "stop" { file := "f.asm", line := some 2 }),
       ("b", .ref none "a" none),
       ("c", .instr "push" (.fixnum 1)
         (.ref none "b" (some { file := "f.asm", line := some 4 }))
         { file := "f.asm", line := some 4 })]
      (some (.ref none "a" none)) "instr" (by decide)⟩

/-! ### Generator: messages and operand counts -/

theorem operand_check_few {operator operands : Node} {statements : List Node} {r o : Nat}
    (h : operands.items.length < r) :
    operand_check operator operands statements r o = fail "Too few operands" operator := by
  simp [operand_check, h]

theorem operand_check_many {operator operands : Node} {statements : List Node} {r o : Nat}
    (h : r + o < operands.items.length) :
    operand_check operator operands statements r o
      = fail "Unexpected operand" ((operands.get (r + o)).get 1) := by
  have h1 : ¬ operands.items.length < r := by omega
  simp [operand_check, h, h1]

theorem operand_check_within {operator operands : Node} {statements : List Node} {r o : Nat}
    (h1 : r ≤ operands.items.length) (h2 : operands.items.length ≤ r + o) :
    operand_check operator operands statements r o = .ok () ∨
      operand_check operator operands statements r o
        = fail "Unexpected" ((statements.getD 1 .undefined).get 1) := by
  have h3 : ¬ operands.items.length < r := by omega
  have h4 : ¬ r + o < operands.items.length := by omega
  simp only [operand_check, h3, h4, if_false, gt_iff_lt]
  split
  · right; rfl
  · left; rfl

theorem bind_error {α β : Type} {a : Except Failure α} {g : α → Except Failure β} {f : Failure}
    (h : (a >>= g) = .error f) : a = .error f ∨ ∃ v, a = .ok v ∧ g v = .error f := by
  cases a with
  | error e =>
    left
    simpa [bind, Except.bind] using h
  | ok v =>
    right
    exact ⟨v, rfl, by simpa [bind, Except.bind] using h⟩

theorem map_error {α β : Type} {a : Except Failure α} {g : α → β} {f : Failure}
    (h : a.map g = .error f) : a = .error f := by
  cases a with
  | error e => simpa [Except.map] using h
  | ok v => simp [Except.map] at h

theorem fail_error {α : Type} {message : String} {token : Node} {f : Failure}
    (h : (fail message token : Except Failure α) = .error f) : f.message = message := by
  simp only [fail, Except.error.injEq] at h
  rw [← h]

theorem gen_type_error {operand : Node} {f : Failure} (h : gen_type operand = .error f) :
    f.message = "Expected a type" := by
  simp only [gen_type] at h
  split at h
  · cases h
  · exact fail_error h

theorem gen_literal_error {operand : Node} {f : Failure} (h : gen_literal operand = .error f) :
    f.message = "Expected a literal" := by
  simp only [gen_literal] at h
  repeat' split at h
  all_goals first | exact fail_error h | cases h

theorem gen_fixnum_error {operand : Node} {f : Failure} (h : gen_fixnum operand = .error f) :
    f.message = "Expected a fixnum" := by
  simp only [gen_fixnum] at h
  split at h
  · cases h
  · exact fail_error h

theorem gen_label_error {operand : Node} {labels : List String} {f : Failure}
    (h : gen_label operand labels = .error f) : f.message = "Bad label" := by
  simp only [gen_label] at h
  split at h
  · cases h
  · exact fail_error h

theorem gen_ref_error {tree : Node} {file : String} {import_object : List (String × String)}
    {operand : Node} {as_instruction : Bool} {f : Failure}
    (h : gen_ref tree file import_object operand as_instruction = .error f) :
    f.message ∈ ["Not imported", "Expected a name", "Not defined"] := by
  simp only [gen_ref] at h
  repeat' split at h
  all_goals first | (have hm := fail_error h; simp [hm]) | cases h

theorem gen_expression_error {tree : Node} {file : String}
    {import_object : List (String × String)} {operand : Node} {f : Failure}
    (h : gen_expression tree file import_object operand = .error f) :
    f.message ∈ expression_messages := by
  simp only [gen_expression] at h
  split at h
  · cases h
  · split at h
    · split at h
      · simp [expression_messages, gen_type_error h]
      · simp [expression_messages, gen_literal_error h]
    · have := gen_ref_error (map_error h)
      simp only [expression_messages, List.mem_cons] at this ⊢
      tauto

theorem gen_continuation_expression_error {tree : Node} {file : String}
    {import_object : List (String × String)} {as_instruction : Bool} {operand : Node}
    {f : Failure}
    (h : gen_continuation_expression tree file import_object as_instruction operand = .error f) :
    f.message ∈ expression_messages := by
  simp only [gen_continuation_expression] at h
  split at h
  · have := gen_ref_error h
    simp only [expression_messages, List.mem_cons] at this ⊢
    tauto
  · exact gen_expression_error (map_error h)

theorem gen_continuation_error {tree : Node} {file : String}
    {import_object : List (String × String)} {operator operands : Node} {statements : List Node}
    {as_instruction : Bool} {rest_value : Bool → Except Failure (IR × List Node)}
    {operand_nr : Nat} {f : Failure}
    (h : gen_continuation tree file import_object operator operands statements as_instruction
      rest_value operand_nr = .error f) :
    f.message ∈ "Missing continuation" :: "Unexpected statement" :: expression_messages ∨
      (1 < statements.length ∧ rest_value as_instruction = .error f) := by
  simp only [gen_continuation] at h
  split at h
  · split at h
    · rename_i hl
      exact Or.inr ⟨hl, h⟩
    · left
      simp [fail_error h]
  · split at h
    · left
      have := gen_continuation_expression_error h
      simp only [List.mem_cons] at this ⊢
      tauto
    · left
      simp [fail_error h]


theorem not_arity_of_mem {f : Failure} {l : List String} (hm : f.message ∈ l)
    (hl : "Too few operands" ∉ l ∧ "Unexpected operand" ∉ l)
    (ha : f.message = "Too few operands" ∨ f.message = "Unexpected operand") : False := by
  rcases ha with ha | ha
  · rw [ha] at hm
    exact hl.1 hm
  · rw [ha] at hm
    exact hl.2 hm

theorem not_arity_of_eq {f : Failure} {s : String} (hm : f.message = s)
    (hl : "Too few operands" ≠ s ∧ "Unexpected operand" ≠ s)
    (ha : f.message = "Too few operands" ∨ f.message = "Unexpected operand") : False := by
  rcases ha with ha | ha
  · exact hl.1 (ha.symm.trans hm)
  · exact hl.2 (ha.symm.trans hm)

theorem gen_continuation_arity {tree : Node} {file : String}
    {import_object : List (String × String)} {operator operands : Node} {statements : List Node}
    {as_instruction : Bool} {rest_value : Bool → Except Failure (IR × List Node)}
    {operand_nr : Nat} {f : Failure}
    (h : gen_continuation tree file import_object operator operands statements as_instruction
      rest_value operand_nr = .error f)
    (ha : f.message = "Too few operands" ∨ f.message = "Unexpected operand") :
    ∃ flag, rest_value flag = .error f := by
  rcases gen_continuation_error h with hm | hm
  · exact (not_arity_of_mem hm (by decide) ha).elim
  · exact ⟨_, hm.2⟩

theorem checked_arity {operator operands : Node} {statements : List Node} {r o : Nat}
    {body : Except Failure (IR × List Node)}
    {rest_value : Bool → Except Failure (IR × List Node)}
    (hbody : ∀ f, body = .error f →
      (f.message = "Too few operands" ∨ f.message = "Unexpected operand") →
        ∃ flag, rest_value flag = .error f) :
    (operands.items.length < r →
        (operand_check operator operands statements r o >>= fun _ => body)
          = fail "Too few operands" operator) ∧
      (r + o < operands.items.length →
        (operand_check operator operands statements r o >>= fun _ => body)
          = fail "Unexpected operand" ((operands.get (r + o)).get 1)) ∧
      (r ≤ operands.items.length → operands.items.length ≤ r + o →
        ∀ f, (operand_check operator operands statements r o >>= fun _ => body) = .error f →
          (f.message = "Too few operands" ∨ f.message = "Unexpected operand") →
            ∃ flag, rest_value flag = .error f) := by
  refine ⟨?_, ?_, ?_⟩
  · intro h
    rw [operand_check_few h]
    rfl
  · intro h
    rw [operand_check_many h]
    rfl
  · intro h1 h2 f hf ha
    rcases bind_error hf with h | ⟨_, _, h⟩
    · rcases @operand_check_within operator operands statements r o h1 h2 with hw | hw
      · rw [hw] at h
        cases h
      · rw [hw] at h
        exact (not_arity_of_eq (fail_error h) (by decide) ha).elim
    · exact hbody f h ha

theorem contract_of_eq {op s : String} {r o : Nat} (p : Nat × Nat) (h : op = s)
    (hc : operand_contract op = some (r, o)) (hs : operand_contract s = some p) :
    r = p.1 ∧ o = p.2 := by
  subst h
  rw [hs] at hc
  cases hc
  exact ⟨rfl, rfl⟩

theorem contract_of_fixnum_op {op : String} {r o : Nat}
    (h : fixnum_ops.contains op = true) (hc : operand_contract op = some (r, o)) :
    r = 1 ∧ o = 1 := by
  simp only [fixnum_ops, List.contains_eq_any_beq, List.any_cons, List.any_nil, Bool.or_false,
    Bool.or_eq_true, beq_iff_eq] at h
  rcases h with h | h | h | h | h | h | h | h | h | h | h | h <;>
    exact contract_of_eq (1, 1) h hc (by decide)

/-- C8, amended: for a statement whose operator belongs to a known family
with operand contract (required `r`, optional `o`), and which is not a
`pair_t` or `dict_t` in instruction position, `gen_value` fails with
`Too few operands` on the operator when fewer than `r` operands are given, and
with `Unexpected operand` on the first excess operand when more than `r + o`
are given; when the count is within `[r, r + o]`, a failure with one of these
two messages can only be the failure of the statements that follow. The count
is checked before any operand is interpreted. -/
theorem operand_count_checked_first (tree : Node) (file : String)
    (import_object : List (String × String)) (statement : Node) (rest : List Node)
    (as_instruction : Bool) (r o : Nat)
    (hc : operand_contract (statement.get 1).id = some (r, o))
    (hdata : as_instruction = true →
      (statement.get 1).id ≠ "pair_t" ∧ (statement.get 1).id ≠ "dict_t") :
    ((statement.get 2).items.length < r →
        gen_value tree file import_object (statement :: rest) as_instruction
          = fail "Too few operands" (statement.get 1)) ∧
      (r + o < (statement.get 2).items.length →
        gen_value tree file import_object (statement :: rest) as_instruction
          = fail "Unexpected operand" (((statement.get 2).get (r + o)).get 1)) ∧
      (r ≤ (statement.get 2).items.length → (statement.get 2).items.length ≤ r + o →
        ∀ f, gen_value tree file import_object (statement :: rest) as_instruction = .error f →
          (f.message = "Too few operands" ∨ f.message = "Unexpected operand") →
            ∃ flag, gen_value tree file import_object rest flag = .error f) := by
  rw [gen_value]
  by_cases h1 : (statement.get 1).id = "pair_t"
  · rw [if_pos h1]
    cases as_instruction with
    | true => exact absurd h1 (hdata rfl).1
    | false =>
      obtain ⟨rfl, rfl⟩ := contract_of_eq (1, 1) h1 hc (by decide)
      simp only [Bool.false_eq_true, if_false]
      refine checked_arity (fun f hf ha => ?_)
      rcases bind_error hf with h | ⟨_, _, h⟩
      · exact (not_arity_of_mem (gen_expression_error h) (by decide) ha).elim
      · rcases bind_error h with h | ⟨_, _, h⟩
        · exact gen_continuation_arity h ha
        · cases h
  rw [if_neg h1]
  by_cases h2 : (statement.get 1).id = "dict_t"
  · rw [if_pos h2]
    cases as_instruction with
    | true => exact absurd h2 (hdata rfl).2
    | false =>
      obtain ⟨rfl, rfl⟩ := contract_of_eq (2, 1) h2 hc (by decide)
      simp only [Bool.false_eq_true, if_false]
      refine checked_arity (fun f hf ha => ?_)
      rcases bind_error hf with h | ⟨_, _, h⟩
      · exact (not_arity_of_mem (gen_expression_error h) (by decide) ha).elim
      · rcases bind_error h with h | ⟨_, _, h⟩
        · exact (not_arity_of_mem (gen_expression_error h) (by decide) ha).elim
        · rcases bind_error h with h | ⟨_, _, h⟩
          · exact gen_continuation_arity h ha
          · cases h
  rw [if_neg h2]
  by_cases h3 : (statement.get 1).id = "ref"
  · rw [if_pos h3]
    obtain ⟨rfl, rfl⟩ := contract_of_eq (1, 0) h3 hc (by decide)
    refine checked_arity (fun f hf ha => ?_)
    exact (not_arity_of_mem (gen_continuation_expression_error hf) (by decide) ha).elim
  rw [if_neg h3]
  by_cases h4 : (statement.get 1).id = "typeq"
  · rw [if_pos h4]
    obtain ⟨rfl, rfl⟩ := contract_of_eq (1, 1) h4 hc (by decide)
    refine checked_arity (fun f hf ha => ?_)
    rcases bind_error hf with h | ⟨_, _, h⟩
    · exact (not_arity_of_eq (gen_type_error h) (by decide) ha).elim
    · rcases bind_error h with h | ⟨_, _, h⟩
      · exact gen_continuation_arity h ha
      · cases h
  rw [if_neg h4]
  by_cases h5 : fixnum_ops.contains (statement.get 1).id = true
  · rw [if_pos h5]
    obtain ⟨rfl, rfl⟩ := contract_of_fixnum_op h5 hc
    refine checked_arity (fun f hf ha => ?_)
    rcases bind_error hf with h | ⟨_, _, h⟩
    · exact (not_arity_of_eq (gen_fixnum_error h) (by decide) ha).elim
    · rcases bind_error h with h | ⟨_, _, h⟩
      · exact gen_continuation_arity h ha
      · cases h
  rw [if_neg h5]
  by_cases h6 : (decide ((statement.get 1).id = "push") || decide ((statement.get 1).id = "is_eq")
      || decide ((statement.get 1).id = "is_ne")) = true
  · rw [if_pos h6]
    have hro : r = 1 ∧ o = 1 := by
      simp only [Bool.or_eq_true, decide_eq_true_eq] at h6
      rcases h6 with (h6 | h6) | h6 <;> exact contract_of_eq (1, 1) h6 hc (by decide)
    obtain ⟨rfl, rfl⟩ := hro
    refine checked_arity (fun f hf ha => ?_)
    rcases bind_error hf with h | ⟨_, _, h⟩
    · exact (not_arity_of_mem (gen_expression_error h) (by decide) ha).elim
    · rcases bind_error h with h | ⟨_, _, h⟩
      · exact gen_continuation_arity h ha
      · cases h
  rw [if_neg h6]
  by_cases h7 : (statement.get 1).id = "depth"
  · rw [if_pos h7]
    obtain ⟨rfl, rfl⟩ := contract_of_eq (0, 1) h7 hc (by decide)
    refine checked_arity (fun f hf ha => ?_)
    rcases bind_error hf with h | ⟨_, _, h⟩
    · exact gen_continuation_arity h ha
    · cases h
  rw [if_neg h7]
  by_cases h8 : (statement.get 1).id = "if"
  · rw [if_pos h8]
    obtain ⟨rfl, rfl⟩ := contract_of_eq (1, 1) h8 hc (by decide)
    refine checked_arity (fun f hf ha => ?_)
    rcases bind_error hf with h | ⟨_, _, h⟩
    · exact (not_arity_of_mem (gen_ref_error h) (by decide) ha).elim
    · rcases bind_error h with h | ⟨_, _, h⟩
      · exact gen_continuation_arity h ha
      · cases h
  rw [if_neg h8]
  by_cases h9 : (statement.get 1).id = "if_not"
  · rw [if_pos h9]
    obtain ⟨rfl, rfl⟩ := contract_of_eq (1, 1) h9 hc (by decide)
    refine checked_arity (fun f hf ha => ?_)
    rcases bind_error hf with h | ⟨_, _, h⟩
    · exact (not_arity_of_mem (gen_ref_error h) (by decide) ha).elim
    · rcases bind_error h with h | ⟨_, _, h⟩
      · exact gen_continuation_arity h ha
      · cases h
  rw [if_neg h9]
  by_cases h10 : (decide ((statement.get 1).id = "dict") || decide ((statement.get 1).id = "deque")
      || decide ((statement.get 1).id = "alu") || decide ((statement.get 1).id = "cmp")
      || decide ((statement.get 1).id = "my")) = true
  · rw [if_pos h10]
    have hro : r = 1 ∧ o = 1 := by
      simp only [Bool.or_eq_true, decide_eq_true_eq] at h10
      rcases h10 with (((h10 | h10) | h10) | h10) | h10 <;>
        exact contract_of_eq (1, 1) h10 hc (by decide)
    obtain ⟨rfl, rfl⟩ := hro
    refine checked_arity (fun f hf ha => ?_)
    rcases bind_error hf with h | ⟨_, _, h⟩
    · exact (not_arity_of_eq (gen_label_error h) (by decide) ha).elim
    · rcases bind_error h with h | ⟨_, _, h⟩
      · exact gen_continuation_arity h ha
      · cases h
  rw [if_neg h10]
  by_cases h11 : (statement.get 1).id = "end"
  · rw [if_pos h11]
    obtain ⟨rfl, rfl⟩ := contract_of_eq (1, 0) h11 hc (by decide)
    refine checked_arity (fun f hf ha => ?_)
    rcases bind_error hf with h | ⟨_, _, h⟩
    · exact (not_arity_of_eq (gen_label_error h) (by decide) ha).elim
    · cases h
  · exfalso
    simp only [Bool.or_eq_true, decide_eq_true_eq, not_or] at h6 h10
    simp [operand_contract, h1, h2, h3, h4, h5, h6, h7, h8, h9, h10, h11] at hc
    exact h5 (by simpa using hc.1)

/-- C8, the claim as stated fails: in `a:\n push 1\n pair_t\n` the statement
`pair_t` has no operand, fewer than the one required, and the failure is
`Expected an instruction, not data`, not `Too few operands`. -/
theorem pair_t_count_not_checked_in_instruction_position :
    assemble "a:\n push 1\n pair_t\n" "f.asm"
      = .error { kind := "error", message := "Expected an instruction, not data",
                 file := "f.asm", line := some 2, column := some 1 } := by
  decide

/-- The amended C8 at a statement `push` without operand, in data position. -/
theorem operand_count_checked_first_witness :
    operand_contract (statement_push_no_operand.get 1).id = some (1, 1) ∧
      gen_value .undefined "f.asm" [] [statement_push_no_operand] false
        = fail "Too few operands" (statement_push_no_operand.get 1) :=
  ⟨by decide,
    (operand_count_checked_first .undefined "f.asm" [] statement_push_no_operand [] false 1 1
      (by decide) (by decide)).1 (by decide)⟩

/-! ### Generator: instructions and data -/


theorem check_loop_first_data {define_object : List (String × IR)} {fuel : Nat}
    {checked : List Node} {name_token : Node} {later : List Node}
    (hchecked : ∀ t ∈ checked,
      maybe_kind define_object fuel (obj_get define_object t.id) "instr" = .ok true)
    (hdata : maybe_kind define_object fuel (obj_get define_object name_token.id) "instr"
      = .ok false) :
    check_loop define_object fuel (checked ++ name_token :: later)
      = .fail { message := "Expected an instruction, not data", token := name_token } := by
  induction checked with
  | nil => simp [check_loop, hdata]
  | cons t rest ih =>
    have h1 := hchecked t (List.mem_cons_self _ _)
    simp only [List.cons_append, check_loop, h1]
    exact ih (fun u hu => hchecked u (List.mem_cons_of_mem _ hu))

/-- C4, amended.  When generation reaches a `pair_t` or `dict_t` statement in
instruction position it fails with `Expected an instruction, not data` on the
operator.  A definition that is data (a pair, a dict, a literal, a type or a
fixnum) does not pass for an instruction, and a local alias ref passes the
question on to the definition of its name.  When the module parses,
the imports and all the definitions are generated without error, and the first
recorded reference that does not lead to an instruction leads to data, then
`assemble` returns the error record of `Expected an instruction, not data` at
the referencing token.  An operand generated by `gen_expression` never raises
this error, and as a continuation in data position it records nothing. -/
theorem instruction_expected_not_data :
    (∀ (tree : Node) (file : String) (import_object : List (String × String))
        (statement : Node) (rest : List Node),
      ((statement.get 1).id = "pair_t" ∨ (statement.get 1).id = "dict_t") →
        gen_value tree file import_object (statement :: rest) true
          = fail "Expected an instruction, not data" (statement.get 1)) ∧
    (∀ (define_object : List (String × IR)) (fuel : Nat) (node : IR),
      is_data node = true →
        maybe_kind define_object (fuel + 1) (some node) "instr" = .ok false) ∧
    (∀ (define_object : List (String × IR)) (fuel : Nat) (name : String)
        (debug : Option Debug) (kind : String),
      maybe_kind define_object (fuel + 1) (some (.ref none name debug)) kind
        = maybe_kind define_object fuel (obj_get define_object name) kind) ∧
    (∀ (source file : String) (tree : Node) (import_object : List (String × String))
        (define_object : List (String × IR)) (checked : List Node) (name_token : Node)
        (later : List Node),
      parse (tokenize source) = .ok tree →
      import_block tree = .ok import_object →
      define_loop tree file import_object (tree.get 2).items ([], [])
        = .ok (define_object, checked ++ name_token :: later) →
      (∀ t ∈ checked,
        maybe_kind define_object (define_object.length + 2) (obj_get define_object t.id)
          "instr" = .ok true) →
      maybe_kind define_object (define_object.length + 2)
        (obj_get define_object name_token.id) "instr" = .ok false →
      assemble source file
        = .error { kind := "error", message := "Expected an instruction, not data",
                   file := file, line := name_token.line_nr,
                   column := name_token.column_nr }) ∧
    (∀ (tree : Node) (file : String) (import_object : List (String × String))
        (operand : Node) (f : Failure),
      gen_expression tree file import_object operand = .error f →
        f.message ≠ "Expected an instruction, not data") ∧
    (∀ (tree : Node) (file : String) (import_object : List (String × String))
        (operand : Node) (r : IR × List Node),
      gen_continuation_expression tree file import_object false operand = .ok r →
        r.2 = []) := by
  refine ⟨?_, ?_, ?_, ?_, ?_, ?_⟩
  · intro tree file import_object statement rest hop
    rw [gen_value]
    rcases hop with h | h
    · rw [if_pos h]
      rfl
    · rw [if_neg (by rw [h]; decide), if_pos h]
      rfl
  · intro define_object fuel node hd
    cases node <;> simp [is_data] at hd <;> simp [maybe_kind, IR.kind]
  · intro define_object fuel name debug kind
    simp [maybe_kind]
  · intro source file tree import_object define_object checked name_token later hp hi hd hc hn
    simp only [assemble, hp, generate_crlf, hi, hd, check_loop_first_data hc hn]
  · intro tree file import_object operand f h hm
    have := gen_expression_error h
    rw [hm] at this
    exact absurd this (by decide)
  · intro tree file import_object operand r h
    simp only [gen_continuation_expression, Bool.false_eq_true, if_false] at h
    cases hg : gen_expression tree file import_object operand with
    | error e => rw [hg] at h; simp [Except.map] at h
    | ok v =>
      rw [hg] at h
      simp only [Except.map, Except.ok.injEq] at h
      rw [← h]

/-- C4, the claim as stated fails: an error raised earlier is reported
instead.  In the first source the continuation of `push` is a `pair_t`
statement, and the failure is that of the immediate of `push`,
`Expected a literal`.  In the second source the continuation operand `b` of
`push` is a label defined as a pair, and the failure is `Bad op`, raised by
the definition of `c` before the deferred check is run. -/
theorem earlier_error_reported_instead :
    assemble "a:\n push #zzz\n pair_t 1 2\n" "f.asm"
        = .error { kind := "error", message := "Expected a literal", file := "f.asm",
                   line := some 1, column := some 6 } ∧
      assemble "a:\n push 1 b\nb:\n pair_t 1 2\nc:\n frob\n" "f.asm"
        = .error { kind := "error", message := "Bad op", file := "f.asm",
                   line := some 5, column := some 1 } := by
  decide

/-- The amended C4 at concrete inputs: the statement `pair_t 1 2` in
instruction position; a pair as definition; the module
`a:\n push 1 b\nb:\n pair_t 1 2\n`, where the data label `b` is the
continuation of `push`; and the module
`a:\n push b c\nb:\n pair_t 1 2\nc:\n end stop\n`, where `b` is the immediate
of `push`. -/
theorem instruction_expected_not_data_witness :
    gen_value .undefined "f.asm" [] [statement_pair_t_one_two] true
        = fail "Expected an instruction, not data" (statement_pair_t_one_two.get 1) ∧
      maybe_kind [] 1
          (some (.pair (.fixnum 1) (.fixnum 2) { file := "f.asm", line := some 3 })) "instr"
        = .ok false ∧
      assemble "a:\n push 1 b\nb:\n pair_t 1 2\n" "f.asm"
        = .error { kind := "error", message := "Expected an instruction, not data",
                   file := "f.asm", line := some 1, column := some 8 } ∧
      assemble "a:\n push b c\nb:\n pair_t 1 2\nc:\n end stop\n" "f.asm"
        = .document
            { lang := "uFork",
              ast :=
                { kind := "module",
                  import_object := [],
                  define_object :=
                    [("a", .instr "push"
                        (.ref none "b" (some { file := "f.asm", line := some 1 }))
                        (.ref none "c" (some { file := "f.asm", line := some 1 }))
                        { file := "f.asm", line := some 1 }),
                     ("b", .pair (.fixnum 1) (.fixnum 2) { file := "f.asm", line := some 3 }),
                     ("c", .instr_end "stop" { file := "f.asm", line := some 5 })],
                  export_array := [] } } :=
  ⟨instruction_expected_not_data.1 .undefined "f.asm" [] statement_pair_t_one_two []
      (Or.inl (by decide)),
    instruction_expected_not_data.2.1 [] 0 _ (by decide),
    by decide, by decide⟩

/-! ### Tokenizer: numbers -/

theorem rx_fixnum_first {src m rest : List Char} (h : rx_fixnum src = some (m, rest)) :
    ∃ c cs, src = c :: cs ∧ (c = '-' ∨ is_digit c = true) := by
  unfold rx_fixnum at h
  split at h
  · exact ⟨_, _, rfl, Or.inl rfl⟩
  · rename_i c cs _
    split at h
    · rename_i hc
      simp only [Bool.and_eq_true] at hc
      exact ⟨c, cs, rfl, Or.inr hc.1⟩
    · split at h
      · rename_i hc
        subst hc
        exact ⟨_, cs, rfl, Or.inr (by decide)⟩
      · cases h
  · cases h

theorem not_fixnum_first_of_eq {c d : Char} (h : c = '-' ∨ is_digit c = true)
    (hd : ¬ (d = '-' ∨ is_digit d = true)) : c ≠ d := by
  intro hcd
  subst hcd
  exact hd h

theorem fixnum_first_not_letter {c : Char} (h : c = '-' ∨ is_digit c = true) :
    is_letter c = false := by
  rcases h with h | h
  · subst h
    decide
  · simp only [is_digit, Bool.and_eq_true, decide_eq_true_eq] at h
    simp only [is_letter, Bool.or_eq_false_iff, Bool.and_eq_false_iff, decide_eq_false_iff_not]
    omega

theorem rx_before_fixnum {c : Char} {cs : List Char} (h : c = '-' ∨ is_digit c = true) :
    rx_newline (c :: cs) = none ∧ rx_spaces (c :: cs) = none ∧ rx_comment (c :: cs) = none ∧
      rx_name (c :: cs) = none ∧ rx_literal (c :: cs) = none := by
  have h1 : c ≠ '\n' := not_fixnum_first_of_eq h (by decide)
  have h2 : c ≠ '\r' := not_fixnum_first_of_eq h (by decide)
  have h3 : c ≠ ' ' := not_fixnum_first_of_eq h (by decide)
  have h4 : c ≠ ';' := not_fixnum_first_of_eq h (by decide)
  have h5 : c ≠ '#' := not_fixnum_first_of_eq h (by decide)
  refine ⟨?_, ?_, ?_, ?_, ?_⟩
  · unfold rx_newline
    split
    · rename_i heq; cases heq; exact absurd rfl h1
    · rename_i heq; cases heq; exact absurd rfl h2
    · rename_i heq; cases heq; exact absurd rfl h2
    · rfl
  · unfold rx_spaces
    split
    · rename_i heq; cases heq; exact absurd rfl h3
    · rfl
  · unfold rx_comment
    split
    · rename_i heq; cases heq; exact absurd rfl h4
    · rfl
  · simp only [rx_name, fixnum_first_not_letter h, Bool.false_eq_true, if_false]
  · unfold rx_literal
    split
    · rename_i heq; cases heq; exact absurd rfl h5
    · rfl

/-- C14: where the number rule matches the text `m`, `token_generator`
returns a `:number:` token whose number is the integer value of `m` when the
magnitude of that value is at most `2^53 - 1`, and the error token
otherwise. -/
theorem number_token_safe_range (s : TokenizerState) (src m rest : List Char)
    (hs : s.source = some src) (hm : rx_fixnum src = some (m, rest)) :
    token_generator s =
      if (parseInt m).natAbs ≤ 2 ^ 53 - 1 then
        (some { id := ":number:", number := parseInt m, text := String.mk m,
                line_nr := s.line_nr, column_nr := s.column_to,
                column_to := some (s.column_to + m.length) },
          { source := some rest, line_nr := s.line_nr, column_to := s.column_to + m.length })
      else
        (some { id := ":error:", line_nr := s.line_nr, column_nr := s.column_to + m.length },
          { source := none, line_nr := s.line_nr, column_to := s.column_to + m.length }) := by
  obtain ⟨c, cs, rfl, hc⟩ := rx_fixnum_first hm
  obtain ⟨h1, h2, h3, h4, h5⟩ := @rx_before_fixnum c cs hc
  unfold token_generator
  rw [hs]
  simp only [h1, h2, h3, h4, h5, hm, isSafeInteger, decide_eq_true_eq, error]
  rfl

/-- C14 at the largest safe integer and at the next integer. -/
theorem number_token_safe_range_witness :
    token_generator (tokenize "9007199254740991")
        = (some { id := ":number:", number := 9007199254740991, text := "9007199254740991",
                  line_nr := 0, column_nr := 0, column_to := some 16 },
            { source := some [], line_nr := 0, column_to := 16 }) ∧
      token_generator (tokenize "9007199254740992")
        = (some { id := ":error:", line_nr := 0, column_nr := 16 },
            { source := none, line_nr := 0, column_to := 16 }) :=
  ⟨(number_token_safe_range (tokenize "9007199254740991") "9007199254740991".data
      "9007199254740991".data [] rfl (by decide)).trans (by decide),
    (number_token_safe_range (tokenize "9007199254740992") "9007199254740992".data
      "9007199254740992".data [] rfl (by decide)).trans (by decide)⟩

/-! ### Parser: ordered choice -/

theorem or_skips_failures {pre : List Matcher} {ms : List Matcher} {input : Input}
    (hpre : ∀ p ∈ pre, ∃ f, p input = .fail f) :
    or (pre ++ ms) input = or ms input := by
  induction pre with
  | nil => rfl
  | cons p pre ih =>
    obtain ⟨f, hf⟩ := hpre p (List.mem_cons_self _ _)
    simp only [List.cons_append, or, hf]
    exact ih (fun q hq => hpre q (List.mem_cons_of_mem _ hq))

theorem or_fails_iff (ms : List Matcher) (input : Input) :
    (∃ f, or ms input = .fail f) ↔ ∀ m ∈ ms, ∃ f, m input = .fail f := by
  induction ms with
  | nil => simp [or]
  | cons m ms ih =>
    simp only [or, List.mem_cons, forall_eq_or_imp]
    cases hm : m input with
    | ok r => simp
    | fail f => simpa using ih
    | diverge => simp

/-- C19: ordered choice.  `or` returns the result of the first matcher of
the list that succeeds, the matchers before it having failed, whatever the
matchers after it are or would do.  It fails exactly when every matcher of
the list fails.  `optional m` is `or [m, zero]`: it returns the result of `m`
when `m` succeeds, and succeeds on the same cursor with an absent node when `m`
fails. -/
theorem ordered_choice :
    (∀ (pre : List Matcher) (m : Matcher) (post : List Matcher) (input : Input)
        (r : Input × Node),
      (∀ p ∈ pre, ∃ f, p input = .fail f) → m input = .ok r →
        or (pre ++ m :: post) input = .ok r) ∧
    (∀ (ms : List Matcher) (input : Input),
      (∃ f, or ms input = .fail f) ↔ ∀ m ∈ ms, ∃ f, m input = .fail f) ∧
    (∀ (m : Matcher) (input : Input),
      optional m = or [m, zero] ∧
      (∀ r, m input = .ok r → optional m input = .ok r) ∧
      ((∃ f, m input = .fail f) → optional m input = .ok (input, .undefined))) := by
  refine ⟨?_, or_fails_iff, ?_⟩
  · intro pre m post input r hpre hm
    rw [or_skips_failures hpre]
    simp only [or, hm]
  · intro m input
    refine ⟨rfl, ?_, ?_⟩
    · intro r hm
      simp only [optional, or, hm]
    · rintro ⟨f, hf⟩
      simp only [optional, or, hf, zero]

/-- C19 on the tokens of `a.b`: `name` comes first and succeeds with one
token, and the later matcher, which would consume three, is not consulted. -/
theorem ordered_choice_witness :
    or [name, and [name, id ".", name]] (make_input (tokenize "a.b"))
      = .ok ((make_input (tokenize "a.b")).next,
          .token { id := "a", alphameric := true, line_nr := 0, column_nr := 0,
                   column_to := some 1 }) :=
  ordered_choice.1 [] name [and [name, id ".", name]] (make_input (tokenize "a.b")) _
    (fun _ h => absurd h (List.not_mem_nil _)) rfl

/-! ### Generator: the families of `gen_value` -/

theorem gen_label_eq (operand : Node) (labels : List String) :
    gen_label operand labels
      = if (operand.get 1).alphameric = true ∧ (operand.get 1).id ∈ labels then
          .ok (operand.get 1).id
        else fail "Bad label" (operand.get 1) := by
  unfold gen_label
  by_cases h : (operand.get 1).alphameric = true ∧ (operand.get 1).id ∈ labels
  · rw [if_pos h, if_pos (by simpa using h)]
    rfl
  · rw [if_neg h, if_neg (by simpa using h)]

theorem gen_value_pair_t {tree : Node} {file : String}
    {import_object : List (String × String)} {statement : Node} {rest : List Node}
    {as_instruction : Bool} (hop : (statement.get 1).id = "pair_t") :
    gen_value tree file import_object (statement :: rest) as_instruction
      = if as_instruction = true then
          fail "Expected an instruction, not data" (statement.get 1)
        else (do
          operand_check (statement.get 1) (statement.get 2) (statement :: rest) 1 1
          let head ← gen_expression tree file import_object ((statement.get 2).get 0)
          let tail ← gen_continuation tree file import_object (statement.get 1)
            (statement.get 2) (statement :: rest) as_instruction
            (gen_value tree file import_object rest) 1
          pure (.pair head tail.1 { file := file, line := (statement.get 1).line_nr },
            tail.2)) := by
  rw [gen_value, if_pos hop]

theorem gen_value_dict_t {tree : Node} {file : String}
    {import_object : List (String × String)} {statement : Node} {rest : List Node}
    {as_instruction : Bool} (hop : (statement.get 1).id = "dict_t") :
    gen_value tree file import_object (statement :: rest) as_instruction
      = if as_instruction = true then
          fail "Expected an instruction, not data" (statement.get 1)
        else (do
          operand_check (statement.get 1) (statement.get 2) (statement :: rest) 2 1
          let key ← gen_expression tree file import_object ((statement.get 2).get 0)
          let value ← gen_expression tree file import_object ((statement.get 2).get 1)
          let next ← gen_continuation tree file import_object (statement.get 1)
            (statement.get 2) (statement :: rest) as_instruction
            (gen_value tree file import_object rest) 2
          pure (.dict key value next.1 { file := file, line := (statement.get 1).line_nr },
            next.2)) := by
  rw [gen_value, if_neg, if_pos hop]
  rw [hop]; decide

theorem gen_value_ref {tree : Node} {file : String}
    {import_object : List (String × String)} {statement : Node} {rest : List Node}
    {as_instruction : Bool} (hop : (statement.get 1).id = "ref") :
    gen_value tree file import_object (statement :: rest) as_instruction
      = (do
          operand_check (statement.get 1) (statement.get 2) (statement :: rest) 1 0
          gen_continuation_expression tree file import_object as_instruction
            ((statement.get 2).get 0)) := by
  rw [gen_value, if_neg, if_neg, if_pos hop]
  all_goals rw [hop]; decide

theorem gen_value_typeq {tree : Node} {file : String}
    {import_object : List (String × String)} {statement : Node} {rest : List Node}
    {as_instruction : Bool} (hop : (statement.get 1).id = "typeq") :
    gen_value tree file import_object (statement :: rest) as_instruction
      = (do
          operand_check (statement.get 1) (statement.get 2) (statement :: rest) 1 1
          let imm ← gen_type ((statement.get 2).get 0)
          let k ← gen_continuation tree file import_object (statement.get 1) (statement.get 2)
            (statement :: rest) true (gen_value tree file import_object rest) 1
          pure (.instr "typeq" imm k.1 { file := file, line := (statement.get 1).line_nr },
            k.2)) := by
  rw [gen_value, if_neg, if_neg, if_neg, if_pos hop]
  all_goals rw [hop]; decide

theorem gen_value_fixnum_op {tree : Node} {file : String}
    {import_object : List (String × String)} {statement : Node} {rest : List Node}
    {as_instruction : Bool} (hop : (statement.get 1).id ∈ fixnum_ops) :
    gen_value tree file import_object (statement :: rest) as_instruction
      = (do
          operand_check (statement.get 1) (statement.get 2) (statement :: rest) 1 1
          let imm ← gen_fixnum ((statement.get 2).get 0)
          let k ← gen_continuation tree file import_object (statement.get 1) (statement.get 2)
            (statement :: rest) true (gen_value tree file import_object rest) 1
          pure (.instr (statement.get 1).id imm k.1
            { file := file, line := (statement.get 1).line_nr }, k.2)) := by
  have hc : fixnum_ops.contains (statement.get 1).id = true := by simpa using hop
  rw [gen_value, if_neg, if_neg, if_neg, if_neg, if_pos hc]
  all_goals
    simp only [fixnum_ops, List.mem_cons, List.mem_singleton, List.not_mem_nil, or_false] at hop
    rcases hop with h | h | h | h | h | h | h | h | h | h | h | h <;> rw [h] <;> decide

theorem gen_value_push_op {tree : Node} {file : String}
    {import_object : List (String × String)} {statement : Node} {rest : List Node}
    {as_instruction : Bool} (hop : (statement.get 1).id ∈ ["push", "is_eq", "is_ne"]) :
    gen_value tree file import_object (statement :: rest) as_instruction
      = (do
          operand_check (statement.get 1) (statement.get 2) (statement :: rest) 1 1
          let imm ← gen_expression tree file import_object ((statement.get 2).get 0)
          let k ← gen_continuation tree file import_object (statement.get 1) (statement.get 2)
            (statement :: rest) true (gen_value tree file import_object rest) 1
          pure (.instr (statement.get 1).id imm k.1
            { file := file, line := (statement.get 1).line_nr }, k.2)) := by
  simp only [List.mem_cons, List.mem_singleton, List.not_mem_nil, or_false] at hop
  have hcond : (decide ((statement.get 1).id = "push") || decide ((statement.get 1).id = "is_eq")
      || decide ((statement.get 1).id = "is_ne")) = true := by
    simpa [or_assoc] using hop
  rw [gen_value, if_neg, if_neg, if_neg, if_neg, if_neg, if_pos hcond]
  all_goals
    rcases hop with h | h | h <;> rw [h] <;> decide

theorem gen_value_depth {tree : Node} {file : String}
    {import_object : List (String × String)} {statement : Node} {rest : List Node}
    {as_instruction : Bool} (hop : (statement.get 1).id = "depth") :
    gen_value tree file import_object (statement :: rest) as_instruction
      = (do
          operand_check (statement.get 1) (statement.get 2) (statement :: rest) 0 1
          let k ← gen_continuation tree file import_object (statement.get 1) (statement.get 2)
            (statement :: rest) true (gen_value tree file import_object rest) 0
          pure (.instr_depth k.1 { file := file, line := (statement.get 1).line_nr },
            k.2)) := by
  rw [gen_value, if_neg, if_neg, if_neg, if_neg, if_neg, if_neg, if_pos hop]
  all_goals rw [hop]; decide

theorem gen_value_if {tree : Node} {file : String}
    {import_object : List (String × String)} {statement : Node} {rest : List Node}
    {as_instruction : Bool} (hop : (statement.get 1).id = "if") :
    gen_value tree file import_object (statement :: rest) as_instruction
      = (do
          operand_check (statement.get 1) (statement.get 2) (statement :: rest) 1 1
          let t ← gen_ref tree file import_object ((statement.get 2).get 0) true
          let f ← gen_continuation tree file import_object (statement.get 1) (statement.get 2)
            (statement :: rest) true (gen_value tree file import_object rest) 1
          pure (.instr_if t.1 f.1 { file := file, line := (statement.get 1).line_nr },
            t.2 ++ f.2)) := by
  rw [gen_value, if_neg, if_neg, if_neg, if_neg, if_neg, if_neg, if_neg, if_pos hop]
  all_goals rw [hop]; decide

theorem gen_value_if_not {tree : Node} {file : String}
    {import_object : List (String × String)} {statement : Node} {rest : List Node}
    {as_instruction : Bool} (hop : (statement.get 1).id = "if_not") :
    gen_value tree file import_object (statement :: rest) as_instruction
      = (do
          operand_check (statement.get 1) (statement.get 2) (statement :: rest) 1 1
          let f ← gen_ref tree file import_object ((statement.get 2).get 0) true
          let t ← gen_continuation tree file import_object (statement.get 1) (statement.get 2)
            (statement :: rest) true (gen_value tree file import_object rest) 1
          pure (.instr_if t.1 f.1 { file := file, line := (statement.get 1).line_nr },
            f.2 ++ t.2)) := by
  rw [gen_value, if_neg, if_neg, if_neg, if_neg, if_neg, if_neg, if_neg, if_neg, if_pos hop]
  all_goals rw [hop]; decide

theorem gen_value_label_op {tree : Node} {file : String}
    {import_object : List (String × String)} {statement : Node} {rest : List Node}
    {as_instruction : Bool}
    (hop : (statement.get 1).id ∈ ["dict", "deque", "alu", "cmp", "my"]) :
    gen_value tree file import_object (statement :: rest) as_instruction
      = (do
          operand_check (statement.get 1) (statement.get 2) (statement :: rest) 1 1
          let imm ← gen_label ((statement.get 2).get 0) (imm_labels (statement.get 1).id)
          let k ← gen_continuation tree file import_object (statement.get 1) (statement.get 2)
            (statement :: rest) true (gen_value tree file import_object rest) 1
          pure (.instr_label (statement.get 1).id imm k.1
            { file := file, line := (statement.get 1).line_nr }, k.2)) := by
  rw [gen_value]
  simp only [List.mem_cons, List.mem_singleton, List.not_mem_nil, or_false] at hop
  have hcond : (decide ((statement.get 1).id = "dict") || decide ((statement.get 1).id = "deque")
      || decide ((statement.get 1).id = "alu") || decide ((statement.get 1).id = "cmp")
      || decide ((statement.get 1).id = "my")) = true := by
    simpa [or_assoc] using hop
  rw [if_neg, if_neg, if_neg, if_neg, if_neg, if_neg, if_neg, if_neg, if_neg, if_pos hcond]
  all_goals
    rcases hop with h | h | h | h | h <;> rw [h] <;> decide

theorem gen_value_end_op {tree : Node} {file : String}
    {import_object : List (String × String)} {statement : Node} {rest : List Node}
    {as_instruction : Bool} (hop : (statement.get 1).id = "end") :
    gen_value tree file import_object (statement :: rest) as_instruction
      = (do
          operand_check (statement.get 1) (statement.get 2) (statement :: rest) 1 0
          let imm ← gen_label ((statement.get 2).get 0) (imm_labels "end")
          pure (.instr_end imm { file := file, line := (statement.get 1).line_nr }, [])) := by
  rw [gen_value]
  rw [if_neg, if_neg, if_neg, if_neg, if_neg, if_neg, if_neg, if_neg, if_neg, if_neg, if_pos hop]
  all_goals rw [hop]; decide

/-- The operators that `gen_value` knows. -/
theorem gen_value_bad_op {tree : Node} {file : String}
    {import_object : List (String × String)} {statement : Node} {rest : List Node}
    {as_instruction : Bool}
    (hop : (statement.get 1).id ∉
      ["pair_t", "dict_t", "ref", "typeq", "push", "is_eq", "is_ne", "depth", "if", "if_not",
        "dict", "deque", "alu", "cmp", "my", "end"])
    (hfix : (statement.get 1).id ∉ fixnum_ops) :
    gen_value tree file import_object (statement :: rest) as_instruction
      = fail "Bad op" (statement.get 1) := by
  simp only [List.mem_cons, List.mem_singleton, List.not_mem_nil, or_false, not_or] at hop
  have hc : ¬ fixnum_ops.contains (statement.get 1).id = true := by simpa using hfix
  rw [gen_value, if_neg hop.1, if_neg hop.2.1, if_neg hop.2.2.1, if_neg hop.2.2.2.1, if_neg hc,
    if_neg, if_neg hop.2.2.2.2.2.2.2.1, if_neg hop.2.2.2.2.2.2.2.2.1,
    if_neg hop.2.2.2.2.2.2.2.2.2.1, if_neg, if_neg hop.2.2.2.2.2.2.2.2.2.2.2.2.2.2.2]
  · simp only [Bool.or_eq_true, decide_eq_true_eq, not_or]
    tauto
  · simp only [Bool.or_eq_true, decide_eq_true_eq, not_or]
    tauto

/-- Every operator falls in one family of `gen_value`. -/
theorem operator_family (op : String) :
    op = "pair_t" ∨ op = "dict_t" ∨ op = "ref" ∨ op = "typeq" ∨ op ∈ fixnum_ops ∨
      op ∈ ["push", "is_eq", "is_ne"] ∨ op = "depth" ∨ op = "if" ∨ op = "if_not" ∨
      op ∈ ["dict", "deque", "alu", "cmp", "my"] ∨ op = "end" ∨
      (op ∉ ["pair_t", "dict_t", "ref", "typeq", "push", "is_eq", "is_ne", "depth", "if",
          "if_not", "dict", "deque", "alu", "cmp", "my", "end"] ∧ op ∉ fixnum_ops) := by
  simp only [List.mem_cons, List.mem_singleton, List.not_mem_nil, or_false]
  tauto

/-! ### Generator: expressions and immediate labels -/

theorem gen_expression_literal_token {tree : Node} {file : String}
    {import_object : List (String × String)} {operand : Node} {token : Token}
    (h : operand.get 1 = .token token) (hid : token.id = ":literal:") :
    gen_expression tree file import_object operand
      = if endsWith token.name "_t" then gen_type operand else gen_literal operand := by
  unfold gen_expression
  rw [h]
  simp only [Node.id, Node.name]
  rw [if_neg (by rw [hid]; decide), if_pos hid]

theorem gen_type_literal_token {operand : Node} {token : Token}
    (h : operand.get 1 = .token token) (hid : token.id = ":literal:") :
    gen_type operand
      = if token.name ∈ type_names then .ok (.type token.name)
        else fail "Expected a type" (.token token) := by
  unfold gen_type
  rw [h]
  simp only [Node.id, Node.name, hid, decide_True, Bool.true_and]
  by_cases hm : token.name ∈ type_names
  · rw [if_pos hm, if_pos]
    · rfl
    · simpa [type_names, or_assoc] using hm
  · rw [if_neg hm, if_neg]
    simpa [type_names, or_assoc] using hm

theorem gen_literal_literal_token {operand : Node} {token : Token}
    (h : operand.get 1 = .token token) (hid : token.id = ":literal:") :
    gen_literal operand
      = if token.name = "?" then .ok (.literal "undef")
        else if token.name = "nil" then .ok (.literal "nil")
        else if token.name = "unit" then .ok (.literal "unit")
        else if token.name = "t" then .ok (.literal "true")
        else if token.name = "f" then .ok (.literal "false")
        else fail "Expected a literal" (.token token) := by
  unfold gen_literal
  rw [h]
  simp only [Node.id, Node.name, hid, decide_True, Bool.true_and, decide_eq_true_eq]
  rfl

/-- C18: `gen_expression` on an operand that is a number token or a literal
token.  A number token gives its integer value.  A literal token named `?`,
`nil`, `unit`, `t`, `f` gives the literal `undef`, `nil`, `unit`, `true`,
`false`.  A literal token whose name ends in `_t` gives the type of that name
when the name is one of the seven type names, and fails with
`Expected a type` otherwise.  Any other literal token fails with
`Expected a literal`. -/
theorem gen_expression_non_reference (tree : Node) (file : String)
    (import_object : List (String × String)) (operand : Node) (token : Token)
    (h : operand.get 1 = .token token) :
    (token.id = ":number:" →
        gen_expression tree file import_object operand = .ok (.fixnum token.number)) ∧
      (token.id = ":literal:" →
        (∀ value, (token.name, value) ∈ literal_values →
          gen_expression tree file import_object operand = .ok (.literal value)) ∧
        (endsWith token.name "_t" = true →
          (token.name ∈ type_names →
            gen_expression tree file import_object operand = .ok (.type token.name)) ∧
          (token.name ∉ type_names →
            gen_expression tree file import_object operand
              = fail "Expected a type" (.token token))) ∧
        (endsWith token.name "_t" = false →
          (∀ value, (token.name, value) ∉ literal_values) →
            gen_expression tree file import_object operand
              = fail "Expected a literal" (.token token))) := by
  refine ⟨?_, ?_⟩
  · intro hid
    unfold gen_expression
    rw [h]
    simp only [Node.id, Node.number]
    rw [if_pos hid]
    rfl
  · intro hid
    rw [gen_expression_literal_token h hid, gen_type_literal_token h hid,
      gen_literal_literal_token h hid]
    refine ⟨?_, ?_, ?_⟩
    · intro value hv
      simp only [literal_values, List.mem_cons, Prod.mk.injEq, List.mem_singleton,
        List.not_mem_nil, or_false] at hv
      rcases hv with ⟨hn, rfl⟩ | ⟨hn, rfl⟩ | ⟨hn, rfl⟩ | ⟨hn, rfl⟩ | ⟨hn, rfl⟩ <;>
        rw [hn] <;> rfl
    · intro he
      rw [he]
      constructor
      · intro hm
        rw [if_pos rfl, if_pos hm]
      · intro hm
        rw [if_pos rfl, if_neg hm]
    · intro he hv
      have h1 : token.name ≠ "?" := fun hn => hv "undef" (by simp [literal_values, hn])
      have h2 : token.name ≠ "nil" := fun hn => hv "nil" (by simp [literal_values, hn])
      have h3 : token.name ≠ "unit" := fun hn => hv "unit" (by simp [literal_values, hn])
      have h4 : token.name ≠ "t" := fun hn => hv "true" (by simp [literal_values, hn])
      have h5 : token.name ≠ "f" := fun hn => hv "false" (by simp [literal_values, hn])
      rw [he, if_neg (by decide), if_neg h1, if_neg h2, if_neg h3, if_neg h4, if_neg h5]

/-- C18 at the operand `#t` of `a:\n push #t\n end stop\n`. -/
theorem gen_expression_non_reference_witness :
    gen_expression .undefined "f.asm" [] (first_operand "a:\n push #t\n end stop\n")
      = .ok (.literal "true") :=
  ((gen_expression_non_reference .undefined "f.asm" []
      (first_operand "a:\n push #t\n end stop\n")
      { id := ":literal:", name := "t", line_nr := 1, column_nr := 6, column_to := some 8 }
      rfl).2 rfl).1 "true" (by decide)

theorem operand_check_ok_of_count {operator operands : Node} {statements : List Node}
    {r o : Nat} (h1 : r ≤ operands.items.length) (h2 : operands.items.length ≤ r + o)
    (h3 : o = 0 → statements.length ≤ 1) :
    operand_check operator operands statements r o = .ok () := by
  have h4 : ¬ operands.items.length < r := by omega
  have h5 : ¬ r + o < operands.items.length := by omega
  simp only [operand_check, h4, h5, if_false, gt_iff_lt]
  split
  · rename_i hc
    simp only [Bool.and_eq_true, decide_eq_true_eq] at hc
    have := h3 hc.1
    omega
  · rfl

/-- C11: a statement of `dict`, `deque`, `alu`, `cmp`, `my` or `end` with a
valid operand count.  When its first operand is a name token that belongs to
`imm_labels` of the operator, `end` gives the instruction with that name as
immediate, and the other operators give, for every continuation that
`gen_continuation` returns, the instruction with that name as immediate and
that continuation.  For any other first operand `gen_value` fails with
`Bad label` on the operand. -/
theorem imm_label_whitelist (tree : Node) (file : String)
    (import_object : List (String × String)) (statement : Node) (rest : List Node)
    (as_instruction : Bool)
    (hop : (statement.get 1).id ∈ ["dict", "deque", "alu", "cmp", "my", "end"])
    (hmin : 1 ≤ (statement.get 2).items.length)
    (hmax : (statement.get 2).items.length ≤ if (statement.get 1).id = "end" then 1 else 2)
    (hend : (statement.get 1).id = "end" → rest = []) :
    ((((statement.get 2).get 0).get 1).alphameric = true ∧
        (((statement.get 2).get 0).get 1).id ∈ imm_labels (statement.get 1).id →
      ((statement.get 1).id = "end" →
        gen_value tree file import_object (statement :: rest) as_instruction
          = .ok (.instr_end (((statement.get 2).get 0).get 1).id
              { file := file, line := (statement.get 1).line_nr }, [])) ∧
      ((statement.get 1).id ≠ "end" →
        ∀ k, gen_continuation tree file import_object (statement.get 1) (statement.get 2)
            (statement :: rest) true (gen_value tree file import_object rest) 1 = .ok k →
          gen_value tree file import_object (statement :: rest) as_instruction
            = .ok (.instr_label (statement.get 1).id (((statement.get 2).get 0).get 1).id k.1
                { file := file, line := (statement.get 1).line_nr }, k.2))) ∧
    (¬ ((((statement.get 2).get 0).get 1).alphameric = true ∧
        (((statement.get 2).get 0).get 1).id ∈ imm_labels (statement.get 1).id) →
      gen_value tree file import_object (statement :: rest) as_instruction
        = fail "Bad label" (((statement.get 2).get 0).get 1)) := by
  by_cases he : (statement.get 1).id = "end"
  · rw [if_pos he] at hmax
    have hr := hend he
    subst hr
    have hck : operand_check (statement.get 1) (statement.get 2) [statement] 1 0 = .ok () :=
      operand_check_ok_of_count hmin hmax (fun _ => Nat.le_refl _)
    rw [gen_value_end_op he, hck, gen_label_eq, he]
    constructor
    · intro hw
      refine ⟨fun _ => ?_, fun hne => absurd rfl hne⟩
      rw [if_pos hw]
      rfl
    · intro hw
      rw [if_neg hw]
      rfl
  · rw [if_neg he] at hmax
    have hop5 : (statement.get 1).id ∈ ["dict", "deque", "alu", "cmp", "my"] := by
      simp only [List.mem_cons, List.mem_singleton, List.not_mem_nil, or_false] at hop ⊢
      tauto
    have hck : operand_check (statement.get 1) (statement.get 2) (statement :: rest) 1 1
        = .ok () :=
      operand_check_ok_of_count hmin hmax (fun h => absurd h (by decide))
    rw [gen_value_label_op hop5, hck, gen_label_eq]
    constructor
    · intro hw
      refine ⟨fun h => absurd h he, fun _ k hk => ?_⟩
      rw [if_pos hw, hk]
      rfl
    · intro hw
      rw [if_neg hw]
      rfl

/-- C11 at `alu frobnicate` and `alu add`: the first statement of
`a:\n alu frobnicate\n end stop\n` fails with `Bad label` on `frobnicate`,
and the two sources assemble to the error record of `Bad label` and to a
document. -/
theorem imm_label_whitelist_witness :
    gen_value .undefined "f.asm" []
        ((first_statements "a:\n alu frobnicate\n end stop\n").getD 0 .undefined
          :: (first_statements "a:\n alu frobnicate\n end stop\n").drop 1) false
      = fail "Bad label"
          (.token { id := "frobnicate", alphameric := true, line_nr := 1, column_nr := 5,
                    column_to := some 15 }) ∧
      assemble "a:\n alu frobnicate\n end stop\n" "f.asm"
        = .error { kind := "error", message := "Bad label", file := "f.asm",
                   line := some 1, column := some 5 } ∧
      assemble "a:\n alu add\n end stop\n" "f.asm"
        = .document
            { lang := "uFork",
              ast :=
                { kind := "module",
                  import_object := [],
                  define_object :=
                    [("a", .instr_label "alu" "add"
                        (.instr_end "stop" { file := "f.asm", line := some 2 })
                        { file := "f.asm", line := some 1 })],
                  export_array := [] } } :=
  ⟨(imm_label_whitelist .undefined "f.asm" []
      ((first_statements "a:\n alu frobnicate\n end stop\n").getD 0 .undefined)
      ((first_statements "a:\n alu frobnicate\n end stop\n").drop 1) false
      (by decide) (by decide) (by decide) (fun h => absurd h (by decide))).2 (by decide),
    by decide, by decide⟩

/-! ### Generator: imports and exports -/

theorem mem_keys_obj_get_isSome {α : Type} {object : List (String × α)} {key : String}
    (h : key ∈ obj_keys object) : (obj_get object key).isSome = true := by
  induction object with
  | nil => simp [obj_keys] at h
  | cons p rest ih =>
    obtain ⟨k, v⟩ := p
    simp only [obj_get]
    split
    · rfl
    · rename_i hk
      simp only [obj_keys, List.map_cons, List.mem_cons] at h ih
      rcases h with h | h
      · exact absurd h.symm hk
      · exact ih h

theorem not_mem_keys_obj_get_isSome {α : Type} {object : List (String × α)} {key : String}
    (h : key ∉ obj_keys object) : (obj_get object key).isSome = false := by
  cases hg : obj_get object key with
  | none => rfl
  | some v => exact absurd (obj_get_some_mem_keys hg) h

theorem import_loop_repeated {checked : List Node} {importation : Node} {later : List Node}
    {import_object : List (String × String)}
    (hfresh : ∀ i ∈ checked, (i.get 1).id ∉ obj_keys import_object)
    (hnodup : (checked.map (fun i => (i.get 1).id)).Nodup)
    (hdup : (importation.get 1).id ∈ obj_keys import_object ∨
      (importation.get 1).id ∈ checked.map (fun i => (i.get 1).id)) :
    import_loop (checked ++ importation :: later) import_object
      = fail ("Redefinition of \x27" ++ (importation.get 1).id ++ "\x27") (importation.get 1) := by
  induction checked generalizing import_object with
  | nil =>
    simp only [List.map_nil, List.not_mem_nil, or_false] at hdup
    simp only [List.nil_append, import_loop, mem_keys_obj_get_isSome hdup, if_true]
  | cons c cs ih =>
    have hc := hfresh c (List.mem_cons_self _ _)
    simp only [List.map_cons, List.nodup_cons] at hnodup
    simp only [List.cons_append, import_loop, not_mem_keys_obj_get_isSome hc,
      Bool.false_eq_true, if_false]
    apply ih
    · intro i hi
      rw [mem_obj_keys_obj_set]
      intro h
      rcases h with h | h
      · exact hnodup.1 (h ▸ List.mem_map_of_mem _ hi)
      · exact hfresh i (List.mem_cons_of_mem _ hi) h
    · exact hnodup.2
    · rw [mem_obj_keys_obj_set]
      simp only [List.map_cons, List.mem_cons] at hdup
      tauto

theorem first_repeated {α β : Type} (f : α → β) (l : List α) (h : ¬ (l.map f).Nodup) :
    ∃ pre x post, l = pre ++ x :: post ∧ (pre.map f).Nodup ∧ f x ∈ pre.map f := by
  induction l using List.reverseRecOn with
  | nil => simp at h
  | append_singleton init x ih =>
    by_cases hi : (init.map f).Nodup
    · refine ⟨init, x, [], rfl, hi, ?_⟩
      by_contra hx
      apply h
      rw [List.map_append, List.map_singleton, List.nodup_append]
      refine ⟨hi, List.nodup_singleton _, ?_⟩
      intro a ha hb
      simp only [List.mem_singleton] at hb
      subst hb
      exact hx ha
    · obtain ⟨pre, y, post, hl, hn, hy⟩ := ih hi
      exact ⟨pre, y, post ++ [x], by rw [hl]; simp, hn, hy⟩

/-- C13: when the module parses and its import block declares an alias more
than once, then at the first importation whose alias repeats an earlier one
(the aliases before it are distinct) the import loop fails on the alias name
token, so that no later importation is registered, and `assemble` returns the
error record with message `Redefinition of \x27<alias>\x27` and the line and
column of that token. -/
theorem duplicate_import_alias (source file : String) (tree : Node)
    (hp : parse (tokenize source) = .ok tree)
    (hdup : ¬ (((tree.get 1).get 2).items.map (fun i => (i.get 1).id)).Nodup) :
    ∃ checked importation later,
      ((tree.get 1).get 2).items = checked ++ importation :: later ∧
      (checked.map (fun i => (i.get 1).id)).Nodup ∧
      (importation.get 1).id ∈ checked.map (fun i => (i.get 1).id) ∧
      import_block tree
        = fail ("Redefinition of \x27" ++ (importation.get 1).id ++ "\x27")
            (importation.get 1) ∧
      assemble source file
        = .error { kind := "error",
                   message := "Redefinition of \x27" ++ (importation.get 1).id ++ "\x27",
                   file := file, line := (importation.get 1).line_nr,
                   column := (importation.get 1).column_nr } := by
  obtain ⟨checked, importation, later, hl, hn, hm⟩ := first_repeated _ _ hdup
  have hloop := @import_loop_repeated checked importation later []
    (fun i _ => by simp [obj_keys]) hn (Or.inr hm)
  have hblock : import_block tree
      = fail ("Redefinition of \x27" ++ (importation.get 1).id ++ "\x27")
          (importation.get 1) := by
    unfold import_block
    split
    · rename_i hu
      rw [hu] at hl
      simp [Node.get, Node.items] at hl
    · rw [hl, hloop]
  refine ⟨checked, importation, later, hl, hn, hm, hblock, ?_⟩
  simp only [assemble, hp, generate_crlf, hblock, fail]

/-- C13 at the module `.import\n x: "y"\n x: "z"\na:\n end stop\n`: the
error record cites the second `x`. -/
theorem duplicate_import_alias_witness :
    parse (tokenize ".import\n x: \"y\"\n x: \"z\"\na:\n end stop\n")
        = .ok (parsed_tree ".import\n x: \"y\"\n x: \"z\"\na:\n end stop\n") ∧
      assemble ".import\n x: \"y\"\n x: \"z\"\na:\n end stop\n" "f.asm"
        = .error { kind := "error", message := "Redefinition of \x27x\x27", file := "f.asm",
                   line := some 2, column := some 1 } ∧
      ∃ checked importation later,
        (((parsed_tree ".import\n x: \"y\"\n x: \"z\"\na:\n end stop\n").get 1).get 2).items
          = checked ++ importation :: later ∧
        (checked.map (fun i => (i.get 1).id)).Nodup ∧
        (importation.get 1).id ∈ checked.map (fun i => (i.get 1).id) ∧
        import_block (parsed_tree ".import\n x: \"y\"\n x: \"z\"\na:\n end stop\n")
          = fail ("Redefinition of \x27" ++ (importation.get 1).id ++ "\x27")
              (importation.get 1) ∧
        assemble ".import\n x: \"y\"\n x: \"z\"\na:\n end stop\n" "f.asm"
          = .error { kind := "error",
                     message := "Redefinition of \x27" ++ (importation.get 1).id ++ "\x27",
                     file := "f.asm", line := (importation.get 1).line_nr,
                     column := (importation.get 1).column_nr } :=
  ⟨rfl, by decide,
    duplicate_import_alias ".import\n x: \"y\"\n x: \"z\"\na:\n end stop\n" "f.asm"
      (parsed_tree ".import\n x: \"y\"\n x: \"z\"\na:\n end stop\n") rfl (by decide)⟩

theorem export_loop_all_declared {tree : Node} {exports : List Node}
    (h : ∀ e ∈ exports, (e.get 1).id ∈ declared_labels tree) :
    export_loop tree exports = .ok (exports.map (fun e => (e.get 1).id)) := by
  induction exports with
  | nil => rfl
  | cons e rest ih =>
    have he : is_label tree (e.get 1).id = true :=
      (is_label_iff tree _).2 (h e (List.mem_cons_self _ _))
    simp only [export_loop, he, Bool.not_true, Bool.false_eq_true, if_false,
      ih (fun x hx => h x (List.mem_cons_of_mem _ hx)), Except.map, List.map_cons]

theorem export_loop_first_undeclared {tree : Node} {accepted : List Node} {e : Node}
    {later : List Node}
    (ha : ∀ a ∈ accepted, (a.get 1).id ∈ declared_labels tree)
    (he : (e.get 1).id ∉ declared_labels tree) :
    export_loop tree (accepted ++ e :: later) = fail "Not defined" (e.get 1) := by
  induction accepted with
  | nil =>
    have hl : is_label tree (e.get 1).id = false := by
      cases hb : is_label tree (e.get 1).id with
      | false => rfl
      | true => exact absurd ((is_label_iff tree _).1 hb) he
    simp only [List.nil_append, export_loop, hl, Bool.not_false, if_true]
  | cons a rest ih =>
    have hl : is_label tree (a.get 1).id = true :=
      (is_label_iff tree _).2 (ha a (List.mem_cons_self _ _))
    have hr := ih (fun x hx => ha x (List.mem_cons_of_mem _ hx))
    simp only [List.cons_append, export_loop, hl, Bool.not_true, Bool.false_eq_true, if_false,
      List.append_eq]
    rw [hr]
    rfl

theorem export_block_eq (tree : Node) :
    export_block tree = export_loop tree ((tree.get 3).get 2).items := by
  unfold export_block
  split
  · rename_i hu
    rw [hu]
    rfl
  · rfl

/-- C12, amended: when the module parses and the imports, the definitions and
the deferred check of the recorded references raise no error, then: if every
exported name is a declared label, `assemble` returns the document whose
`export_array` is the list of the exported names in declaration order,
duplicates kept; otherwise it returns the error record with message
`Not defined` and the line and column of the first exported name token that is
not a declared label (an import alias is not a label). -/
theorem exports_checked_last (source file : String) (tree : Node)
    (import_object : List (String × String)) (define_object : List (String × IR))
    (supposed_instructions : List Node)
    (hp : parse (tokenize source) = .ok tree)
    (hi : import_block tree = .ok import_object)
    (hd : define_loop tree file import_object (tree.get 2).items ([], [])
      = .ok (define_object, supposed_instructions))
    (hc : check_loop define_object (define_object.length + 2) supposed_instructions = .ok ()) :
    ((∀ e ∈ ((tree.get 3).get 2).items, (e.get 1).id ∈ declared_labels tree) →
        assemble source file
          = .document
              { lang := "uFork",
                ast :=
                  { kind := "module", import_object := import_object,
                    define_object := define_object,
                    export_array := ((tree.get 3).get 2).items.map (fun e => (e.get 1).id) } }) ∧
      (∀ accepted e later, ((tree.get 3).get 2).items = accepted ++ e :: later →
        (∀ a ∈ accepted, (a.get 1).id ∈ declared_labels tree) →
        (e.get 1).id ∉ declared_labels tree →
        assemble source file
          = .error { kind := "error", message := "Not defined", file := file,
                     line := (e.get 1).line_nr, column := (e.get 1).column_nr }) := by
  constructor
  · intro h
    simp only [assemble, hp, generate_crlf, hi, hd, hc, export_block_eq,
      export_loop_all_declared h]
  · intro accepted e later hl ha he
    simp only [assemble, hp, generate_crlf, hi, hd, hc, export_block_eq, hl,
      export_loop_first_undeclared ha he, fail]

/-- C12, the claim as stated fails: in `a:\n frob\n.export\n b\n` the exported
name `b` is not a declared label, and the error record is that of `Bad op` at
the operator `frob`, raised by the definitions before the exports are
looked at. -/
theorem export_error_after_definitions :
    assemble "a:\n frob\n.export\n b\n" "f.asm"
      = .error { kind := "error", message := "Bad op", file := "f.asm",
                 line := some 1, column := some 1 } := by
  decide

/-- The amended C12 at the module `a:\n end stop\n.export\n a\n a\n`, whose
exports `a`, `a` are kept as written, and at the module
`.import\n x: "y"\na:\n end stop\n.export\n a\n x\n a\n`, whose export `x` is
only an import alias. -/
theorem exports_checked_last_witness :
    parse (tokenize "a:\n end stop\n.export\n a\n a\n") = .ok (parsed_tree "a:\n end stop\n.export\n a\n a\n") ∧
      assemble "a:\n end stop\n.export\n a\n a\n" "f.asm"
        = .document
            { lang := "uFork",
              ast :=
                { kind := "module", import_object := [],
                  define_object := [("a", .instr_end "stop" { file := "f.asm", line := some 1 })],
                  export_array := ["a", "a"] } } ∧
      assemble ".import\n x: \"y\"\na:\n end stop\n.export\n a\n x\n a\n" "f.asm"
        = .error { kind := "error", message := "Not defined", file := "f.asm",
                   line := some 6, column := some 1 } :=
  ⟨rfl,
    (exports_checked_last "a:\n end stop\n.export\n a\n a\n" "f.asm" (parsed_tree "a:\n end stop\n.export\n a\n a\n") []
      [("a", .instr_end "stop" { file := "f.asm", line := some 1 })] [] rfl rfl rfl rfl).1
      (by decide),
    (exports_checked_last ".import\n x: \"y\"\na:\n end stop\n.export\n a\n x\n a\n" "f.asm" (parsed_tree ".import\n x: \"y\"\na:\n end stop\n.export\n a\n x\n a\n") [("x", "y")]
      [("a", .instr_end "stop" { file := "f.asm", line := some 3 })] [] rfl rfl rfl rfl).2
      [(((parsed_tree ".import\n x: \"y\"\na:\n end stop\n.export\n a\n x\n a\n").get 3).get 2).get 0] ((((parsed_tree ".import\n x: \"y\"\na:\n end stop\n.export\n a\n x\n a\n").get 3).get 2).get 1)
      [(((parsed_tree ".import\n x: \"y\"\na:\n end stop\n.export\n a\n x\n a\n").get 3).get 2).get 2] rfl (by decide) (by decide)⟩

/-! ### Generator: continuations -/

theorem gen_continuation_both {tree : Node} {file : String}
    {import_object : List (String × String)} {operator operands : Node} {statement : Node}
    {rest : List Node} {flag : Bool} {rest_value : Bool → Except Failure (IR × List Node)}
    {nr : Nat} (ho : operands.get nr ≠ .undefined) (hr : rest ≠ []) :
    gen_continuation tree file import_object operator operands (statement :: rest) flag
        rest_value nr
      = fail "Unexpected statement" ((rest.headD .undefined).get 1) := by
  cases rest with
  | nil => exact absurd rfl hr
  | cons s2 rest =>
    unfold gen_continuation
    split
    · rename_i hu
      exact absurd hu ho
    · simp

theorem gen_continuation_neither {tree : Node} {file : String}
    {import_object : List (String × String)} {operator operands : Node} {statement : Node}
    {flag : Bool} {rest_value : Bool → Except Failure (IR × List Node)}
    {nr : Nat} (ho : operands.get nr = .undefined) :
    gen_continuation tree file import_object operator operands [statement] flag
        rest_value nr
      = fail "Missing continuation" operator := by
  unfold gen_continuation
  rw [ho]
  simp

theorem gen_continuation_operand {tree : Node} {file : String}
    {import_object : List (String × String)} {operator operands : Node} {statement : Node}
    {flag : Bool} {rest_value : Bool → Except Failure (IR × List Node)}
    {nr : Nat} (ho : operands.get nr ≠ .undefined) :
    gen_continuation tree file import_object operator operands [statement] flag
        rest_value nr
      = if flag = true then gen_ref tree file import_object (operands.get nr) true
        else (gen_expression tree file import_object (operands.get nr)).map
          (fun node => (node, [])) := by
  unfold gen_continuation
  split
  · rename_i hu
    exact absurd hu ho
  · simp [gen_continuation_expression]

theorem gen_continuation_statements {tree : Node} {file : String}
    {import_object : List (String × String)} {operator operands : Node} {statement : Node}
    {rest : List Node} {flag : Bool} {rest_value : Bool → Except Failure (IR × List Node)}
    {nr : Nat} (ho : operands.get nr = .undefined) (hr : rest ≠ []) :
    gen_continuation tree file import_object operator operands (statement :: rest) flag
        rest_value nr
      = rest_value flag := by
  cases rest with
  | nil => exact absurd rfl hr
  | cons s2 rest =>
    unfold gen_continuation
    rw [ho]
    simp

theorem contract_none {op : String}
    (hop : op ∉ ["pair_t", "dict_t", "ref", "typeq", "push", "is_eq", "is_ne", "depth", "if",
        "if_not", "dict", "deque", "alu", "cmp", "my", "end"])
    (hfix : op ∉ fixnum_ops) : operand_contract op = none := by
  simp only [List.mem_cons, List.mem_singleton, List.not_mem_nil, or_false, not_or] at hop
  have hc : fixnum_ops.contains op = false := by simpa using hfix
  unfold operand_contract
  rw [if_neg hop.1, if_neg hop.2.1, if_neg hop.2.2.1, if_neg, if_neg hop.2.2.2.2.2.2.2.1,
    if_neg hop.2.2.2.2.2.2.2.2.2.2.2.2.2.2.2]
  simp only [hc, Bool.or_false, Bool.or_eq_true, decide_eq_true_eq, not_or]
  tauto

theorem mem_subnodes_self (n : IR) : n ∈ n.subnodes := by
  cases n <;> simp [IR.subnodes]

/-- C15, amended: for a statement whose operator takes a continuation (operand
contract with one optional operand), and which is not a `pair_t` or `dict_t`
in instruction position, `gen_value` checks the operand count, then generates
the immediate operand or operands (`imm`), then calls `gen_continuation`, and
puts the node of the continuation in the node it returns (`mk`); a failure of
the count check or of an immediate is raised first.  `gen_continuation` is
called in instruction position (`flag`) exactly when the operator is not
`pair_t` or `dict_t`.  With the optional operand present and a further
statement it fails with `Unexpected statement` on the operator of that
statement; with neither it fails with `Missing continuation` on the operator;
with the operand alone the continuation is the operand, as an instruction
reference (`gen_ref`) in instruction position and as an expression otherwise;
with further statements alone it is the value generated from them. -/
theorem continuation_operand_or_statements (tree : Node) (file : String)
    (import_object : List (String × String)) (statement : Node) (rest : List Node)
    (as_instruction : Bool) (r : Nat)
    (hc : operand_contract (statement.get 1).id = some (r, 1))
    (hdata : as_instruction = true →
      (statement.get 1).id ≠ "pair_t" ∧ (statement.get 1).id ≠ "dict_t") :
    ∃ (α : Type) (imm : Except Failure α) (mk : α → IR × List Node → IR × List Node)
        (flag : Bool),
      (flag = true ↔ (statement.get 1).id ≠ "pair_t" ∧ (statement.get 1).id ≠ "dict_t") ∧
      (∀ a k, k.1 ∈ (mk a k).1.subnodes ∧ ∀ t ∈ k.2, t ∈ (mk a k).2) ∧
      gen_value tree file import_object (statement :: rest) as_instruction
        = (do
            operand_check (statement.get 1) (statement.get 2) (statement :: rest) r 1
            let a ← imm
            let k ← gen_continuation tree file import_object (statement.get 1)
              (statement.get 2) (statement :: rest) flag
              (gen_value tree file import_object rest) r
            pure (mk a k)) ∧
      ((statement.get 2).get r ≠ .undefined → rest ≠ [] →
        gen_continuation tree file import_object (statement.get 1) (statement.get 2)
            (statement :: rest) flag (gen_value tree file import_object rest) r
          = fail "Unexpected statement" ((rest.headD .undefined).get 1)) ∧
      ((statement.get 2).get r = .undefined → rest = [] →
        gen_continuation tree file import_object (statement.get 1) (statement.get 2)
            (statement :: rest) flag (gen_value tree file import_object rest) r
          = fail "Missing continuation" (statement.get 1)) ∧
      ((statement.get 2).get r ≠ .undefined → rest = [] →
        gen_continuation tree file import_object (statement.get 1) (statement.get 2)
            (statement :: rest) flag (gen_value tree file import_object rest) r
          = if flag = true then
              gen_ref tree file import_object ((statement.get 2).get r) true
            else (gen_expression tree file import_object ((statement.get 2).get r)).map
              (fun node => (node, []))) ∧
      ((statement.get 2).get r = .undefined → rest ≠ [] →
        gen_continuation tree file import_object (statement.get 1) (statement.get 2)
            (statement :: rest) flag (gen_value tree file import_object rest) r
          = gen_value tree file import_object rest flag) := by
  have hcont : ∀ flag : Bool,
      ((statement.get 2).get r ≠ .undefined → rest ≠ [] →
        gen_continuation tree file import_object (statement.get 1) (statement.get 2)
            (statement :: rest) flag (gen_value tree file import_object rest) r
          = fail "Unexpected statement" ((rest.headD .undefined).get 1)) ∧
      ((statement.get 2).get r = .undefined → rest = [] →
        gen_continuation tree file import_object (statement.get 1) (statement.get 2)
            (statement :: rest) flag (gen_value tree file import_object rest) r
          = fail "Missing continuation" (statement.get 1)) ∧
      ((statement.get 2).get r ≠ .undefined → rest = [] →
        gen_continuation tree file import_object (statement.get 1) (statement.get 2)
            (statement :: rest) flag (gen_value tree file import_object rest) r
          = if flag = true then
              gen_ref tree file import_object ((statement.get 2).get r) true
            else (gen_expression tree file import_object ((statement.get 2).get r)).map
              (fun node => (node, []))) ∧
      ((statement.get 2).get r = .undefined → rest ≠ [] →
        gen_continuation tree file import_object (statement.get 1) (statement.get 2)
            (statement :: rest) flag (gen_value tree file import_object rest) r
          = gen_value tree file import_object rest flag) := by
    intro flag
    refine ⟨fun ho hr => gen_continuation_both ho hr, fun ho hr => ?_, fun ho hr => ?_,
      fun ho hr => gen_continuation_statements ho hr⟩
    · subst hr
      exact gen_continuation_neither ho
    · subst hr
      exact gen_continuation_operand ho
  rcases operator_family (statement.get 1).id with
    h | h | h | h | h | h | h | h | h | h | h | h
  · -- pair_t
    obtain ⟨rfl, _⟩ := contract_of_eq (1, 1) h hc (by decide)
    have ha : as_instruction = false := by
      cases as_instruction with
      | false => rfl
      | true => exact absurd h (hdata rfl).1
    subst ha
    refine ⟨IR, gen_expression tree file import_object ((statement.get 2).get 0),
      fun head tail => (.pair head tail.1 { file := file, line := (statement.get 1).line_nr },
        tail.2), false, ?_, ?_, ?_, hcont false⟩
    · simp [h]
    · exact fun a k => ⟨by simp [IR.subnodes, mem_subnodes_self], fun t ht => by simp [ht]⟩
    · rw [gen_value_pair_t h]
      rfl
  · -- dict_t
    obtain ⟨rfl, _⟩ := contract_of_eq (2, 1) h hc (by decide)
    have ha : as_instruction = false := by
      cases as_instruction with
      | false => rfl
      | true => exact absurd h (hdata rfl).2
    subst ha
    refine ⟨IR × IR,
      (do
        let key ← gen_expression tree file import_object ((statement.get 2).get 0)
        let value ← gen_expression tree file import_object ((statement.get 2).get 1)
        pure (key, value)),
      fun kv next => (.dict kv.1 kv.2 next.1
        { file := file, line := (statement.get 1).line_nr }, next.2), false, ?_, ?_, ?_,
      hcont false⟩
    · simp [h]
    · exact fun a k => ⟨by simp [IR.subnodes, mem_subnodes_self], fun t ht => by simp [ht]⟩
    · rw [gen_value_dict_t h]
      simp only [Bool.false_eq_true, if_false, bind_assoc, pure_bind]
  · -- ref
    have := contract_of_eq (1, 0) h hc (by decide)
    exact absurd this.2 (by decide)
  · -- typeq
    obtain ⟨rfl, _⟩ := contract_of_eq (1, 1) h hc (by decide)
    refine ⟨IR, gen_type ((statement.get 2).get 0),
      fun imm k => (.instr "typeq" imm k.1 { file := file, line := (statement.get 1).line_nr },
        k.2), true, ?_, ?_, gen_value_typeq h, hcont true⟩
    · simp [h]
    · exact fun a k => ⟨by simp [IR.subnodes, mem_subnodes_self], fun t ht => by simp [ht]⟩
  · -- fixnum operators
    obtain ⟨rfl, _⟩ := contract_of_fixnum_op (by simpa using h) hc
    have hne : (statement.get 1).id ≠ "pair_t" ∧ (statement.get 1).id ≠ "dict_t" := by
      simp only [fixnum_ops, List.mem_cons, List.mem_singleton, List.not_mem_nil, or_false] at h
      rcases h with h | h | h | h | h | h | h | h | h | h | h | h <;> rw [h] <;> decide
    refine ⟨IR, gen_fixnum ((statement.get 2).get 0),
      fun imm k => (.instr (statement.get 1).id imm k.1
        { file := file, line := (statement.get 1).line_nr }, k.2), true, ?_, ?_,
      gen_value_fixnum_op h, hcont true⟩
    · simp [hne]
    · exact fun a k => ⟨by simp [IR.subnodes, mem_subnodes_self], fun t ht => by simp [ht]⟩
  · -- push, is_eq, is_ne
    have h' := h
    simp only [List.mem_cons, List.mem_singleton, List.not_mem_nil, or_false] at h'
    have hro : r = 1 ∧ (statement.get 1).id ≠ "pair_t" ∧ (statement.get 1).id ≠ "dict_t" := by
      rcases h' with h' | h' | h' <;>
        exact ⟨(contract_of_eq (1, 1) h' hc (by decide)).1, by rw [h']; decide⟩
    obtain ⟨rfl, hne⟩ := hro
    refine ⟨IR, gen_expression tree file import_object ((statement.get 2).get 0),
      fun imm k => (.instr (statement.get 1).id imm k.1
        { file := file, line := (statement.get 1).line_nr }, k.2), true, ?_, ?_,
      gen_value_push_op h, hcont true⟩
    · simp [hne]
    · exact fun a k => ⟨by simp [IR.subnodes, mem_subnodes_self], fun t ht => by simp [ht]⟩
  · -- depth
    obtain ⟨rfl, _⟩ := contract_of_eq (0, 1) h hc (by decide)
    refine ⟨Unit, pure (),
      fun _ k => (.instr_depth k.1 { file := file, line := (statement.get 1).line_nr }, k.2),
      true, ?_, ?_, ?_, hcont true⟩
    · simp [h]
    · exact fun a k => ⟨by simp [IR.subnodes, mem_subnodes_self], fun t ht => by simp [ht]⟩
    · rw [gen_value_depth h]
      rfl
  · -- if
    obtain ⟨rfl, _⟩ := contract_of_eq (1, 1) h hc (by decide)
    refine ⟨IR × List Node, gen_ref tree file import_object ((statement.get 2).get 0) true,
      fun t f => (.instr_if t.1 f.1 { file := file, line := (statement.get 1).line_nr },
        t.2 ++ f.2), true, ?_, ?_, gen_value_if h, hcont true⟩
    · simp [h]
    · exact fun a k => ⟨by simp [IR.subnodes, mem_subnodes_self], fun t ht => by simp [ht]⟩
  · -- if_not
    obtain ⟨rfl, _⟩ := contract_of_eq (1, 1) h hc (by decide)
    refine ⟨IR × List Node, gen_ref tree file import_object ((statement.get 2).get 0) true,
      fun f t => (.instr_if t.1 f.1 { file := file, line := (statement.get 1).line_nr },
        f.2 ++ t.2), true, ?_, ?_, gen_value_if_not h, hcont true⟩
    · simp [h]
    · exact fun a k => ⟨by simp [IR.subnodes, mem_subnodes_self], fun t ht => by simp [ht]⟩
  · -- dict, deque, alu, cmp, my
    have h' := h
    simp only [List.mem_cons, List.mem_singleton, List.not_mem_nil, or_false] at h'
    have hro : r = 1 ∧ (statement.get 1).id ≠ "pair_t" ∧ (statement.get 1).id ≠ "dict_t" := by
      rcases h' with h' | h' | h' | h' | h' <;>
        exact ⟨(contract_of_eq (1, 1) h' hc (by decide)).1, by rw [h']; decide⟩
    obtain ⟨rfl, hne⟩ := hro
    refine ⟨String, gen_label ((statement.get 2).get 0) (imm_labels (statement.get 1).id),
      fun imm k => (.instr_label (statement.get 1).id imm k.1
        { file := file, line := (statement.get 1).line_nr }, k.2), true, ?_, ?_,
      gen_value_label_op h, hcont true⟩
    · simp [hne]
    · exact fun a k => ⟨by simp [IR.subnodes, mem_subnodes_self], fun t ht => by simp [ht]⟩
  · -- end
    have := contract_of_eq (1, 0) h hc (by decide)
    exact absurd this.2 (by decide)
  · -- no family
    rw [contract_none h.1 h.2] at hc
    cases hc

/-- C15, the claim as stated fails: in `a:\n push #zzz a\n end stop\n` the
statement `push` has its optional operand `a` and a statement follows it, and
in `a:\n push #zzz\n` it has neither; in both the failure is that of the
immediate `#zzz`, `Expected a literal`, raised before the continuation is
looked at. -/
theorem immediate_error_before_continuation :
    assemble "a:\n push #zzz a\n end stop\n" "f.asm"
        = .error { kind := "error", message := "Expected a literal", file := "f.asm",
                   line := some 1, column := some 6 } ∧
      assemble "a:\n push #zzz\n" "f.asm"
        = .error { kind := "error", message := "Expected a literal", file := "f.asm",
                   line := some 1, column := some 6 } := by
  decide

/-- The amended C15 at the statement `push 1` of `a:\n push 1\n end stop\n`,
in data position, followed by the statement `end stop`. -/
theorem continuation_operand_or_statements_witness :
    operand_contract (statement_push_one.get 1).id = some (1, 1) ∧
    ∃ (α : Type) (imm : Except Failure α) (mk : α → IR × List Node → IR × List Node)
        (flag : Bool),
      (flag = true ↔
        (statement_push_one.get 1).id ≠ "pair_t" ∧ (statement_push_one.get 1).id ≠ "dict_t") ∧
      (∀ a k, k.1 ∈ (mk a k).1.subnodes ∧ ∀ t ∈ k.2, t ∈ (mk a k).2) ∧
      gen_value .undefined "f.asm" [] (statement_push_one :: statements_end_stop) false
        = (do
            operand_check (statement_push_one.get 1) (statement_push_one.get 2)
              (statement_push_one :: statements_end_stop) 1 1
            let a ← imm
            let k ← gen_continuation .undefined "f.asm" [] (statement_push_one.get 1)
              (statement_push_one.get 2) (statement_push_one :: statements_end_stop) flag
              (gen_value .undefined "f.asm" [] statements_end_stop) 1
            pure (mk a k)) ∧
      ((statement_push_one.get 2).get 1 ≠ .undefined → statements_end_stop ≠ [] →
        gen_continuation .undefined "f.asm" [] (statement_push_one.get 1)
            (statement_push_one.get 2) (statement_push_one :: statements_end_stop) flag
            (gen_value .undefined "f.asm" [] statements_end_stop) 1
          = fail "Unexpected statement" ((statements_end_stop.headD .undefined).get 1)) ∧
      ((statement_push_one.get 2).get 1 = .undefined → statements_end_stop = [] →
        gen_continuation .undefined "f.asm" [] (statement_push_one.get 1)
            (statement_push_one.get 2) (statement_push_one :: statements_end_stop) flag
            (gen_value .undefined "f.asm" [] statements_end_stop) 1
          = fail "Missing continuation" (statement_push_one.get 1)) ∧
      ((statement_push_one.get 2).get 1 ≠ .undefined → statements_end_stop = [] →
        gen_continuation .undefined "f.asm" [] (statement_push_one.get 1)
            (statement_push_one.get 2) (statement_push_one :: statements_end_stop) flag
            (gen_value .undefined "f.asm" [] statements_end_stop) 1
          = if flag = true then
              gen_ref .undefined "f.asm" [] ((statement_push_one.get 2).get 1) true
            else (gen_expression .undefined "f.asm" [] ((statement_push_one.get 2).get 1)).map
              (fun node => (node, []))) ∧
      ((statement_push_one.get 2).get 1 = .undefined → statements_end_stop ≠ [] →
        gen_continuation .undefined "f.asm" [] (statement_push_one.get 1)
            (statement_push_one.get 2) (statement_push_one :: statements_end_stop) flag
            (gen_value .undefined "f.asm" [] statements_end_stop) 1
          = gen_value .undefined "f.asm" [] statements_end_stop flag) :=
  ⟨by decide,
    continuation_operand_or_statements .undefined "f.asm" [] statement_push_one
      statements_end_stop false 1 (by decide) (fun h => absurd h (by decide))⟩

/-! ### Generator: `if` and `if_not` -/

theorem node_get_items (n : Node) (i : Nat) : n.get i = n.items.getD i .undefined := by
  cases n <;> simp [Node.get, Node.items]

theorem operand_values_get {a b : Node} (hv : operand_values a = operand_values b) (i : Nat) :
    (a.get i).get 1 = (b.get i).get 1 := by
  have h : ∀ l : List Node,
      (l.getD i .undefined).get 1 = (l.map (fun o => o.get 1)).getD i .undefined := by
    intro l
    induction l generalizing i with
    | nil => simp [Node.get]
    | cons x xs ih =>
      cases i with
      | zero => simp
      | succ i => simpa using ih i
  rw [node_get_items a i, node_get_items b i, h, h]
  unfold operand_values at hv
  rw [hv]

theorem operand_values_length {a b : Node} (hv : operand_values a = operand_values b) :
    a.items.length = b.items.length := by
  have := congrArg List.length hv
  simpa [operand_values] using this

theorem get_undefined_iff {a : Node} (ha : ∀ o ∈ a.items, o.isArray = true) (i : Nat) :
    a.get i = .undefined ↔ a.items.length ≤ i := by
  rw [node_get_items]
  constructor
  · intro h
    by_contra hlt
    have hi : i < a.items.length := by omega
    have hm := ha (a.items.getD i .undefined) (by
      rw [List.getD_eq_getElem _ _ hi]
      exact List.getElem_mem _)
    rw [h] at hm
    simp [Node.isArray] at hm
  · intro h
    exact List.getD_eq_default _ _ h

theorem gen_ref_operand_value {tree : Node} {file : String}
    {import_object : List (String × String)} {o1 o2 : Node} (flag : Bool)
    (h : o1.get 1 = o2.get 1) :
    gen_ref tree file import_object o1 flag = gen_ref tree file import_object o2 flag := by
  unfold gen_ref
  rw [h]

theorem gen_expression_operand_value {tree : Node} {file : String}
    {import_object : List (String × String)} {o1 o2 : Node} (h : o1.get 1 = o2.get 1) :
    gen_expression tree file import_object o1 = gen_expression tree file import_object o2 := by
  unfold gen_expression gen_type gen_literal
  rw [h, gen_ref_operand_value false h]

theorem operand_check_two_operators (op1 op2 ops1 ops2 s1 s2 : Node) (rest : List Node)
    (r : Nat) (hv : operand_values ops1 = operand_values ops2) :
    operand_check op1 ops1 (s1 :: rest) r 1 = operand_check op2 ops2 (s2 :: rest) r 1 ∨
      (operand_check op1 ops1 (s1 :: rest) r 1 = fail "Too few operands" op1 ∧
        operand_check op2 ops2 (s2 :: rest) r 1 = fail "Too few operands" op2) := by
  unfold operand_check
  rw [operand_values_length hv, operand_values_get hv]
  by_cases h : ops2.items.length < r
  · right
    rw [if_pos h, if_pos h]
    exact ⟨rfl, rfl⟩
  · left
    rw [if_neg h, if_neg h]
    simp

theorem gen_continuation_two_operators (tree : Node) (file : String)
    (import_object : List (String × String)) (op1 op2 ops1 ops2 s1 s2 : Node)
    (rest : List Node) (rest_value : Bool → Except Failure (IR × List Node))
    (nr : Nat) (hv : operand_values ops1 = operand_values ops2)
    (h1 : ∀ o ∈ ops1.items, o.isArray = true) (h2 : ∀ o ∈ ops2.items, o.isArray = true) :
    gen_continuation tree file import_object op1 ops1 (s1 :: rest) true rest_value nr
        = gen_continuation tree file import_object op2 ops2 (s2 :: rest) true rest_value nr ∨
      (gen_continuation tree file import_object op1 ops1 (s1 :: rest) true rest_value nr
          = fail "Missing continuation" op1 ∧
        gen_continuation tree file import_object op2 ops2 (s2 :: rest) true rest_value nr
          = fail "Missing continuation" op2) := by
  by_cases hu : ops1.get nr = .undefined
  · have hu2 : ops2.get nr = .undefined := by
      rw [get_undefined_iff h2, ← operand_values_length hv, ← get_undefined_iff h1]
      exact hu
    unfold gen_continuation
    rw [hu, hu2]
    by_cases hl : rest.length + 1 > 1
    · left
      simp [hl]
    · right
      simp [hl]
  · have hu2 : ops2.get nr ≠ .undefined := by
      rw [Ne, get_undefined_iff h2, ← operand_values_length hv, ← get_undefined_iff h1]
      exact hu
    left
    cases rest with
    | nil =>
      rw [gen_continuation_operand hu, gen_continuation_operand hu2]
      simp only [if_true]
      exact gen_ref_operand_value true (operand_values_get hv nr)
    | cons s3 rest =>
      rw [gen_continuation_both hu (by simp), gen_continuation_both hu2 (by simp)]

/-- C17: for an `if` statement and an `if_not` statement at the same line and
column, with the same operand values (the operands are arrays, as the parser
makes them) and the same following statements, `gen_value` either returns for
both an instruction of op `if` with the same debug info and the same recorded
references, the `t` and `f` of the one being the `f` and `t` of the other, or
fails for both with the same message at the same line and column. -/
theorem if_not_mirrors_if (tree : Node) (file : String)
    (import_object : List (String × String)) (s_if s_if_not : Node) (rest : List Node)
    (as_instruction : Bool)
    (h1 : (s_if.get 1).id = "if") (h2 : (s_if_not.get 1).id = "if_not")
    (hline : (s_if.get 1).line_nr = (s_if_not.get 1).line_nr)
    (hcolumn : (s_if.get 1).column_nr = (s_if_not.get 1).column_nr)
    (hoperands : operand_values (s_if.get 2) = operand_values (s_if_not.get 2))
    (hshape1 : ∀ o ∈ (s_if.get 2).items, o.isArray = true)
    (hshape2 : ∀ o ∈ (s_if_not.get 2).items, o.isArray = true) :
    mirrored (gen_value tree file import_object (s_if :: rest) as_instruction)
      (gen_value tree file import_object (s_if_not :: rest) as_instruction) := by
  rw [gen_value_if h1, gen_value_if_not h2, ← hline,
    ← gen_ref_operand_value true (operand_values_get hoperands 0)]
  rcases operand_check_two_operators (s_if.get 1) (s_if_not.get 1) (s_if.get 2)
    (s_if_not.get 2) s_if s_if_not rest 1 hoperands with hc | ⟨hc1, hc2⟩
  · rw [← hc]
    cases operand_check (s_if.get 1) (s_if.get 2) (s_if :: rest) 1 1 with
    | error e => exact ⟨rfl, rfl, rfl⟩
    | ok u =>
      cases gen_ref tree file import_object ((s_if.get 2).get 0) true with
      | error e => exact ⟨rfl, rfl, rfl⟩
      | ok x =>
        rcases gen_continuation_two_operators tree file import_object (s_if.get 1)
          (s_if_not.get 1) (s_if.get 2) (s_if_not.get 2) s_if s_if_not rest
          (gen_value tree file import_object rest) 1 hoperands hshape1 hshape2
          with hg | ⟨hg1, hg2⟩
        · rw [← hg]
          cases gen_continuation tree file import_object (s_if.get 1) (s_if.get 2)
            (s_if :: rest) true (gen_value tree file import_object rest) 1 with
          | error e => exact ⟨rfl, rfl, rfl⟩
          | ok k => exact ⟨x.1, k.1, _, rfl, rfl, rfl⟩
        · rw [hg1, hg2]
          exact ⟨rfl, hline, hcolumn⟩
  · rw [hc1, hc2]
    exact ⟨rfl, hline, hcolumn⟩

/-- C17 at the statements `if     a` and `if_not a`, each followed by
`end stop`, in the module `a:\n if_not a\n end stop\n`. -/
theorem if_not_mirrors_if_witness :
    operand_values (statement_if.get 2) = operand_values (statement_if_not.get 2) ∧
      gen_value (parsed_tree "a:\n if_not a\n end stop\n") "f.asm" []
          (statement_if :: (first_statements "a:\n if_not a\n end stop\n").drop 1) false
        = .ok (.instr_if (.ref none "a" (some { file := "f.asm", line := some 1 }))
            (.instr_end "stop" { file := "f.asm", line := some 2 })
            { file := "f.asm", line := some 1 },
            [((statement_if.get 2).get 0).get 1]) ∧
      mirrored
        (gen_value (parsed_tree "a:\n if_not a\n end stop\n") "f.asm" []
          (statement_if :: (first_statements "a:\n if_not a\n end stop\n").drop 1) false)
        (gen_value (parsed_tree "a:\n if_not a\n end stop\n") "f.asm" []
          (statement_if_not :: (first_statements "a:\n if_not a\n end stop\n").drop 1) false) :=
  ⟨rfl, rfl,
    if_not_mirrors_if (parsed_tree "a:\n if_not a\n end stop\n") "f.asm" [] statement_if
      statement_if_not ((first_statements "a:\n if_not a\n end stop\n").drop 1) false
      (by decide) (by decide) (by decide) (by decide) rfl (by decide) (by decide)⟩

/-! ### Generator: the file identifier -/

theorem gen_ref_file (tree : Node) (f1 f2 : String) (import_object : List (String × String))
    (operand : Node) (flag : Bool) :
    gen_ref tree f2 import_object operand flag
      = value_with_file f2 (gen_ref tree f1 import_object operand flag) := by
  unfold gen_ref value_with_file
  dsimp only
  split_ifs <;> rfl

theorem gen_type_file (f2 : String) (operand : Node) :
    (gen_type operand).map (IR.with_file f2) = gen_type operand := by
  unfold gen_type
  dsimp only
  split_ifs <;> rfl

theorem gen_literal_file (f2 : String) (operand : Node) :
    (gen_literal operand).map (IR.with_file f2) = gen_literal operand := by
  unfold gen_literal
  dsimp only
  split_ifs <;> rfl

theorem gen_fixnum_file (f2 : String) (operand : Node) :
    (gen_fixnum operand).map (IR.with_file f2) = gen_fixnum operand := by
  unfold gen_fixnum
  dsimp only
  split_ifs <;> rfl

theorem gen_expression_file (tree : Node) (f1 f2 : String)
    (import_object : List (String × String)) (operand : Node) :
    gen_expression tree f2 import_object operand
      = (gen_expression tree f1 import_object operand).map (IR.with_file f2) := by
  unfold gen_expression
  dsimp only
  split_ifs
  · rfl
  · exact (gen_type_file f2 operand).symm
  · exact (gen_literal_file f2 operand).symm
  · rw [gen_ref_file tree f1 f2]
    cases gen_ref tree f1 import_object operand false <;> rfl

theorem gen_continuation_expression_file (tree : Node) (f1 f2 : String)
    (import_object : List (String × String)) (flag : Bool) (operand : Node) :
    gen_continuation_expression tree f2 import_object flag operand
      = value_with_file f2
          (gen_continuation_expression tree f1 import_object flag operand) := by
  unfold gen_continuation_expression
  split_ifs
  · exact gen_ref_file tree f1 f2 import_object operand true
  · rw [gen_expression_file tree f1 f2]
    cases gen_expression tree f1 import_object operand <;> rfl

theorem gen_continuation_file (tree : Node) (f1 f2 : String)
    (import_object : List (String × String)) (operator operands : Node)
    (statements : List Node) (flag : Bool)
    (rv1 rv2 : Bool → Except Failure (IR × List Node))
    (hrv : ∀ b, rv2 b = value_with_file f2 (rv1 b)) (nr : Nat) :
    gen_continuation tree f2 import_object operator operands statements flag rv2 nr
      = value_with_file f2
          (gen_continuation tree f1 import_object operator operands statements flag rv1 nr) := by
  unfold gen_continuation
  split
  · split_ifs
    · exact hrv flag
    · rfl
  · split_ifs
    · exact gen_continuation_expression_file tree f1 f2 import_object flag _
    · rfl

theorem gen_value_file (tree : Node) (f1 f2 : String) (import_object : List (String × String))
    (statements : List Node) :
    ∀ flag, gen_value tree f2 import_object statements flag
      = value_with_file f2 (gen_value tree f1 import_object statements flag) := by
  induction statements with
  | nil =>
    intro flag
    rfl
  | cons statement rest ih =>
    intro flag
    have hcont : ∀ (b : Bool) (nr : Nat),
        gen_continuation tree f2 import_object (statement.get 1) (statement.get 2)
            (statement :: rest) b (gen_value tree f2 import_object rest) nr
          = value_with_file f2
              (gen_continuation tree f1 import_object (statement.get 1) (statement.get 2)
                (statement :: rest) b (gen_value tree f1 import_object rest) nr) :=
      fun b nr => gen_continuation_file tree f1 f2 import_object _ _ _ b _ _ ih nr
    rcases operator_family (statement.get 1).id with
      h | h | h | h | h | h | h | h | h | h | h | h
    · -- pair_t
      rw [gen_value_pair_t h, gen_value_pair_t h]
      cases flag with
      | true => rfl
      | false =>
        simp only [Bool.false_eq_true, if_false]
        rw [hcont, gen_expression_file tree f1 f2]
        cases operand_check (statement.get 1) (statement.get 2) (statement :: rest) 1 1 with
        | error e => rfl
        | ok u =>
          cases gen_expression tree f1 import_object ((statement.get 2).get 0) with
          | error e => rfl
          | ok a =>
            cases gen_continuation tree f1 import_object (statement.get 1) (statement.get 2)
              (statement :: rest) false (gen_value tree f1 import_object rest) 1 with
            | error e => rfl
            | ok k => rfl
    · -- dict_t
      rw [gen_value_dict_t h, gen_value_dict_t h]
      cases flag with
      | true => rfl
      | false =>
        simp only [Bool.false_eq_true, if_false]
        rw [hcont, gen_expression_file tree f1 f2, gen_expression_file tree f1 f2]
        cases operand_check (statement.get 1) (statement.get 2) (statement :: rest) 2 1 with
        | error e => rfl
        | ok u =>
          cases gen_expression tree f1 import_object ((statement.get 2).get 0) with
          | error e => rfl
          | ok a =>
            cases gen_expression tree f1 import_object ((statement.get 2).get 1) with
            | error e => rfl
            | ok b =>
              cases gen_continuation tree f1 import_object (statement.get 1)
                (statement.get 2) (statement :: rest) false
                (gen_value tree f1 import_object rest) 2 with
              | error e => rfl
              | ok k => rfl
    · -- ref
      rw [gen_value_ref h, gen_value_ref h, gen_continuation_expression_file tree f1 f2]
      cases operand_check (statement.get 1) (statement.get 2) (statement :: rest) 1 0 with
      | error e => rfl
      | ok u => rfl
    · -- typeq
      rw [gen_value_typeq h, gen_value_typeq h, hcont]
      cases operand_check (statement.get 1) (statement.get 2) (statement :: rest) 1 1 with
      | error e => rfl
      | ok u =>
        have hi := gen_type_file f2 ((statement.get 2).get 0)
        cases hg : gen_type ((statement.get 2).get 0) with
        | error e => rfl
        | ok a =>
          rw [hg] at hi
          simp only [Except.map, Except.ok.injEq] at hi
          cases gen_continuation tree f1 import_object (statement.get 1) (statement.get 2)
            (statement :: rest) true (gen_value tree f1 import_object rest) 1 with
          | error e => rfl
          | ok k =>
            show Except.ok _ = Except.ok _
            simp only [IR.with_file, hi]
    · -- fixnum operators
      rw [gen_value_fixnum_op h, gen_value_fixnum_op h, hcont]
      cases operand_check (statement.get 1) (statement.get 2) (statement :: rest) 1 1 with
      | error e => rfl
      | ok u =>
        have hi := gen_fixnum_file f2 ((statement.get 2).get 0)
        cases hg : gen_fixnum ((statement.get 2).get 0) with
        | error e => rfl
        | ok a =>
          rw [hg] at hi
          simp only [Except.map, Except.ok.injEq] at hi
          cases gen_continuation tree f1 import_object (statement.get 1) (statement.get 2)
            (statement :: rest) true (gen_value tree f1 import_object rest) 1 with
          | error e => rfl
          | ok k =>
            show Except.ok _ = Except.ok _
            simp only [IR.with_file, hi]
    · -- push, is_eq, is_ne
      rw [gen_value_push_op h, gen_value_push_op h, hcont, gen_expression_file tree f1 f2]
      cases operand_check (statement.get 1) (statement.get 2) (statement :: rest) 1 1 with
      | error e => rfl
      | ok u =>
        cases gen_expression tree f1 import_object ((statement.get 2).get 0) with
        | error e => rfl
        | ok a =>
          cases gen_continuation tree f1 import_object (statement.get 1) (statement.get 2)
            (statement :: rest) true (gen_value tree f1 import_object rest) 1 with
          | error e => rfl
          | ok k => rfl
    · -- depth
      rw [gen_value_depth h, gen_value_depth h, hcont]
      cases operand_check (statement.get 1) (statement.get 2) (statement :: rest) 0 1 with
      | error e => rfl
      | ok u =>
        cases gen_continuation tree f1 import_object (statement.get 1) (statement.get 2)
          (statement :: rest) true (gen_value tree f1 import_object rest) 0 with
        | error e => rfl
        | ok k => rfl
    · -- if
      rw [gen_value_if h, gen_value_if h, hcont, gen_ref_file tree f1 f2]
      cases operand_check (statement.get 1) (statement.get 2) (statement :: rest) 1 1 with
      | error e => rfl
      | ok u =>
        cases gen_ref tree f1 import_object ((statement.get 2).get 0) true with
        | error e => rfl
        | ok a =>
          cases gen_continuation tree f1 import_object (statement.get 1) (statement.get 2)
            (statement :: rest) true (gen_value tree f1 import_object rest) 1 with
          | error e => rfl
          | ok k => rfl
    · -- if_not
      rw [gen_value_if_not h, gen_value_if_not h, hcont, gen_ref_file tree f1 f2]
      cases operand_check (statement.get 1) (statement.get 2) (statement :: rest) 1 1 with
      | error e => rfl
      | ok u =>
        cases gen_ref tree f1 import_object ((statement.get 2).get 0) true with
        | error e => rfl
        | ok a =>
          cases gen_continuation tree f1 import_object (statement.get 1) (statement.get 2)
            (statement :: rest) true (gen_value tree f1 import_object rest) 1 with
          | error e => rfl
          | ok k => rfl
    · -- dict, deque, alu, cmp, my
      rw [gen_value_label_op h, gen_value_label_op h, hcont]
      cases operand_check (statement.get 1) (statement.get 2) (statement :: rest) 1 1 with
      | error e => rfl
      | ok u =>
        cases gen_label ((statement.get 2).get 0) (imm_labels (statement.get 1).id) with
        | error e => rfl
        | ok a =>
          cases gen_continuation tree f1 import_object (statement.get 1) (statement.get 2)
            (statement :: rest) true (gen_value tree f1 import_object rest) 1 with
          | error e => rfl
          | ok k => rfl
    · -- end
      rw [gen_value_end_op h, gen_value_end_op h]
      cases operand_check (statement.get 1) (statement.get 2) (statement :: rest) 1 0 with
      | error e => rfl
      | ok u =>
        cases gen_label ((statement.get 2).get 0) (imm_labels "end") with
        | error e => rfl
        | ok a => rfl
    · -- no family
      rw [gen_value_bad_op h.1 h.2, gen_value_bad_op h.1 h.2]
      rfl

theorem obj_get_with_file (file : String) (d : List (String × IR)) (key : String) :
    obj_get (define_with_file file d) key = (obj_get d key).map (IR.with_file file) := by
  induction d with
  | nil => rfl
  | cons e rest ih =>
    obtain ⟨k, v⟩ := e
    show (if k = key then some (v.with_file file) else obj_get (define_with_file file rest) key)
      = Option.map (IR.with_file file) (if k = key then some v else obj_get rest key)
    by_cases h : k = key
    · rw [if_pos h, if_pos h]; rfl
    · rw [if_neg h, if_neg h]; exact ih

theorem obj_set_with_file (file : String) (d : List (String × IR)) (key : String) (v : IR) :
    obj_set (define_with_file file d) key (v.with_file file)
      = define_with_file file (obj_set d key v) := by
  induction d with
  | nil => rfl
  | cons e rest ih =>
    obtain ⟨k, w⟩ := e
    show (if k = key then (k, v.with_file file) :: define_with_file file rest
        else (k, w.with_file file) :: obj_set (define_with_file file rest) key (v.with_file file))
      = define_with_file file (if k = key then (k, v) :: rest else (k, w) :: obj_set rest key v)
    by_cases h : k = key
    · rw [if_pos h, if_pos h]; rfl
    · rw [if_neg h, if_neg h, ih]; rfl

theorem alias_loop_with_file (file : String) (the_name : Node) (labels : List Node) :
    ∀ d, alias_loop the_name labels (define_with_file file d)
      = define_with_file file (alias_loop the_name labels d) := by
  induction labels with
  | nil => intro d; rfl
  | cons label rest ih =>
    intro d
    show alias_loop the_name rest
        (obj_set (define_with_file file d) (label.get 0).id (.ref none the_name.id none)) = _
    rw [show IR.ref none the_name.id none = (IR.ref none the_name.id none).with_file file from rfl,
      obj_set_with_file, ih]
    rfl

theorem define_loop_with_file (tree : Node) (f1 f2 : String)
    (import_object : List (String × String)) (definitions : List Node) :
    ∀ d s, define_loop tree f2 import_object definitions (define_with_file f2 d, s)
      = (define_loop tree f1 import_object definitions (d, s)).map
          (fun r => (define_with_file f2 r.1, r.2)) := by
  induction definitions with
  | nil => intro d s; rfl
  | cons definition rest ih =>
    intro d s
    rw [define_loop, define_loop]
    have hs : ∀ o : Option IR, (o.map (IR.with_file f2)).isSome = o.isSome := by
      intro o; cases o <;> rfl
    rw [obj_get_with_file, hs, gen_value_file tree f1 f2]
    split_ifs with h
    · rfl
    · cases gen_value tree f1 import_object ((definition.get 1).items) false with
      | error e => rfl
      | ok r =>
        obtain ⟨node, pushed⟩ := r
        show define_loop tree f2 import_object rest
          (alias_loop _ _ (obj_set (define_with_file f2 d) _ (node.with_file f2)), s ++ pushed) = _
        rw [obj_set_with_file, alias_loop_with_file, ih]

theorem kind_with_file (file : String) (node : IR) : (node.with_file file).kind = node.kind := by
  cases node <;> rfl

theorem maybe_kind_with_file (file : String) (d : List (String × IR)) (kind : String) :
    ∀ fuel node, maybe_kind (define_with_file file d) fuel (node.map (IR.with_file file)) kind
      = maybe_kind d fuel node kind := by
  intro fuel
  induction fuel with
  | zero => intro node; rfl
  | succ fuel ih =>
    intro node
    cases node with
    | none => rfl
    | some n =>
      cases n with
      | ref module name debug =>
        cases module with
        | none =>
          show maybe_kind (define_with_file file d) fuel
            (obj_get (define_with_file file d) name) kind = maybe_kind d fuel (obj_get d name) kind
          rw [obj_get_with_file, ih]
        | some m => rfl
      | _ => rfl

theorem check_loop_with_file (file : String) (d : List (String × IR)) (fuel : Nat)
    (s : List Node) :
    check_loop (define_with_file file d) fuel s = check_loop d fuel s := by
  induction s with
  | nil => rfl
  | cons name_token rest ih =>
    rw [check_loop, check_loop, obj_get_with_file, maybe_kind_with_file, ih]

theorem generate_crlf_with_file (tree : Outcome Node) (f1 f2 : String) :
    generate_crlf tree f2 = match generate_crlf tree f1 with
      | .ok d => .ok { d with ast := { d.ast with
          define_object := define_with_file f2 d.ast.define_object } }
      | .fail f => .fail f
      | .diverge => .diverge := by
  cases tree with
  | fail f => rfl
  | diverge => rfl
  | ok tree =>
    rw [generate_crlf, generate_crlf]
    dsimp only
    cases import_block tree with
    | error e => rfl
    | ok import_object =>
      dsimp only
      have h := define_loop_with_file tree f1 f2 import_object (tree.get 2).items [] []
      rw [show define_with_file f2 [] = [] from rfl] at h
      rw [h]
      cases define_loop tree f1 import_object (tree.get 2).items ([], []) with
      | error e => rfl
      | ok r =>
        obtain ⟨define_object, supposed_instructions⟩ := r
        simp only [Except.map]
        rw [show (define_with_file f2 define_object).length = define_object.length from
          List.length_map _ _, check_loop_with_file]
        cases check_loop define_object (define_object.length + 2) supposed_instructions with
        | fail f => rfl
        | diverge => rfl
        | ok u =>
          dsimp only
          cases export_block tree with
          | error e => rfl
          | ok export_array => rfl

theorem assemble_with_file (source f1 f2 : String) :
    assemble source f2 = (assemble source f1).with_file f2 := by
  rw [assemble, assemble, generate_crlf_with_file (parse (tokenize source)) f1 f2]
  cases generate_crlf (parse (tokenize source)) f1 with
  | ok d => rfl
  | fail f => rfl
  | diverge => rfl

theorem with_file_with_file (f g : String) (node : IR) :
    (node.with_file g).with_file f = node.with_file f := by
  induction node with
  | literal v => rfl
  | type n => rfl
  | fixnum n => rfl
  | ref m n d => cases d <;> rfl
  | pair h t d ih1 ih2 => simp only [IR.with_file, ih1, ih2]
  | dict k v n d ih1 ih2 ih3 => simp only [IR.with_file, ih1, ih2, ih3]
  | instr op imm k d ih1 ih2 => simp only [IR.with_file, ih1, ih2]
  | instr_label op imm k d ih => simp only [IR.with_file, ih]
  | instr_depth k d ih => simp only [IR.with_file, ih]
  | instr_if t e d ih1 ih2 => simp only [IR.with_file, ih1, ih2]
  | instr_end imm d => rfl

theorem assembly_with_file_with_file (f g : String) (a : Assembly) :
    (a.with_file g).with_file f = a.with_file f := by
  cases a with
  | document d =>
    simp only [Assembly.with_file, define_with_file, List.map_map, Function.comp_def,
      with_file_with_file]
  | error e => rfl
  | diverge => rfl

/-- C16: for every source and every two file identifiers, the two results of
`assemble` are equal once every file field is replaced by the same value, and
they are two documents, or two error records with the same message, line and
column, or no result in both cases; the result for `f2` is the result for
`f1` with its file fields set to `f2`. -/
theorem file_identifier_is_metadata (source f1 f2 file : String) :
    (assemble source f1).with_file file = (assemble source f2).with_file file ∧
      assemble source f2 = (assemble source f1).with_file f2 ∧
      ((∃ d1 d2, assemble source f1 = .document d1 ∧ assemble source f2 = .document d2) ∨
        (∃ e1 e2, assemble source f1 = .error e1 ∧ assemble source f2 = .error e2 ∧
          e1.message = e2.message ∧ e1.line = e2.line ∧ e1.column = e2.column) ∨
        (assemble source f1 = .diverge ∧ assemble source f2 = .diverge)) := by
  have h := assemble_with_file source f1 f2
  refine ⟨?_, h, ?_⟩
  · rw [h, assembly_with_file_with_file]
  · rw [h]
    cases assemble source f1 with
    | document d => exact Or.inl ⟨_, _, rfl, rfl⟩
    | error e => exact Or.inr (Or.inl ⟨_, _, rfl, rfl, rfl, rfl, rfl⟩)
    | diverge => exact Or.inr (Or.inr ⟨rfl, rfl⟩)

/-! ### Generator: continuations are instructions -/

theorem bind_ok {α β : Type} {a : Except Failure α} {g : α → Except Failure β} {b : β}
    (h : (a >>= g) = .ok b) : ∃ v, a = .ok v ∧ g v = .ok b := by
  cases a with
  | error e => simp [bind, Except.bind] at h
  | ok v => exact ⟨v, rfl, by simpa [bind, Except.bind] using h⟩

theorem supposed_mono {s s2 : List Node} {c : IR} (hs : ∀ t ∈ s, t ∈ s2)
    (h : supposed_instruction s c) : supposed_instruction s2 c := by
  rcases h with h | h | ⟨token, debug, hm, hc⟩
  · exact Or.inl h
  · exact Or.inr (Or.inl h)
  · exact Or.inr (Or.inr ⟨token, debug, hs token hm, hc⟩)

theorem continuations_mono {s s2 : List Node} {n : IR} (hs : ∀ t ∈ s, t ∈ s2)
    (h : continuations_supposed s n) : continuations_supposed s2 n :=
  fun m hm c hc => supposed_mono hs (h m hm c hc)

theorem leaf_continuations {s : List Node} {n : IR} (h : is_leaf n = true) :
    continuations_supposed s n := by
  intro m hm c hc
  cases n <;> simp [is_leaf] at h <;> simp [IR.subnodes] at hm <;> subst hm <;>
    simp [IR.continuations] at hc

theorem gen_ref_ok {tree : Node} {file : String} {import_object : List (String × String)}
    {operand : Node} {flag : Bool} {r : IR × List Node}
    (h : gen_ref tree file import_object operand flag = .ok r) :
    is_leaf r.1 = true ∧ (flag = true → supposed_instruction r.2 r.1) := by
  unfold gen_ref at h
  dsimp only at h
  split_ifs at h with h1 h2 h3 h4
  · exact absurd h (by simp [fail])
  · simp only [pure, Except.pure, Except.ok.injEq] at h
    subst h
    exact ⟨rfl, fun _ => Or.inr (Or.inl ⟨_, _, _, rfl⟩)⟩
  · exact absurd h (by simp [fail])
  · exact absurd h (by simp [fail])
  · simp only [pure, Except.pure, Except.ok.injEq] at h
    subst h
    exact ⟨rfl,
      fun _ => Or.inr (Or.inr ⟨operand.get 1, _, List.mem_singleton.mpr rfl, rfl⟩)⟩
  · simp only [pure, Except.pure, Except.ok.injEq] at h
    subst h
    exact ⟨rfl, fun hf => absurd hf (by assumption)⟩

theorem gen_type_ok {operand : Node} {e : IR} (h : gen_type operand = .ok e) :
    is_leaf e = true := by
  unfold gen_type at h
  dsimp only at h
  split_ifs at h
  · simp only [pure, Except.pure, Except.ok.injEq] at h
    subst h
    rfl
  · exact absurd h (by simp [fail])

theorem gen_literal_ok {operand : Node} {e : IR} (h : gen_literal operand = .ok e) :
    is_leaf e = true := by
  unfold gen_literal at h
  dsimp only at h
  split_ifs at h <;>
    first
    | exact absurd h (by simp [fail])
    | (simp only [pure, Except.pure, Except.ok.injEq] at h; subst h; rfl)

theorem gen_fixnum_ok {operand : Node} {e : IR} (h : gen_fixnum operand = .ok e) :
    is_leaf e = true := by
  unfold gen_fixnum at h
  dsimp only at h
  split_ifs at h
  · simp only [pure, Except.pure, Except.ok.injEq] at h
    subst h
    rfl
  · exact absurd h (by simp [fail])

theorem gen_expression_ok {tree : Node} {file : String}
    {import_object : List (String × String)} {operand : Node} {e : IR}
    (h : gen_expression tree file import_object operand = .ok e) : is_leaf e = true := by
  unfold gen_expression at h
  dsimp only at h
  split_ifs at h
  · simp only [pure, Except.pure, Except.ok.injEq] at h
    subst h
    rfl
  · exact gen_type_ok h
  · exact gen_literal_ok h
  · cases hr : gen_ref tree file import_object operand false with
    | error f =>
      rw [hr] at h
      exact absurd h (by simp [Except.map])
    | ok r =>
      rw [hr] at h
      simp only [Except.map, Except.ok.injEq] at h
      subst h
      exact (gen_ref_ok hr).1

theorem gen_continuation_expression_ok {tree : Node} {file : String}
    {import_object : List (String × String)} {operand : Node} {flag : Bool}
    {r : IR × List Node}
    (h : gen_continuation_expression tree file import_object flag operand = .ok r) :
    continuations_supposed r.2 r.1 ∧ (flag = true → supposed_instruction r.2 r.1) := by
  unfold gen_continuation_expression at h
  cases flag with
  | true =>
    simp only [if_true] at h
    exact ⟨leaf_continuations (gen_ref_ok h).1, (gen_ref_ok h).2⟩
  | false =>
    simp only [Bool.false_eq_true, if_false] at h
    cases he : gen_expression tree file import_object operand with
    | error f =>
      rw [he] at h
      exact absurd h (by simp [Except.map])
    | ok e =>
      rw [he] at h
      simp only [Except.map, Except.ok.injEq] at h
      subst h
      exact ⟨leaf_continuations (gen_expression_ok he), fun hf => absurd hf (by decide)⟩

theorem gen_continuation_ok {tree : Node} {file : String}
    {import_object : List (String × String)} {operator operands : Node}
    {statements : List Node} {flag : Bool}
    {rest_value : Bool → Except Failure (IR × List Node)} {nr : Nat} {r : IR × List Node}
    (hrest : ∀ b q, rest_value b = .ok q →
      continuations_supposed q.2 q.1 ∧ (b = true → supposed_instruction q.2 q.1))
    (h : gen_continuation tree file import_object operator operands statements flag
      rest_value nr = .ok r) :
    continuations_supposed r.2 r.1 ∧ (flag = true → supposed_instruction r.2 r.1) := by
  unfold gen_continuation at h
  split at h
  · split_ifs at h
    · exact hrest flag r h
    · exact absurd h (by simp [fail])
  · split_ifs at h
    · exact gen_continuation_expression_ok h
    · exact absurd h (by simp [fail])

theorem continuations_instr {s : List Node} {op : String} {imm k : IR} {debug : Debug}
    (hi : is_leaf imm = true) (hk : continuations_supposed s k)
    (hs : supposed_instruction s k) : continuations_supposed s (.instr op imm k debug) := by
  intro n hn c hc
  simp only [IR.subnodes, List.mem_cons, List.mem_append] at hn
  rcases hn with hn | hn | hn
  · subst hn
    simp only [IR.continuations, List.mem_singleton] at hc
    subst hc
    exact hs
  · exact leaf_continuations hi n hn c hc
  · exact hk n hn c hc

theorem continuations_instr_label {s : List Node} {op imm : String} {k : IR} {debug : Debug}
    (hk : continuations_supposed s k) (hs : supposed_instruction s k) :
    continuations_supposed s (.instr_label op imm k debug) := by
  intro n hn c hc
  simp only [IR.subnodes, List.mem_cons] at hn
  rcases hn with hn | hn
  · subst hn
    simp only [IR.continuations, List.mem_singleton] at hc
    subst hc
    exact hs
  · exact hk n hn c hc

theorem continuations_instr_depth {s : List Node} {k : IR} {debug : Debug}
    (hk : continuations_supposed s k) (hs : supposed_instruction s k) :
    continuations_supposed s (.instr_depth k debug) := by
  intro n hn c hc
  simp only [IR.subnodes, List.mem_cons] at hn
  rcases hn with hn | hn
  · subst hn
    simp only [IR.continuations, List.mem_singleton] at hc
    subst hc
    exact hs
  · exact hk n hn c hc

theorem continuations_instr_if {s : List Node} {t f : IR} {debug : Debug}
    (ht : continuations_supposed s t) (hst : supposed_instruction s t)
    (hf : continuations_supposed s f) (hsf : supposed_instruction s f) :
    continuations_supposed s (.instr_if t f debug) := by
  intro n hn c hc
  simp only [IR.subnodes, List.mem_cons, List.mem_append] at hn
  rcases hn with hn | hn | hn
  · subst hn
    simp only [IR.continuations, List.mem_cons, List.mem_singleton, List.not_mem_nil,
      or_false] at hc
    rcases hc with hc | hc
    · subst hc; exact hst
    · subst hc; exact hsf
  · exact ht n hn c hc
  · exact hf n hn c hc

theorem continuations_instr_end {s : List Node} {imm : String} {debug : Debug} :
    continuations_supposed s (.instr_end imm debug) := by
  intro n hn c hc
  simp only [IR.subnodes, List.mem_singleton] at hn
  subst hn
  simp [IR.continuations] at hc

theorem continuations_pair {s : List Node} {head tail : IR} {debug : Debug}
    (hh : is_leaf head = true) (ht : continuations_supposed s tail) :
    continuations_supposed s (.pair head tail debug) := by
  intro n hn c hc
  simp only [IR.subnodes, List.mem_cons, List.mem_append] at hn
  rcases hn with hn | hn | hn
  · subst hn
    simp [IR.continuations] at hc
  · exact leaf_continuations hh n hn c hc
  · exact ht n hn c hc

theorem continuations_dict {s : List Node} {key value next : IR} {debug : Debug}
    (hk : is_leaf key = true) (hv : is_leaf value = true)
    (hn : continuations_supposed s next) :
    continuations_supposed s (.dict key value next debug) := by
  intro n hm c hc
  simp only [IR.subnodes, List.mem_cons, List.mem_append] at hm
  rcases hm with hm | hm | hm | hm
  · subst hm
    simp [IR.continuations] at hc
  · exact leaf_continuations hk n hm c hc
  · exact leaf_continuations hv n hm c hc
  · exact hn n hm c hc

/-- What `gen_value` returns has only supposed instructions as continuation
fields, and is one itself in instruction position. -/
theorem gen_value_continuations (tree : Node) (file : String)
    (import_object : List (String × String)) (statements : List Node) :
    ∀ flag r, gen_value tree file import_object statements flag = .ok r →
      continuations_supposed r.2 r.1 ∧ (flag = true → supposed_instruction r.2 r.1) := by
  induction statements with
  | nil =>
    intro flag r h
    exact absurd h (by simp [gen_value])
  | cons statement rest ih =>
    intro flag r h
    have hcont : ∀ (b : Bool) (nr : Nat) (q : IR × List Node),
        gen_continuation tree file import_object (statement.get 1) (statement.get 2)
            (statement :: rest) b (gen_value tree file import_object rest) nr = .ok q →
          continuations_supposed q.2 q.1 ∧ (b = true → supposed_instruction q.2 q.1) :=
      fun b nr q hq => gen_continuation_ok ih hq
    rcases operator_family (statement.get 1).id with
      hf | hf | hf | hf | hf | hf | hf | hf | hf | hf | hf | hf
    · -- pair_t
      rw [gen_value_pair_t hf] at h
      cases flag with
      | true => exact absurd h (by simp [fail])
      | false =>
        simp only [Bool.false_eq_true, if_false] at h
        obtain ⟨_, _, h⟩ := bind_ok h
        obtain ⟨head, hh, h⟩ := bind_ok h
        obtain ⟨tail, ht, h⟩ := bind_ok h
        simp only [pure, Except.pure, Except.ok.injEq] at h
        subst h
        exact ⟨continuations_pair (gen_expression_ok hh) (hcont _ _ _ ht).1,
          fun hb => absurd hb (by decide)⟩
    · -- dict_t
      rw [gen_value_dict_t hf] at h
      cases flag with
      | true => exact absurd h (by simp [fail])
      | false =>
        simp only [Bool.false_eq_true, if_false] at h
        obtain ⟨_, _, h⟩ := bind_ok h
        obtain ⟨key, hk, h⟩ := bind_ok h
        obtain ⟨value, hv, h⟩ := bind_ok h
        obtain ⟨next, hn, h⟩ := bind_ok h
        simp only [pure, Except.pure, Except.ok.injEq] at h
        subst h
        exact ⟨continuations_dict (gen_expression_ok hk) (gen_expression_ok hv)
          (hcont _ _ _ hn).1, fun hb => absurd hb (by decide)⟩
    · -- ref
      rw [gen_value_ref hf] at h
      obtain ⟨_, _, h⟩ := bind_ok h
      exact gen_continuation_expression_ok h
    · -- typeq
      rw [gen_value_typeq hf] at h
      obtain ⟨_, _, h⟩ := bind_ok h
      obtain ⟨imm, hi, h⟩ := bind_ok h
      obtain ⟨k, hk, h⟩ := bind_ok h
      simp only [pure, Except.pure, Except.ok.injEq] at h
      subst h
      exact ⟨continuations_instr (gen_type_ok hi) (hcont _ _ _ hk).1 ((hcont _ _ _ hk).2 rfl),
        fun _ => Or.inl rfl⟩
    · -- fixnum operators
      rw [gen_value_fixnum_op hf] at h
      obtain ⟨_, _, h⟩ := bind_ok h
      obtain ⟨imm, hi, h⟩ := bind_ok h
      obtain ⟨k, hk, h⟩ := bind_ok h
      simp only [pure, Except.pure, Except.ok.injEq] at h
      subst h
      exact ⟨continuations_instr (gen_fixnum_ok hi) (hcont _ _ _ hk).1
        ((hcont _ _ _ hk).2 rfl), fun _ => Or.inl rfl⟩
    · -- push, is_eq, is_ne
      rw [gen_value_push_op hf] at h
      obtain ⟨_, _, h⟩ := bind_ok h
      obtain ⟨imm, hi, h⟩ := bind_ok h
      obtain ⟨k, hk, h⟩ := bind_ok h
      simp only [pure, Except.pure, Except.ok.injEq] at h
      subst h
      exact ⟨continuations_instr (gen_expression_ok hi) (hcont _ _ _ hk).1
        ((hcont _ _ _ hk).2 rfl), fun _ => Or.inl rfl⟩
    · -- depth
      rw [gen_value_depth hf] at h
      obtain ⟨_, _, h⟩ := bind_ok h
      obtain ⟨k, hk, h⟩ := bind_ok h
      simp only [pure, Except.pure, Except.ok.injEq] at h
      subst h
      exact ⟨continuations_instr_depth (hcont _ _ _ hk).1 ((hcont _ _ _ hk).2 rfl),
        fun _ => Or.inl rfl⟩
    · -- if
      rw [gen_value_if hf] at h
      obtain ⟨_, _, h⟩ := bind_ok h
      obtain ⟨t, ht, h⟩ := bind_ok h
      obtain ⟨f, hk, h⟩ := bind_ok h
      simp only [pure, Except.pure, Except.ok.injEq] at h
      subst h
      have hl : ∀ x ∈ t.2, x ∈ t.2 ++ f.2 := fun x hx => List.mem_append_left _ hx
      have hr : ∀ x ∈ f.2, x ∈ t.2 ++ f.2 := fun x hx => List.mem_append_right _ hx
      exact ⟨continuations_instr_if
        (continuations_mono hl (leaf_continuations (gen_ref_ok ht).1))
        (supposed_mono hl ((gen_ref_ok ht).2 rfl))
        (continuations_mono hr (hcont _ _ _ hk).1)
        (supposed_mono hr ((hcont _ _ _ hk).2 rfl)), fun _ => Or.inl rfl⟩
    · -- if_not
      rw [gen_value_if_not hf] at h
      obtain ⟨_, _, h⟩ := bind_ok h
      obtain ⟨f, ht, h⟩ := bind_ok h
      obtain ⟨t, hk, h⟩ := bind_ok h
      simp only [pure, Except.pure, Except.ok.injEq] at h
      subst h
      have hl : ∀ x ∈ f.2, x ∈ f.2 ++ t.2 := fun x hx => List.mem_append_left _ hx
      have hr : ∀ x ∈ t.2, x ∈ f.2 ++ t.2 := fun x hx => List.mem_append_right _ hx
      exact ⟨continuations_instr_if
        (continuations_mono hr (hcont _ _ _ hk).1)
        (supposed_mono hr ((hcont _ _ _ hk).2 rfl))
        (continuations_mono hl (leaf_continuations (gen_ref_ok ht).1))
        (supposed_mono hl ((gen_ref_ok ht).2 rfl)), fun _ => Or.inl rfl⟩
    · -- dict, deque, alu, cmp, my
      rw [gen_value_label_op hf] at h
      obtain ⟨_, _, h⟩ := bind_ok h
      obtain ⟨imm, hi, h⟩ := bind_ok h
      obtain ⟨k, hk, h⟩ := bind_ok h
      simp only [pure, Except.pure, Except.ok.injEq] at h
      subst h
      exact ⟨continuations_instr_label (hcont _ _ _ hk).1 ((hcont _ _ _ hk).2 rfl),
        fun _ => Or.inl rfl⟩
    · -- end
      rw [gen_value_end_op hf] at h
      obtain ⟨_, _, h⟩ := bind_ok h
      obtain ⟨imm, hi, h⟩ := bind_ok h
      simp only [pure, Except.pure, Except.ok.injEq] at h
      subst h
      exact ⟨continuations_instr_end, fun _ => Or.inl rfl⟩
    · -- no family
      rw [gen_value_bad_op hf.1 hf.2] at h
      exact absurd h (by simp [fail])

theorem mem_obj_set {α : Type} {d : List (String × α)} {key : String} {v : α}
    {e : String × α} (h : e ∈ obj_set d key v) : e ∈ d ∨ e = (key, v) := by
  induction d with
  | nil =>
    simp only [obj_set, List.mem_singleton] at h
    exact Or.inr h
  | cons x rest ih =>
    obtain ⟨k, w⟩ := x
    simp only [obj_set] at h
    split_ifs at h with hk
    · rcases List.mem_cons.mp h with h | h
      · right
        rw [h, hk]
      · exact Or.inl (List.mem_cons_of_mem _ h)
    · rcases List.mem_cons.mp h with h | h
      · left
        rw [h]
        exact List.mem_cons_self _ _
      · rcases ih h with h | h
        · exact Or.inl (List.mem_cons_of_mem _ h)
        · exact Or.inr h

theorem alias_loop_continuations (s : List Node) (the_name : Node) (labels : List Node) :
    ∀ d : List (String × IR), (∀ e ∈ d, continuations_supposed s e.2) →
      ∀ e ∈ alias_loop the_name labels d, continuations_supposed s e.2 := by
  induction labels with
  | nil => intro d hd; exact hd
  | cons label rest ih =>
    intro d hd
    apply ih
    intro e he
    rcases mem_obj_set he with he | he
    · exact hd e he
    · rw [he]
      exact leaf_continuations rfl

theorem define_loop_continuations (tree : Node) (file : String)
    (import_object : List (String × String)) (definitions : List Node) :
    ∀ (d : List (String × IR)) (s : List Node) (r : List (String × IR) × List Node),
      (∀ e ∈ d, continuations_supposed s e.2) →
      define_loop tree file import_object definitions (d, s) = .ok r →
      ∀ e ∈ r.1, continuations_supposed r.2 e.2 := by
  induction definitions with
  | nil =>
    intro d s r hd h
    simp only [define_loop, pure, Except.pure, Except.ok.injEq] at h
    subst h
    exact hd
  | cons definition rest ih =>
    intro d s r hd h
    rw [define_loop] at h
    split_ifs at h with hre
    · exact absurd h (by simp [fail])
    · cases hg : gen_value tree file import_object (definition.get 1).items false with
      | error f =>
        rw [hg] at h
        exact absurd h (by simp)
      | ok q =>
        obtain ⟨node, pushed⟩ := q
        rw [hg] at h
        refine ih _ _ r ?_ h
        apply alias_loop_continuations
        intro e he
        rcases mem_obj_set he with he | he
        · exact continuations_mono (fun x hx => List.mem_append_left _ hx) (hd e he)
        · rw [he]
          exact continuations_mono (fun x hx => List.mem_append_right _ hx)
            (gen_value_continuations tree file import_object _ false (node, pushed) hg).1

theorem check_loop_ok {d : List (String × IR)} {fuel : Nat} {s : List Node}
    (h : check_loop d fuel s = .ok ()) :
    ∀ token ∈ s, maybe_kind d fuel (obj_get d token.id) "instr" = .ok true := by
  induction s with
  | nil => intro token ht; exact absurd ht (List.not_mem_nil _)
  | cons name_token rest ih =>
    intro token ht
    rw [check_loop] at h
    cases hm : maybe_kind d fuel (obj_get d name_token.id) "instr" with
    | fail f => rw [hm] at h; exact absurd h (by simp)
    | diverge => rw [hm] at h; exact absurd h (by simp)
    | ok b =>
      cases b with
      | false => rw [hm] at h; exact absurd h (by simp)
      | true =>
        rw [hm] at h
        rcases List.mem_cons.mp ht with ht | ht
        · rw [ht]; exact hm
        · exact ih h token ht

theorem maybe_kind_ends_at_instruction (d : List (String × IR)) :
    ∀ (fuel : Nat) (node : Option IR), maybe_kind d fuel node "instr" = .ok true →
      ∃ n, node = some n ∧ ends_at_instruction d n := by
  intro fuel
  induction fuel with
  | zero =>
    intro node h
    exact absurd h (by simp [maybe_kind])
  | succ fuel ih =>
    intro node h
    cases node with
    | none => exact absurd h (by simp [maybe_kind])
    | some n =>
      refine ⟨n, rfl, ?_⟩
      cases n with
      | ref module name debug =>
        cases module with
        | none =>
          rw [maybe_kind] at h
          obtain ⟨n2, h2, h3⟩ := ih _ h
          exact .local_ref name debug n2 h2 h3
        | some m => exact .qualified m name debug
      | instr op imm k debug => exact .instr _ rfl
      | instr_label op imm k debug => exact .instr _ rfl
      | instr_depth k debug => exact .instr _ rfl
      | instr_if t f debug => exact .instr _ rfl
      | instr_end imm debug => exact .instr _ rfl
      | literal v => exact absurd h (by simp [maybe_kind, IR.kind])
      | type v => exact absurd h (by simp [maybe_kind, IR.kind])
      | fixnum v => exact absurd h (by simp [maybe_kind, IR.kind])
      | pair a b c => exact absurd h (by simp [maybe_kind, IR.kind])
      | dict a b c e => exact absurd h (by simp [maybe_kind, IR.kind])

theorem supposed_ends_at_instruction {d : List (String × IR)} {fuel : Nat} {s : List Node}
    (h : check_loop d fuel s = .ok ()) {c : IR} (hc : supposed_instruction s c) :
    ends_at_instruction d c := by
  rcases hc with hc | ⟨m, name, debug, hc⟩ | ⟨token, debug, ht, hc⟩
  · exact .instr c hc
  · rw [hc]
    exact .qualified m name debug
  · rw [hc]
    obtain ⟨n, hn, he⟩ := maybe_kind_ends_at_instruction d fuel _ (check_loop_ok h token ht)
    exact .local_ref token.id debug n hn he

theorem ends_at_instruction_kind {d : List (String × IR)} {c : IR}
    (h : ends_at_instruction d c) : c.kind = some "instr" ∨ c.kind = some "ref" := by
  cases h with
  | instr _ h => exact Or.inl h
  | qualified m name debug => exact Or.inr rfl
  | local_ref name debug node h hn => exact Or.inr rfl

theorem generate_crlf_ok {tree : Outcome Node} {file : String} {doc : Document}
    (h : generate_crlf tree file = .ok doc) :
    ∃ t import_object supposed_instructions,
      tree = .ok t ∧
      define_loop t file import_object (t.get 2).items ([], [])
        = .ok (doc.ast.define_object, supposed_instructions) ∧
      check_loop doc.ast.define_object (doc.ast.define_object.length + 2)
        supposed_instructions = .ok () := by
  cases tree with
  | fail f => exact absurd h (by simp [generate_crlf])
  | diverge => exact absurd h (by simp [generate_crlf])
  | ok t =>
    rw [generate_crlf] at h
    cases hi : import_block t with
    | error f => rw [hi] at h; exact absurd h (by simp)
    | ok import_object =>
      rw [hi] at h
      dsimp only at h
      cases hd : define_loop t file import_object (t.get 2).items ([], []) with
      | error f => rw [hd] at h; exact absurd h (by simp)
      | ok r =>
        obtain ⟨define_object, supposed_instructions⟩ := r
        rw [hd] at h
        dsimp only at h
        cases hc : check_loop define_object (define_object.length + 2)
            supposed_instructions with
        | fail f => rw [hc] at h; exact absurd h (by simp)
        | diverge => rw [hc] at h; exact absurd h (by simp)
        | ok u =>
          rw [hc] at h
          dsimp only at h
          cases he : export_block t with
          | error f => rw [he] at h; exact absurd h (by simp)
          | ok export_array =>
            rw [he] at h
            simp only [Outcome.ok.injEq] at h
            subst h
            exact ⟨t, import_object, supposed_instructions, rfl, hd, hc⟩

/-- C20: in every document that `assemble` returns, each continuation field
(`k`, or `t` and `f` of an `if`) of each node reachable from an entry of
`define_object` is a node of kind `"instr"`, a ref into another module, or a
local ref whose chain of entries in `define_object` ends at one of these; it
is of kind `"instr"` or `"ref"`, never a pair, a dict, a literal, a type or a
fixnum. -/
theorem continuations_are_instructions (source file : String) (doc : Document)
    (h : assemble source file = .document doc) :
    ∀ entry ∈ doc.ast.define_object, ∀ n ∈ entry.2.subnodes, ∀ c ∈ n.continuations,
      ends_at_instruction doc.ast.define_object c
        ∧ (c.kind = some "instr" ∨ c.kind = some "ref") := by
  have hg : generate_crlf (parse (tokenize source)) file = .ok doc := by
    rw [assemble] at h
    cases hg : generate_crlf (parse (tokenize source)) file with
    | ok d =>
      rw [hg] at h
      simp only [Assembly.document.injEq] at h
      rw [h]
    | fail f => rw [hg] at h; exact absurd h (by simp)
    | diverge => rw [hg] at h; exact absurd h (by simp)
  obtain ⟨t, import_object, s, _, hd, hc⟩ := generate_crlf_ok hg
  intro entry he n hn c hcn
  have hs := define_loop_continuations t file import_object _ [] [] _
    (fun e he => absurd he (List.not_mem_nil _)) hd entry he n hn c hcn
  have hend := supposed_ends_at_instruction hc hs
  exact ⟨hend, ends_at_instruction_kind hend⟩

/-- C20 at the module `a:\n push 1 c\nb:\nc:\n end stop\n`, where the
continuation of `push` is a ref to the alias `c` of the instruction `b`. -/
theorem continuations_are_instructions_witness :
    assemble "a:\n push 1 c\nb:\nc:\n end stop\n" "f.asm" = .document document_alias_chain ∧
      ends_at_instruction document_alias_chain.ast.define_object
        (.ref none "c" (some { file := "f.asm", line := some 1 })) :=
  ⟨by decide,
    (continuations_are_instructions "a:\n push 1 c\nb:\nc:\n end stop\n" "f.asm"
      document_alias_chain (by decide)
      ("a", .instr "push" (.fixnum 1)
        (.ref none "c" (some { file := "f.asm", line := some 1 }))
        { file := "f.asm", line := some 1 })
      (by decide) _ (List.mem_cons_self _ _) _ (List.mem_cons_self _ _)).1⟩

/-! ### Parser: termination -/

theorem error_or_end_of_rest {input input1 : Input} (h : input.error_or_end)
    (hr : input1.rest = input.rest) : input1.error_or_end := by
  intro t ht
  exact h t (hr ▸ ht)

theorem advances_one (make_node : Token → Option Token) : advances (one make_node) := by
  intro input input1 node h
  unfold one at h
  split at h
  · cases h
  · split at h
    · simp only [Outcome.ok.injEq, Prod.mk.injEq] at h
      rw [← h.1]
      exact ⟨rfl, by simp [Input.next]⟩
    · cases h

theorem advances_zero : advances zero := by
  intro input input1 node h
  simp only [zero, Outcome.ok.injEq, Prod.mk.injEq] at h
  rw [← h.1]
  exact ⟨rfl, Nat.le_refl _⟩

theorem advances_or_nil : advances (or []) :=
  fun _ _ _ h => nomatch h

theorem advances_or_cons {a : Matcher} {ms : List Matcher} (ha : advances a)
    (hms : advances (or ms)) : advances (or (a :: ms)) := by
  intro input input1 node h
  simp only [or] at h
  split at h
  · rename_i r hr
    cases h
    exact ha _ _ _ hr
  · exact hms _ _ _ h
  · cases h

theorem advances_optional {m : Matcher} (hm : advances m) : advances (optional m) :=
  advances_or_cons hm (advances_or_cons advances_zero advances_or_nil)

theorem advances_and_loop {ms : List Matcher} (hms : ∀ m ∈ ms, advances m) :
    ∀ nodes, advances (and_loop ms nodes) := by
  induction ms with
  | nil =>
    intro nodes input input1 node h
    simp only [and_loop, Outcome.ok.injEq, Prod.mk.injEq] at h
    rw [← h.1]
    exact ⟨rfl, Nat.le_refl _⟩
  | cons a ms ih =>
    intro nodes input input1 node h
    simp only [and_loop] at h
    split at h
    · rename_i i1 n1 hr
      obtain ⟨h1, h2⟩ := hms a (List.mem_cons_self _ _) _ _ _ hr
      obtain ⟨h3, h4⟩ := ih (fun m hm => hms m (List.mem_cons_of_mem _ hm)) _ _ _ _ h
      exact ⟨h3.trans h1, Nat.le_trans h4 h2⟩
    · cases h
    · cases h

theorem advances_and {ms : List Matcher} (hms : ∀ m ∈ ms, advances m) : advances (and ms) :=
  advances_and_loop hms []

theorem advances_repeat_loop {m : Matcher} (hm : advances m) :
    ∀ (fuel : Nat) (nodes : List Node), advances (repeat_loop m fuel nodes) := by
  intro fuel
  induction fuel with
  | zero =>
    intro nodes input input1 node h
    cases h
  | succ fuel ih =>
    intro nodes input input1 node h
    simp only [repeat_loop] at h
    split at h
    · rename_i i1 n1 hr
      obtain ⟨h1, h2⟩ := hm _ _ _ hr
      obtain ⟨h3, h4⟩ := ih _ _ _ _ h
      exact ⟨h3.trans h1, Nat.le_trans h4 h2⟩
    · simp only [Outcome.ok.injEq, Prod.mk.injEq] at h
      rw [← h.1]
      exact ⟨rfl, Nat.le_refl _⟩
    · cases h

theorem advances_repeat {m : Matcher} (hm : advances m) (fuel : Nat) :
    advances («repeat» fuel m) :=
  advances_repeat_loop hm fuel []

theorem advances_many {m : Matcher} (hm : advances m) (fuel : Nat) :
    advances (many fuel m) := by
  intro input input1 node h
  simp only [many] at h
  split at h
  · rename_i i1 head hr
    obtain ⟨h3, h4⟩ := hm _ _ _ hr
    split at h
    · rename_i i2 tail ht
      obtain ⟨h5, h6⟩ := advances_repeat hm fuel _ _ _ ht
      simp only [Outcome.ok.injEq, Prod.mk.injEq] at h
      rw [← h.1]
      exact ⟨h5.trans h3, Nat.le_trans h6 h4⟩
    · cases h
    · cases h
  · cases h
  · cases h

theorem consumes_one {make_node : Token → Option Token} (hr : rejects_error make_node) :
    consumes (one make_node) := by
  intro input input1 node he h
  unfold one at h
  split at h
  · cases h
  · rename_i t ht
    split at h
    · rename_i nd hn
      simp only [Outcome.ok.injEq, Prod.mk.injEq] at h
      rw [← h.1]
      cases hts : input.tokens with
      | nil =>
        simp only [Input.token, hts] at ht
        obtain ⟨h1, h2⟩ := he t ht
        rw [hr t h1 h2] at hn
        cases hn
      | cons x xs => simp [Input.next, hts]
    · cases h

theorem rejects_error_id {the_id : String} (h : the_id ≠ ":error:") :
    rejects_error (fun token => if token.id = the_id then some token else none) := by
  intro t ht _
  simp only [ht]
  rw [if_neg (fun hc => h hc.symm)]

theorem consumes_id {the_id : String} (h : the_id ≠ ":error:") : consumes (id the_id) :=
  consumes_one (rejects_error_id h)

theorem consumes_name : consumes name :=
  consumes_one (fun t _ ha => by simp [ha])

theorem consumes_and_loop_left {a : Matcher} {ms : List Matcher} (ha : consumes a)
    (hms : ∀ m ∈ ms, advances m) (nodes : List Node) :
    consumes (and_loop (a :: ms) nodes) := by
  intro input input1 node he h
  simp only [and_loop] at h
  split at h
  · rename_i i1 n1 hr
    exact Nat.lt_of_le_of_lt (advances_and_loop hms _ _ _ _ h).2 (ha _ _ _ he hr)
  · cases h
  · cases h

theorem consumes_and_loop_right {a : Matcher} {ms : List Matcher} (ha : advances a)
    (hms : ∀ nodes, consumes (and_loop ms nodes)) (nodes : List Node) :
    consumes (and_loop (a :: ms) nodes) := by
  intro input input1 node he h
  simp only [and_loop] at h
  split at h
  · rename_i i1 n1 hr
    obtain ⟨h1, h2⟩ := ha _ _ _ hr
    exact Nat.lt_of_lt_of_le ((hms _) _ _ _ (error_or_end_of_rest he h1) h) h2
  · cases h
  · cases h

theorem consumes_many {m : Matcher} (hm : advances m) (hc : consumes m) (fuel : Nat) :
    consumes (many fuel m) := by
  intro input input1 node he h
  simp only [many] at h
  split at h
  · rename_i i1 head hr
    split at h
    · rename_i i2 tail ht
      simp only [Outcome.ok.injEq, Prod.mk.injEq] at h
      rw [← h.1]
      exact Nat.lt_of_le_of_lt (advances_repeat hm fuel _ _ _ ht).2 (hc _ _ _ he hr)
    · cases h
    · cases h
  · cases h
  · cases h

theorem regular_one (n : Nat) (make_node : Token → Option Token) :
    regular n (one make_node) (one make_node) := by
  refine ⟨?_, fun _ _ _ => rfl⟩
  intro input _ _ h
  unfold one at h
  split at h
  · cases h
  · split at h <;> cases h

theorem regular_zero (n : Nat) : regular n zero zero :=
  ⟨fun _ _ _ h => (nomatch h), fun _ _ _ => rfl⟩

theorem regular_or_nil (n : Nat) : regular n (or []) (or []) :=
  ⟨fun _ _ _ h => (nomatch h), fun _ _ _ => rfl⟩

theorem regular_or_cons {n : Nat} {a1 a2 : Matcher} {ms1 ms2 : List Matcher}
    (ha : regular n a1 a2) (hms : regular n (or ms1) (or ms2)) :
    regular n (or (a1 :: ms1)) (or (a2 :: ms2)) := by
  refine ⟨?_, ?_⟩
  · intro input he hl h
    simp only [or] at h
    split at h
    · cases h
    · exact hms.1 input he hl h
    · rename_i hd
      exact ha.1 input he hl hd
  · intro input he hl
    simp only [or]
    rw [← ha.2 input he hl, ← hms.2 input he hl]

theorem regular_optional {n : Nat} {m1 m2 : Matcher} (hm : regular n m1 m2) :
    regular n (optional m1) (optional m2) :=
  regular_or_cons hm (regular_or_cons (regular_zero n) (regular_or_nil n))

theorem regular_and_loop_nil (n : Nat) (nodes : List Node) :
    regular n (and_loop [] nodes) (and_loop [] nodes) :=
  ⟨fun _ _ _ h => (nomatch h), fun _ _ _ => rfl⟩

theorem regular_and_loop_cons {n : Nat} {a1 a2 : Matcher} {ms1 ms2 : List Matcher}
    (ha : regular n a1 a2) (hadv : advances a1)
    (hms : ∀ nodes, regular n (and_loop ms1 nodes) (and_loop ms2 nodes)) (nodes : List Node) :
    regular n (and_loop (a1 :: ms1) nodes) (and_loop (a2 :: ms2) nodes) := by
  refine ⟨?_, ?_⟩
  · intro input he hl h
    simp only [and_loop] at h
    split at h
    · rename_i i1 n1 hr
      obtain ⟨h1, h2⟩ := hadv _ _ _ hr
      exact (hms _).1 i1 (error_or_end_of_rest he h1) (Nat.le_trans h2 hl) h
    · cases h
    · rename_i hd
      exact ha.1 input he hl hd
  · intro input he hl
    simp only [and_loop]
    rw [← ha.2 input he hl]
    cases hr : a1 input with
    | ok r =>
      obtain ⟨i1, n1⟩ := r
      obtain ⟨h1, h2⟩ := hadv _ _ _ hr
      exact (hms _).2 i1 (error_or_end_of_rest he h1) (Nat.le_trans h2 hl)
    | fail f => rfl
    | diverge => rfl

theorem regular_repeat_loop {n : Nat} {m1 m2 : Matcher} (hm : regular n m1 m2)
    (hadv : advances m1) (hc : consumes m1) :
    ∀ (fuel1 fuel2 : Nat) (nodes : List Node) (input : Input), input.error_or_end →
      input.tokens.length ≤ n → input.tokens.length < fuel1 → input.tokens.length < fuel2 →
      repeat_loop m1 fuel1 nodes input ≠ .diverge ∧
        repeat_loop m1 fuel1 nodes input = repeat_loop m2 fuel2 nodes input := by
  intro fuel1
  induction fuel1 with
  | zero =>
    intro fuel2 nodes input _ _ h1 _
    exact absurd h1 (Nat.not_lt_zero _)
  | succ fuel1 ih =>
    intro fuel2 nodes input he hl h1 h2
    obtain ⟨fuel2, rfl⟩ : ∃ k, fuel2 = k + 1 := ⟨fuel2 - 1, by omega⟩
    simp only [repeat_loop]
    rw [← hm.2 input he hl]
    cases hr : m1 input with
    | ok r =>
      obtain ⟨i1, n1⟩ := r
      obtain ⟨h3, h4⟩ := hadv _ _ _ hr
      have h5 := hc _ _ _ he hr
      exact ih fuel2 _ i1 (error_or_end_of_rest he h3) (Nat.le_trans h4 hl) (by omega) (by omega)
    | fail f => exact ⟨fun h => (nomatch h), rfl⟩
    | diverge => exact absurd hr (hm.1 input he hl)

theorem regular_repeat {n fuel1 fuel2 : Nat} {m1 m2 : Matcher} (hm : regular n m1 m2)
    (hadv : advances m1) (hc : consumes m1) (h1 : n < fuel1) (h2 : n < fuel2) :
    regular n («repeat» fuel1 m1) («repeat» fuel2 m2) :=
  ⟨fun input he hl =>
      (regular_repeat_loop hm hadv hc fuel1 fuel2 [] input he hl (by omega) (by omega)).1,
    fun input he hl =>
      (regular_repeat_loop hm hadv hc fuel1 fuel2 [] input he hl (by omega) (by omega)).2⟩

theorem regular_many {n fuel1 fuel2 : Nat} {m1 m2 : Matcher} (hm : regular n m1 m2)
    (hadv : advances m1) (hc : consumes m1) (h1 : n < fuel1) (h2 : n < fuel2) :
    regular n (many fuel1 m1) (many fuel2 m2) := by
  have hrep := regular_repeat hm hadv hc h1 h2
  refine ⟨?_, ?_⟩
  · intro input he hl h
    simp only [many] at h
    split at h
    · rename_i i1 head hr
      obtain ⟨h3, h4⟩ := hadv _ _ _ hr
      split at h
      · cases h
      · cases h
      · rename_i hd
        exact hrep.1 i1 (error_or_end_of_rest he h3) (Nat.le_trans h4 hl) hd
    · cases h
    · rename_i hd
      exact hm.1 input he hl hd
  · intro input he hl
    simp only [many]
    rw [← hm.2 input he hl]
    cases hr : m1 input with
    | ok r =>
      obtain ⟨i1, n1⟩ := r
      obtain ⟨h3, h4⟩ := hadv _ _ _ hr
      simp only
      rw [← hrep.2 i1 (error_or_end_of_rest he h3) (Nat.le_trans h4 hl)]
    | fail f => rfl
    | diverge => rfl

/-- The number of turns of a `repeat` loop whose matcher consumes: the nodes
it adds are no more than the tokens it uses up. -/
theorem repeat_loop_turns {m : Matcher} (hadv : advances m) (hc : consumes m) :
    ∀ (fuel : Nat) (nodes : List Node) (input input1 : Input) (node : Node),
      input.error_or_end → repeat_loop m fuel nodes input = .ok (input1, node) →
      node.items.length + input1.tokens.length ≤ nodes.length + input.tokens.length := by
  intro fuel
  induction fuel with
  | zero =>
    intro nodes input input1 node _ h
    cases h
  | succ fuel ih =>
    intro nodes input input1 node he h
    simp only [repeat_loop] at h
    split at h
    · rename_i i1 n1 hr
      obtain ⟨h1, _⟩ := hadv _ _ _ hr
      have h2 := hc _ _ _ he hr
      have h3 := ih _ _ _ _ (error_or_end_of_rest he h1) h
      simp only [List.length_append, List.length_singleton] at h3
      omega
    · simp only [Outcome.ok.injEq, Prod.mk.injEq] at h
      rw [← h.1, ← h.2]
      exact Nat.le_refl _
    · cases h

/-! ### Parser: the grammar consumes tokens and terminates -/

theorem all_nil (p : Matcher → Prop) : ∀ m ∈ ([] : List Matcher), p m :=
  fun _ h => absurd h (List.not_mem_nil _)

theorem all_cons {p : Matcher → Prop} {a : Matcher} {ms : List Matcher} (ha : p a)
    (hms : ∀ m ∈ ms, p m) : ∀ m ∈ a :: ms, p m :=
  List.forall_mem_cons.2 ⟨ha, hms⟩

theorem advances_newline : advances newline :=
  advances_and (all_cons
    (advances_optional (advances_and
      (all_cons (advances_optional (advances_one _)) (all_cons (advances_one _) (all_nil _)))))
    (all_cons (advances_one _) (all_nil _)))

theorem consumes_newline : consumes newline :=
  consumes_and_loop_right
    (advances_optional (advances_and
      (all_cons (advances_optional (advances_one _)) (all_cons (advances_one _) (all_nil _)))))
    (consumes_and_loop_left (consumes_id (by decide)) (all_nil _)) []

theorem regular_newline (n : Nat) : regular n newline newline :=
  regular_and_loop_cons
    (regular_optional
      (regular_and_loop_cons (regular_optional (regular_one n _))
        (advances_optional (advances_one _))
        (regular_and_loop_cons (regular_one n _) (advances_one _) (regular_and_loop_nil n)) []))
    (advances_optional (advances_and
      (all_cons (advances_optional (advances_one _)) (all_cons (advances_one _) (all_nil _)))))
    (regular_and_loop_cons (regular_one n _) (advances_one _) (regular_and_loop_nil n)) []

theorem advances_newlines (fuel : Nat) : advances (many fuel newline) :=
  advances_many advances_newline fuel

theorem regular_newlines {n fuel1 fuel2 : Nat} (h1 : n < fuel1) (h2 : n < fuel2) :
    regular n (many fuel1 newline) (many fuel2 newline) :=
  regular_many (regular_newline n) advances_newline consumes_newline h1 h2

theorem advances_directive (d : String) : advances (directive d) :=
  advances_and (all_cons (advances_one _) (all_cons (advances_one _) (all_nil _)))

theorem regular_directive (n : Nat) (d : String) : regular n (directive d) (directive d) :=
  regular_and_loop_cons (regular_one n _) (advances_one _)
    (regular_and_loop_cons (regular_one n _) (advances_one _) (regular_and_loop_nil n)) []

theorem importation_tail (fuel : Nat) :
    ∀ m ∈ [name, id ":", spaces, id ":string:", many fuel newline], advances m :=
  all_cons (advances_one _) (all_cons (advances_one _) (all_cons (advances_one _)
    (all_cons (advances_one _) (all_cons (advances_newlines fuel) (all_nil _)))))

theorem advances_importation (fuel : Nat) : advances (importation fuel) :=
  advances_and (all_cons (advances_one _) (importation_tail fuel))

theorem consumes_importation (fuel : Nat) : consumes (importation fuel) :=
  consumes_and_loop_left (consumes_id (by decide)) (importation_tail fuel) []

theorem regular_importation {n fuel1 fuel2 : Nat} (h1 : n < fuel1) (h2 : n < fuel2) :
    regular n (importation fuel1) (importation fuel2) :=
  regular_and_loop_cons (regular_one n _) (advances_one _)
    (regular_and_loop_cons (regular_one n _) (advances_one _)
      (regular_and_loop_cons (regular_one n _) (advances_one _)
        (regular_and_loop_cons (regular_one n _) (advances_one _)
          (regular_and_loop_cons (regular_one n _) (advances_one _)
            (regular_and_loop_cons (regular_newlines h1 h2) (advances_newlines fuel1)
              (regular_and_loop_nil n)))))) []

theorem advances_import_declaration (fuel : Nat) : advances (import_declaration fuel) :=
  advances_and (all_cons (advances_directive _) (all_cons (advances_newlines fuel)
    (all_cons (advances_many (advances_importation fuel) fuel) (all_nil _))))

theorem regular_import_declaration {n fuel1 fuel2 : Nat} (h1 : n < fuel1) (h2 : n < fuel2) :
    regular n (import_declaration fuel1) (import_declaration fuel2) :=
  regular_and_loop_cons (regular_directive n _) (advances_directive _)
    (regular_and_loop_cons (regular_newlines h1 h2) (advances_newlines fuel1)
      (regular_and_loop_cons
        (regular_many (regular_importation h1 h2) (advances_importation fuel1)
          (consumes_importation fuel1) h1 h2)
        (advances_many (advances_importation fuel1) fuel1) (regular_and_loop_nil n))) []

theorem label_tail (fuel : Nat) : ∀ m ∈ [id ":", many fuel newline], advances m :=
  all_cons (advances_one _) (all_cons (advances_newlines fuel) (all_nil _))

theorem advances_label (fuel : Nat) : advances (label fuel) :=
  advances_and (all_cons (advances_one _) (label_tail fuel))

theorem consumes_label (fuel : Nat) : consumes (label fuel) :=
  consumes_and_loop_left consumes_name (label_tail fuel) []

theorem regular_label {n fuel1 fuel2 : Nat} (h1 : n < fuel1) (h2 : n < fuel2) :
    regular n (label fuel1) (label fuel2) :=
  regular_and_loop_cons (regular_one n _) (advances_one _)
    (regular_and_loop_cons (regular_one n _) (advances_one _)
      (regular_and_loop_cons (regular_newlines h1 h2) (advances_newlines fuel1)
        (regular_and_loop_nil n))) []

theorem advances_ref : advances ref :=
  advances_or_cons
    (advances_and (all_cons (advances_one _) (all_cons (advances_one _)
      (all_cons (advances_one _) (all_nil _)))))
    (advances_or_cons (advances_one _) advances_or_nil)

theorem regular_ref (n : Nat) : regular n ref ref :=
  regular_or_cons
    (regular_and_loop_cons (regular_one n _) (advances_one _)
      (regular_and_loop_cons (regular_one n _) (advances_one _)
        (regular_and_loop_cons (regular_one n _) (advances_one _)
          (regular_and_loop_nil n))) [])
    (regular_or_cons (regular_one n _) (regular_or_nil n))

theorem advances_value : advances value :=
  advances_or_cons (advances_one _)
    (advances_or_cons (advances_one _) (advances_or_cons advances_ref advances_or_nil))

theorem regular_value (n : Nat) : regular n value value :=
  regular_or_cons (regular_one n _)
    (regular_or_cons (regular_one n _) (regular_or_cons (regular_ref n) (regular_or_nil n)))

theorem advances_operand : advances operand :=
  advances_and (all_cons (advances_one _) (all_cons advances_value (all_nil _)))

theorem consumes_operand : consumes operand :=
  consumes_and_loop_left (consumes_id (by decide)) (all_cons advances_value (all_nil _)) []

theorem regular_operand (n : Nat) : regular n operand operand :=
  regular_and_loop_cons (regular_one n _) (advances_one _)
    (regular_and_loop_cons (regular_value n) advances_value (regular_and_loop_nil n)) []

theorem statement_tail (fuel : Nat) :
    ∀ m ∈ [name, «repeat» fuel operand, many fuel newline], advances m :=
  all_cons (advances_one _) (all_cons (advances_repeat advances_operand fuel)
    (all_cons (advances_newlines fuel) (all_nil _)))

theorem advances_statement (fuel : Nat) : advances (statement fuel) :=
  advances_and (all_cons (advances_one _) (statement_tail fuel))

theorem consumes_statement (fuel : Nat) : consumes (statement fuel) :=
  consumes_and_loop_left (consumes_id (by decide)) (statement_tail fuel) []

theorem regular_statement {n fuel1 fuel2 : Nat} (h1 : n < fuel1) (h2 : n < fuel2) :
    regular n (statement fuel1) (statement fuel2) :=
  regular_and_loop_cons (regular_one n _) (advances_one _)
    (regular_and_loop_cons (regular_one n _) (advances_one _)
      (regular_and_loop_cons
        (regular_repeat (regular_operand n) advances_operand consumes_operand h1 h2)
        (advances_repeat advances_operand fuel1)
        (regular_and_loop_cons (regular_newlines h1 h2) (advances_newlines fuel1)
          (regular_and_loop_nil n)))) []

theorem definition_tail (fuel : Nat) : ∀ m ∈ [many fuel (statement fuel)], advances m :=
  all_cons (advances_many (advances_statement fuel) fuel) (all_nil _)

theorem advances_definition (fuel : Nat) : advances (definition fuel) :=
  advances_and (all_cons (advances_many (advances_label fuel) fuel) (definition_tail fuel))

theorem consumes_definition (fuel : Nat) : consumes (definition fuel) :=
  consumes_and_loop_left (consumes_many (advances_label fuel) (consumes_label fuel) fuel)
    (definition_tail fuel) []

theorem regular_definition {n fuel1 fuel2 : Nat} (h1 : n < fuel1) (h2 : n < fuel2) :
    regular n (definition fuel1) (definition fuel2) :=
  regular_and_loop_cons
    (regular_many (regular_label h1 h2) (advances_label fuel1) (consumes_label fuel1) h1 h2)
    (advances_many (advances_label fuel1) fuel1)
    (regular_and_loop_cons
      (regular_many (regular_statement h1 h2) (advances_statement fuel1)
        (consumes_statement fuel1) h1 h2)
      (advances_many (advances_statement fuel1) fuel1) (regular_and_loop_nil n)) []

theorem exportation_tail (fuel : Nat) : ∀ m ∈ [name, many fuel newline], advances m :=
  all_cons (advances_one _) (all_cons (advances_newlines fuel) (all_nil _))

theorem advances_exportation (fuel : Nat) : advances (exportation fuel) :=
  advances_and (all_cons (advances_one _) (exportation_tail fuel))

theorem consumes_exportation (fuel : Nat) : consumes (exportation fuel) :=
  consumes_and_loop_left (consumes_id (by decide)) (exportation_tail fuel) []

theorem regular_exportation {n fuel1 fuel2 : Nat} (h1 : n < fuel1) (h2 : n < fuel2) :
    regular n (exportation fuel1) (exportation fuel2) :=
  regular_and_loop_cons (regular_one n _) (advances_one _)
    (regular_and_loop_cons (regular_one n _) (advances_one _)
      (regular_and_loop_cons (regular_newlines h1 h2) (advances_newlines fuel1)
        (regular_and_loop_nil n))) []

theorem advances_export_declaration (fuel : Nat) : advances (export_declaration fuel) :=
  advances_and (all_cons (advances_directive _) (all_cons (advances_newlines fuel)
    (all_cons (advances_many (advances_exportation fuel) fuel) (all_nil _))))

theorem regular_export_declaration {n fuel1 fuel2 : Nat} (h1 : n < fuel1) (h2 : n < fuel2) :
    regular n (export_declaration fuel1) (export_declaration fuel2) :=
  regular_and_loop_cons (regular_directive n _) (advances_directive _)
    (regular_and_loop_cons (regular_newlines h1 h2) (advances_newlines fuel1)
      (regular_and_loop_cons
        (regular_many (regular_exportation h1 h2) (advances_exportation fuel1)
          (consumes_exportation fuel1) h1 h2)
        (advances_many (advances_exportation fuel1) fuel1) (regular_and_loop_nil n))) []

theorem advances_module (fuel : Nat) : advances (module fuel) :=
  advances_and (all_cons (advances_repeat advances_newline fuel)
    (all_cons (advances_optional (advances_import_declaration fuel))
      (all_cons (advances_repeat (advances_definition fuel) fuel)
        (all_cons (advances_optional (advances_export_declaration fuel)) (all_nil _)))))

theorem regular_module {n fuel1 fuel2 : Nat} (h1 : n < fuel1) (h2 : n < fuel2) :
    regular n (module fuel1) (module fuel2) :=
  regular_and_loop_cons
    (regular_repeat (regular_newline n) advances_newline consumes_newline h1 h2)
    (advances_repeat advances_newline fuel1)
    (regular_and_loop_cons (regular_optional (regular_import_declaration h1 h2))
      (advances_optional (advances_import_declaration fuel1))
      (regular_and_loop_cons
        (regular_repeat (regular_definition h1 h2) (advances_definition fuel1)
          (consumes_definition fuel1) h1 h2)
        (advances_repeat (advances_definition fuel1) fuel1)
        (regular_and_loop_cons (regular_optional (regular_export_declaration h1 h2))
          (advances_optional (advances_export_declaration fuel1))
          (regular_and_loop_nil n)))) []

/-! ### Parser: `parse` terminates -/

theorem token_stream_rest : ∀ (fuel : Nat) (s : TokenizerState) (t : Token),
    (token_stream fuel s).2 = some t → t.id = ":error:" ∧ t.alphameric = false := by
  intro fuel
  induction fuel with
  | zero =>
    intro s t h
    cases h
  | succ fuel ih =>
    intro s t h
    simp only [token_stream] at h
    split at h
    · cases h
    · rename_i t0 s1 hg
      split_ifs at h with hid
      · simp only [Option.some.injEq] at h
        subst h
        refine ⟨hid, ?_⟩
        rw [(token_generator_error hg hid).2]
      · exact ih s1 t h

theorem make_input_error_or_end (s : TokenizerState) : (make_input s).error_or_end := by
  intro t ht
  unfold make_input at ht
  split at ht
  · exact token_stream_rest _ _ _ ht
  · rename_i hs
    rw [token_generator_undefined_source s hs] at ht
    simp only [Option.some.injEq] at ht
    subst ht
    exact ⟨rfl, rfl⟩

theorem module_returns {input : Input} {fuel : Nat} (he : input.error_or_end)
    (hf : input.tokens.length < fuel) :
    module fuel input ≠ .diverge ∧
      module fuel input = module (input.tokens.length + 1) input :=
  ⟨(@regular_module input.tokens.length fuel fuel hf hf).1 input he (Nat.le_refl _),
    (@regular_module input.tokens.length fuel (input.tokens.length + 1) hf
      (Nat.lt_succ_self _)).2 input he (Nat.le_refl _)⟩

theorem parse_returns (s : TokenizerState) :
    (∃ tree, parse s = .ok tree) ∨ ∃ f, parse s = .fail f := by
  have h := (module_returns (make_input_error_or_end s) (Nat.lt_succ_self _)).1
  unfold parse
  simp only
  cases hm : module ((make_input s).tokens.length + 1) (make_input s) with
  | ok r =>
    obtain ⟨input1, tree⟩ := r
    simp only
    cases input1.token with
    | none => exact Or.inl ⟨tree, rfl⟩
    | some t => exact Or.inr ⟨_, rfl⟩
  | fail f => exact Or.inr ⟨f, rfl⟩
  | diverge => exact absurd hm h

theorem many_turns {m : Matcher} (hadv : advances m) (hc : consumes m) (fuel : Nat)
    (input input1 : Input) (node : Node) (he : input.error_or_end)
    (h : many fuel m input = .ok (input1, node)) :
    node.items.length + input1.tokens.length ≤ input.tokens.length := by
  simp only [many] at h
  split at h
  · rename_i i1 head hr
    split at h
    · rename_i i2 tail ht
      simp only [Outcome.ok.injEq, Prod.mk.injEq] at h
      rw [← h.1, ← h.2]
      have h1 := hc _ _ _ he hr
      have h2 := repeat_loop_turns hadv hc fuel [] i1 i2 tail
        (error_or_end_of_rest he (hadv _ _ _ hr).1) ht
      simp only [Node.items, List.length_cons, List.length_nil] at h2 ⊢
      omega
    · cases h
    · cases h
  · cases h
  · cases h

/-- What makes a loop over `m` end: `m` only moves forward, consumes a token
whenever it succeeds, so does not succeed at the end of the stream or on the
error token; a `repeat` or `many` loop over it adds no more nodes than it
uses up tokens, and returns when its fuel exceeds the tokens left. -/
theorem loop_ends {m : Matcher} {fuel : Nat} (hadv : advances m) (hc : consumes m)
    (hreg : ∀ n, n < fuel → regular n m m) :
    advances m ∧ consumes m ∧
      (∀ input, input.error_or_end → input.tokens = [] → ∀ r, m input ≠ .ok r) ∧
      (∀ fuel2 input input1 node, input.error_or_end →
        («repeat» fuel2 m input = .ok (input1, node) ∨
          many fuel2 m input = .ok (input1, node)) →
        node.items.length + input1.tokens.length ≤ input.tokens.length) ∧
      (∀ fuel2 input, input.error_or_end → input.tokens.length < fuel →
        input.tokens.length < fuel2 →
        «repeat» fuel2 m input ≠ .diverge ∧ many fuel2 m input ≠ .diverge) := by
  refine ⟨hadv, hc, ?_, ?_, ?_⟩
  · intro input he ht r hr
    have := hc input r.1 r.2 he hr
    rw [ht] at this
    exact absurd this (Nat.not_lt_zero _)
  · intro fuel2 input input1 node he h
    rcases h with h | h
    · have := repeat_loop_turns hadv hc fuel2 [] input input1 node he h
      simpa using this
    · exact many_turns hadv hc fuel2 input input1 node he h
  · intro fuel2 input he h1 h2
    exact ⟨(regular_repeat (hreg _ h1) hadv hc h2 h2).1 input he (Nat.le_refl _),
      (regular_many (hreg _ h1) hadv hc h2 h2).1 input he (Nat.le_refl _)⟩

/-- C22: `parse` terminates.  The cursor that `make_input` makes has its
tokens followed by end-of-stream or by error tokens.  On such a cursor each
matcher under `repeat` or `many` in the grammar (`newline`, `importation`,
`label`, `statement`, `operand`, `definition`, `exportation`) only moves
forward and consumes at least one token whenever it succeeds, so it does not
succeed at the end of the stream or on the error token; a loop over it adds no
more nodes than it uses up tokens, and returns as soon as its fuel exceeds the
tokens left.  Hence `module` returns, with the same result for every fuel that
exceeds the tokens left, and `parse` returns a tree or a failure for every
generator state. -/
theorem parse_terminates :
    (∀ s : TokenizerState, (make_input s).error_or_end) ∧
    (∀ (fuel : Nat) (m : Matcher),
      m ∈ [newline, importation fuel, label fuel, statement fuel, operand, definition fuel,
        exportation fuel] →
      advances m ∧ consumes m ∧
        (∀ input, input.error_or_end → input.tokens = [] → ∀ r, m input ≠ .ok r) ∧
        (∀ fuel2 input input1 node, input.error_or_end →
          («repeat» fuel2 m input = .ok (input1, node) ∨
            many fuel2 m input = .ok (input1, node)) →
          node.items.length + input1.tokens.length ≤ input.tokens.length) ∧
        (∀ fuel2 input, input.error_or_end → input.tokens.length < fuel →
          input.tokens.length < fuel2 →
          «repeat» fuel2 m input ≠ .diverge ∧ many fuel2 m input ≠ .diverge)) ∧
    (∀ (input : Input) (fuel : Nat), input.error_or_end → input.tokens.length < fuel →
      module fuel input ≠ .diverge ∧
        module fuel input = module (input.tokens.length + 1) input) ∧
    (∀ s : TokenizerState, (∃ tree, parse s = .ok tree) ∨ ∃ f, parse s = .fail f) := by
  refine ⟨make_input_error_or_end, ?_, fun input fuel he hf => module_returns he hf,
    parse_returns⟩
  intro fuel m hm
  simp only [List.mem_cons, List.mem_singleton, List.not_mem_nil, or_false] at hm
  rcases hm with rfl | rfl | rfl | rfl | rfl | rfl | rfl
  · exact loop_ends advances_newline consumes_newline (fun n _ => regular_newline n)
  · exact loop_ends (advances_importation fuel) (consumes_importation fuel)
      (fun n h => regular_importation h h)
  · exact loop_ends (advances_label fuel) (consumes_label fuel) (fun n h => regular_label h h)
  · exact loop_ends (advances_statement fuel) (consumes_statement fuel)
      (fun n h => regular_statement h h)
  · exact loop_ends advances_operand consumes_operand (fun n _ => regular_operand n)
  · exact loop_ends (advances_definition fuel) (consumes_definition fuel)
      (fun n h => regular_definition h h)
  · exact loop_ends (advances_exportation fuel) (consumes_exportation fuel)
      (fun n h => regular_exportation h h)

/-- C22 at the tokens of `a:\n end stop\n` followed by a tab: the stream ends
with error tokens, `module` gives the same result with fuel 100 as with the
fuel of `parse`, and `parse` fails at the error token. -/
theorem parse_terminates_witness :
    (make_input (tokenize "a:\n end stop\n\t")).rest
        = some { id := ":error:", line_nr := 2, column_nr := 0 } ∧
      module 100 (make_input (tokenize "a:\n end stop\n\t"))
        = module ((make_input (tokenize "a:\n end stop\n\t")).tokens.length + 1)
            (make_input (tokenize "a:\n end stop\n\t")) ∧
      parse (tokenize "a:\n end stop\n\t")
        = .fail { message := "Unexpected token.",
                  token := .token { id := ":error:", line_nr := 2, column_nr := 0 } } :=
  ⟨by decide,
    (parse_terminates.2.2.1 (make_input (tokenize "a:\n end stop\n\t")) 100
      (parse_terminates.1 _) (by decide)).2,
    rfl⟩

/-! ### Assembler: the error token -/

theorem token_generator_none {s s1 : TokenizerState} (h : token_generator s = (none, s1)) :
    s1 = s := by
  unfold token_generator at h
  split at h
  · simp [error] at h
  · simp only [Prod.mk.injEq, true_and] at h
    exact h.symm
  · simp only at h
    repeat' split at h
    all_goals simp [error] at h

theorem state_after_succ (s : TokenizerState) (n : Nat) :
    state_after s (n + 1) = state_after (token_generator s).2 n := by
  induction n with
  | zero => rfl
  | succ n ih =>
    show (token_generator (state_after s (n + 1))).2 = _
    rw [ih]
    rfl

theorem nth_call_succ (s : TokenizerState) (n : Nat) :
    nth_call s (n + 1) = nth_call (token_generator s).2 n := by
  unfold nth_call
  rw [state_after_succ]

theorem state_after_undefined (s : TokenizerState) (h : s.source = none) (n : Nat) :
    state_after s n = s := by
  induction n with
  | zero => rfl
  | succ n ih =>
    show (token_generator (state_after s n)).2 = s
    rw [ih, token_generator_undefined_source s h]

/-- An error token that some call of the generator returns is what the token
stream of `make_input` ends with. -/
theorem error_reaches_stream : ∀ (n : Nat) (s : TokenizerState) (src : List Char) (t : Token),
    s.source = some src → (nth_call s n).1 = some t → t.id = ":error:" →
    ∀ fuel, src.length < fuel → (token_stream fuel s).2 = some t := by
  intro n
  induction n with
  | zero =>
    intro s src t _ h hid fuel hf
    obtain ⟨fuel, rfl⟩ : ∃ k, fuel = k + 1 := ⟨fuel - 1, by omega⟩
    have hg : token_generator s = (some t, (token_generator s).2) := Prod.ext h rfl
    simp only [token_stream]
    rw [hg]
    simp only [hid, if_true]
  | succ n ih =>
    intro s src t hs h hid fuel hf
    obtain ⟨fuel, rfl⟩ : ∃ k, fuel = k + 1 := ⟨fuel - 1, by omega⟩
    rw [nth_call_succ] at h
    cases hg : token_generator s with
    | mk r s1 =>
      rw [hg] at h
      simp only at h
      cases r with
      | none =>
        rw [token_generator_none hg] at h
        exact ih s src t hs h hid (fuel + 1) hf
      | some t0 =>
        simp only [token_stream]
        rw [hg]
        simp only
        by_cases h0 : t0.id = ":error:"
        · rw [if_pos h0]
          obtain ⟨hsrc, ht0⟩ := token_generator_error hg h0
          unfold nth_call at h
          rw [state_after_undefined s1 hsrc, token_generator_undefined_source s1 hsrc] at h
          simp only [Option.some.injEq] at h
          rw [← h, ← ht0]
        · rw [if_neg h0]
          obtain ⟨rest, hrest, hlen⟩ := token_generator_progress hs hg h0
          exact ih s1 rest t hrest h hid fuel (by omega)

theorem parse_fails_of_rest {s : TokenizerState} {t : Token}
    (h : (make_input s).rest = some t) : ∃ f, parse s = .fail f := by
  rcases parse_returns s with ⟨tree, hp⟩ | hp
  · unfold parse at hp
    simp only at hp
    split at hp
    · rename_i input1 tree1 hm
      have hr := (advances_module _ _ _ _ hm).1
      split at hp
      · cases hp
      · rename_i hn
        simp only [Input.token] at hn
        split at hn
        · cases hn
        · rw [hr, h] at hn
          cases hn
    · cases hp
    · cases hp
  · exact hp

/-- C21: when some call of the token generator on a source returns an error
token, the token stream of `make_input` ends with that token, every matcher
of the grammar that reads a token fails on it, `parse` returns a failure
object, and `assemble` returns an error record of kind `"error"` with the
message and the position of that failure, never a document. -/
theorem error_token_never_assembles (source file : String) (n : Nat) (t : Token)
    (h : (nth_call (tokenize source) n).1 = some t) (hid : t.id = ":error:") :
    (make_input (tokenize source)).rest = some t ∧
      (∀ m ∈ [spaces, id ":comment:", id "\n", id ".", id "import", id "export", id ":",
          id ":string:", id ":number:", pound, name],
        ∀ input : Input, input.token = some t →
          m input = .fail { message := "Unexpected.", token := .token t }) ∧
      ∃ f, parse (tokenize source) = .fail f ∧
        assemble source file
          = .error { kind := "error", message := f.message, file := file,
                     line := f.token.line_nr, column := f.token.column_nr } ∧
        ∀ d, assemble source file ≠ .document d := by
  have hrest : (make_input (tokenize source)).rest = some t :=
    error_reaches_stream n (tokenize source) source.data t rfl h hid _ (Nat.lt_succ_self _)
  have halpha : t.alphameric = false :=
    (make_input_error_or_end (tokenize source) t hrest).2
  refine ⟨hrest, ?_, ?_⟩
  · intro m hm input hi
    simp only [List.mem_cons, List.mem_singleton, List.not_mem_nil, or_false] at hm
    rcases hm with rfl | rfl | rfl | rfl | rfl | rfl | rfl | rfl | rfl | rfl | rfl <;>
      simp [spaces, UFork.id, pound, name, one, hi, hid, halpha]
  · obtain ⟨f, hf⟩ := parse_fails_of_rest hrest
    have ha : assemble source file
        = .error { kind := "error", message := f.message, file := file,
                   line := f.token.line_nr, column := f.token.column_nr } := by
      simp only [assemble, hf, generate_crlf]
    refine ⟨f, hf, ha, ?_⟩
    intro d hd
    rw [ha] at hd
    cases hd

/-- C21 at a source that ends with a tab and at a source with an unsafe
number. -/
theorem error_token_never_assembles_witness :
    (nth_call (tokenize "a:\n end stop\n\t") 8).1
        = some { id := ":error:", line_nr := 2, column_nr := 0 } ∧
      assemble "a:\n end stop\n\t" "f.asm"
        = .error { kind := "error", message := "Unexpected token.", file := "f.asm",
                   line := some 2, column := some 0 } ∧
      assemble "a:\n push 9007199254740992\n end stop\n" "f.asm"
        = .error { kind := "error", message := "Unexpected token.", file := "f.asm",
                   line := some 0, column := some 0 } ∧
      ∀ d, assemble "a:\n end stop\n\t" "f.asm" ≠ .document d :=
  ⟨by decide, by decide, by decide,
    let ⟨_, _, _, h⟩ := (error_token_never_assembles "a:\n end stop\n\t" "f.asm" 8
      { id := ":error:", line_nr := 2, column_nr := 0 } (by decide) (by decide)).2.2
    h⟩

end UFork
